import Mathlib

/-!
# dropsy: change detection, job pool and snapshot store of `monitor.c`

A shallow embedding of `src/monitor.c` / `src/monitor.h`.

Conventions of the embedding

* A C string is the list of its bytes before the terminating NUL (`List Nat`).
* C `int` values are `Int`; where the source narrows a wider value to `int`
  the narrowing is written out (`to_int`).  Counters (`n_jobs`, `changes`,
  `total`) are assumed not to overflow.
* A `file_t *` list is the `List file_t` of the nodes after its dummy head
  node; a NULL list pointer is `none`.
* Process state (the globals `first_run`, `quit`, `n_jobs`, the one
  `monitor_t` object, the set of live child processes and everything the
  process has written or done so far) is the record `World`, passed
  explicitly.  `World.trace` lists the observable events, most recent first.
* A function that may terminate the process returns `Res`: `ret` (normal
  return), `exit` (the process called `exit`), `fault` (a NULL pointer was
  dereferenced or an array overrun) or `more` (a fuelled loop was cut off).
* What the outside world decides is a parameter: `Env` for the child
  processes (their termination status, the order in which `wait` reaps
  them, whether `fork` fails), `Host` for the file system.
* `calloc` and `strdup` are assumed to succeed, and children are assumed to terminate.
-/

namespace Dropsy

/-! ## monitor.h -/

def PROGRAM_NAME : List Nat := [100, 114, 111, 112, 115, 121]

def SLASH : Nat := 47

def DIRS_MAX : Nat := 256

def MONITOR_NONE : Int := 0
def MONITOR_ADD : Int := 1
def MONITOR_DEL : Int := 2
def MONITOR_MOD : Int := 3

/-- Value of limits.h `PATH_MAX` on the platforms the source is conditioned on (Linux). -/
def PATH_MAX : Nat := 4096

/-- The struct `file_t` without its `next` link. -/
structure file_t where
  path : List Nat
  size : Int
  mtime : Int
  changed : Int
deriving DecidableEq, Repr

/-- The fields of `monitor_t` that `monitor.c` reads or writes.  A callback
field holds whether the function pointer is set. -/
structure monitor_t where
  hostname : List Nat
  username : List Nat
  password : Option (List Nat)
  directories : List (List Nat)
  _d_idx : Nat
  _w_pos : Nat
  parallel_max : Int
  state_file : List Nat
  initialized : Bool
  list_now : Option (List file_t)
  list_prev : Option (List file_t)
  add_callback : Bool
  del_callback : Bool
  mod_callback : Bool
deriving DecidableEq, Repr

/-! ## Processes and observable events -/

/-- The function a forked child runs before it exits with that function's result. -/
inductive Work where
  | remote_add
  | remote_del
deriving DecidableEq, Repr

/-- What `wait` stores in `status`: `exited c` has WIFEXITED true and
WEXITSTATUS `c % 256`; `killed` has WIFEXITED false. -/
inductive WaitStatus where
  | exited (code : Nat)
  | killed
deriving DecidableEq, Repr

/-- The argument of a call of `error`. -/
inductive ErrorMsg where
  | wait
  | fork
  | calloc
  | dirs_limit
  | no_directory
  | not_a_directory
deriving DecidableEq, Repr

/-- The format of a progress line written with `printf`. -/
inductive Msg where
  | add_file
  | init_file
  | del_file
  | mod_file
deriving DecidableEq, Repr

inductive Event where
  /-- A registered callback was called with this record. -/
  | callback (f : file_t)
  /-- Function `fork` succeeded in the parent; the child, numbered `job`, holds the record `f`
  as it is at the fork and runs `work` on `f.path`. -/
  | fork (job : Nat) (work : Work) (f : file_t)
  /-- Function `wait` returned child number `job` with status `st`. -/
  | reap (job : Nat) (st : WaitStatus)
  | print (m : Msg) (path : List Nat)
  | print_total (n : Int)
  | print_error (msg : ErrorMsg)
  | print_fatal
  | sleep (seconds : Int)
  /-- The state file was opened for writing and this content written. -/
  | saved (content : List Nat)
deriving DecidableEq, Repr

/-- Decisions of the outside world about the child processes. -/
structure Env where
  /-- Termination status of the child created by call number `k` of `fork` (calls are
  numbered from 0, failed ones included). -/
  status : Nat → WaitStatus
  /-- Which live child call number `k` of `wait` reaps: an index into the live children,
  oldest first, taken modulo their number. -/
  pick : Nat → Nat
  /-- Whether call number `k` of `fork` fails. -/
  fork_fails : Nat → Bool

structure World where
  first_run : Bool
  quit : Bool
  n_jobs : Int
  /-- Children forked and not yet reaped, oldest first. -/
  children : List Nat
  /-- Number of calls of `fork` so far. -/
  forks : Nat
  /-- Number of calls of `wait` so far. -/
  waits : Nat
  /-- Number of calls of `monitor_files_get` so far. -/
  scans : Nat
  /-- Content of the state file; `none` when it cannot be opened for reading. -/
  state_file : Option (List Nat)
  trace : List Event
  mon : monitor_t
deriving DecidableEq, Repr

def World.log (w : World) (e : Event) : World :=
  { w with trace := e :: w.trace }

inductive Res (α : Type) where
  | ret (a : α) (w : World)
  | exit (code : Nat) (w : World)
  | fault (w : World)
  | more (w : World)
deriving DecidableEq, Repr

def Res.bind {α β : Type} (r : Res α) (k : α → World → Res β) : Res β :=
  match r with
  | Res.ret a w => k a w
  | Res.exit c w => Res.exit c w
  | Res.fault w => Res.fault w
  | Res.more w => Res.more w

/-- The world in which a result was produced. -/
def Res.world {α : Type} : Res α → World
  | Res.ret _ w => w
  | Res.exit _ w => w
  | Res.fault w => w
  | Res.more w => w

/-! ## monitor.c: error and the job pool -/

def error {α : Type} (str : ErrorMsg) (w : World) : Res α :=
  Res.exit (1 <<< 7) (w.log (Event.print_error str))

/-- The system call `wait`: fails when there is no child, otherwise removes
the child the environment picks and yields its status. -/
def sys_wait (env : Env) (w : World) : Option WaitStatus × World :=
  match w.children with
  | [] => (none, { w with waits := w.waits + 1 })
  | c :: cs =>
    let i := env.pick w.waits % (cs.length + 1)
    let job := (c :: cs).getD i c
    (some (env.status job),
      { w with waits := w.waits + 1, children := (c :: cs).eraseIdx i,
               trace := Event.reap job (env.status job) :: w.trace })

def wait_for_job (env : Env) (w : World) : Res Int :=
  match sys_wait env w with
  | (none, w1) => error ErrorMsg.wait w1
  | (some WaitStatus.killed, w1) => Res.ret 1 w1
  | (some (WaitStatus.exited code), w1) =>
    Res.ret ((code % 256 : Nat) : Int) { w1 with n_jobs := w1.n_jobs - 1 }

def wait_for_all_jobs_loop (env : Env) : Nat → World → Res Int
  | 0, w => Res.more w
  | fuel + 1, w =>
    if w.n_jobs ≠ 0 then
      match wait_for_job env w with
      | Res.ret err w1 => if err ≠ 0 then Res.ret 0 w1 else wait_for_all_jobs_loop env fuel w1
      | Res.exit c w1 => Res.exit c w1
      | Res.fault w1 => Res.fault w1
      | Res.more w1 => Res.more w1
    else Res.ret 1 w

/-- Every iteration of the loop that does not leave it reaps a child, so
one more iteration than there are children is enough. -/
def wait_for_all_jobs (env : Env) (w : World) : Res Int :=
  wait_for_all_jobs_loop env (w.children.length + 1) w

/-! ## monitor.c: shutdown -/

/-- The password buffer after `_clear_password`: the bytes before the first NUL are zeroed. -/
def _clear_password : List Nat → List Nat
  | [] => []
  | b :: rest => if b = 0 then b :: rest else 0 :: _clear_password rest

/-- Zeroes the password (dereferencing `mon->password`, NULL or not) and frees the monitor. -/
def monitor_shutdown (w : World) : Res Unit :=
  match w.mon.password with
  | none => Res.fault w
  | some pass => Res.ret () { w with mon := { w.mon with password := some (_clear_password pass) } }

/-! ## monitor.c: the diff passes -/

def file_exists : List file_t → List Nat → Option file_t
  | [], _ => none
  | f :: rest, filename => if f.path = filename then some f else file_exists rest filename

/-- The job-pool lines shared by the three passes: the at-capacity wait
(whose result is dropped), `fork`, and `++n_jobs`. -/
def dispatch (env : Env) (work : Work) (f : file_t) (w : World) : Res Unit :=
  (if w.n_jobs = w.mon.parallel_max then wait_for_job env w else Res.ret 0 w).bind fun _ w1 =>
    if env.fork_fails w1.forks then
      error ErrorMsg.fork { w1 with forks := w1.forks + 1 }
    else
      Res.ret () { w1 with forks := w1.forks + 1, children := w1.children ++ [w1.forks],
                           n_jobs := w1.n_jobs + 1,
                           trace := Event.fork w1.forks work f :: w1.trace }

/-- The loop of `_check_add_files` over the nodes from `f` on; returns
`changes` and the nodes with their `changed` field as the loop leaves them. -/
def _check_add_files_loop (env : Env) (first : List file_t) :
    List file_t → Int → World → Res (Int × List file_t)
  | [], changes, w => Res.ret (changes, []) w
  | f :: rest, changes, w =>
    if (file_exists first f.path).isNone || w.first_run then
      let w1 := if w.mon.add_callback then w.log (Event.callback f) else w
      let f1 := { f with changed := MONITOR_ADD }
      (dispatch env Work.remote_add f1 w1).bind fun _ w2 =>
        let w3 := w2.log (if !w2.first_run then Event.print Msg.add_file f1.path
                          else Event.print Msg.init_file f1.path)
        (_check_add_files_loop env first rest (changes + 1) w3).bind fun r w4 =>
          Res.ret (r.1, f1 :: r.2) w4
    else
      (_check_add_files_loop env first rest changes w).bind fun r w4 =>
        Res.ret (r.1, f :: r.2) w4

def _check_add_files (env : Env) (first second : List file_t) (w : World) :
    Res (Int × List file_t) :=
  _check_add_files_loop env first second 0 w

def _check_del_files_loop (env : Env) (second : List file_t) :
    List file_t → Int → World → Res (Int × List file_t)
  | [], changes, w => Res.ret (changes, []) w
  | f :: rest, changes, w =>
    if (file_exists second f.path).isNone then
      let f1 := { f with changed := MONITOR_DEL }
      let w1 := if w.mon.del_callback then w.log (Event.callback f1) else w
      (dispatch env Work.remote_del f1 w1).bind fun _ w2 =>
        let w3 := w2.log (Event.print Msg.del_file f1.path)
        (_check_del_files_loop env second rest (changes + 1) w3).bind fun r w4 =>
          Res.ret (r.1, f1 :: r.2) w4
    else
      (_check_del_files_loop env second rest changes w).bind fun r w4 =>
        Res.ret (r.1, f :: r.2) w4

/-- Returns `changes` and the nodes of `first` as the pass leaves them. -/
def _check_del_files (env : Env) (first second : List file_t) (w : World) :
    Res (Int × List file_t) :=
  _check_del_files_loop env second first 0 w

def _check_mod_files_loop (env : Env) (first : List file_t) :
    List file_t → Int → World → Res (Int × List file_t)
  | [], changes, w => Res.ret (changes, []) w
  | f :: rest, changes, w =>
    match file_exists first f.path with
    | some found =>
      if f.mtime ≠ found.mtime then
        let f1 := { f with changed := MONITOR_MOD }
        let w1 := if w.mon.mod_callback then w.log (Event.callback f1) else w
        (dispatch env Work.remote_add f1 w1).bind fun _ w2 =>
          let w3 := w2.log (Event.print Msg.mod_file f1.path)
          (_check_mod_files_loop env first rest (changes + 1) w3).bind fun r w4 =>
            Res.ret (r.1, f1 :: r.2) w4
      else
        (_check_mod_files_loop env first rest changes w).bind fun r w4 =>
          Res.ret (r.1, f :: r.2) w4
    | none =>
      (_check_mod_files_loop env first rest changes w).bind fun r w4 =>
        Res.ret (r.1, f :: r.2) w4

def _check_mod_files (env : Env) (first second : List file_t) (w : World) :
    Res (Int × List file_t) :=
  _check_mod_files_loop env first second 0 w

def _transfer_error {α : Type} (w : World) : Res α :=
  (monitor_shutdown w).bind fun _ w1 => Res.exit 1 (w1.log Event.print_fatal)

/-- The block that follows each pass in `file_lists_compare`: when the pass
counted changes, add them to `total` and wait for all jobs; a zero result
of that wait ends the run in `_transfer_error`.  Returns the new `total`. -/
def phase_barrier (env : Env) (modifications total : Int) (w : World) : Res Int :=
  if modifications ≠ 0 then
    (wait_for_all_jobs env w).bind fun success w1 =>
      if success = 0 then _transfer_error w1 else Res.ret (total + modifications) w1
  else Res.ret total w

/-- Returns `total` and the two lists (`first`, `second`) as the passes leave them. -/
def file_lists_compare (env : Env) (first second : List file_t) (w : World) :
    Res (Int × List file_t × List file_t) :=
  (_check_add_files env first second w).bind fun a w1 =>
  (phase_barrier env a.1 0 w1).bind fun total1 w2 =>
  (_check_mod_files env first a.2 w2).bind fun m w3 =>
  (phase_barrier env m.1 total1 w3).bind fun total2 w4 =>
  (_check_del_files env first m.2 w4).bind fun d w5 =>
  (phase_barrier env d.1 total2 w5).bind fun total3 w6 =>
    Res.ret (total3, d.2, m.2) (if total3 ≠ 0 then w6.log (Event.print_total total3) else w6)

/-! ## libc: formatted output, `atoi`, `fgets`, `strchr` -/

def dec_digits : Nat → Nat → List Nat → List Nat
  | 0, _, acc => acc
  | fuel + 1, n, acc =>
    if n / 10 = 0 then (48 + n % 10) :: acc
    else dec_digits fuel (n / 10) ((48 + n % 10) :: acc)

/-- The decimal digits of `n` as ASCII bytes. -/
def decimal (n : Nat) : List Nat := dec_digits (n + 1) n []

/-- Conversion `%d` of printf. -/
def printf_d (i : Int) : List Nat :=
  if i < 0 then 45 :: decimal (-i).toNat else decimal i.toNat

def isspace (c : Nat) : Bool := c = 32 || (9 ≤ c && c ≤ 13)

def isdigit (c : Nat) : Bool := 48 ≤ c && c ≤ 57

def atoi_digits (acc : Nat) : List Nat → Nat
  | [] => acc
  | c :: s => if isdigit c then atoi_digits (acc * 10 + (c - 48)) s else acc

/-- Narrowing of a wider integer to a 32-bit `int`. -/
def to_int (x : Int) : Int := (x + 2 ^ 31) % 2 ^ 32 - 2 ^ 31

/-- Function `strtol` in base 10 without end pointer: leading white space, an
optional sign, the digits; the value is clamped to the range of a 64-bit `long`. -/
def strtol10 (s : List Nat) : Int :=
  let clamp : Int → Int := fun v => max (-(2 ^ 63)) (min (2 ^ 63 - 1) v)
  match s.dropWhile isspace with
  | 45 :: t => clamp (-(atoi_digits 0 t : Int))
  | 43 :: t => clamp (atoi_digits 0 t : Int)
  | t => clamp (atoi_digits 0 t : Int)

def atoi (s : List Nat) : Int := to_int (strtol10 s)

/-- Bytes that `fgets` stores from the stream when `room` more fit, and the rest of the stream. -/
def fgets_read : Nat → List Nat → List Nat × List Nat
  | 0, s => ([], s)
  | _ + 1, [] => ([], [])
  | room + 1, c :: s =>
    if c = 10 then ([c], s)
    else ((c :: (fgets_read room s).1), (fgets_read room s).2)

/-- NULL (`none`) at end of file, else the bytes stored in the buffer of
`size` bytes (at most `size - 1`, through the first newline) and the rest of the stream. -/
def fgets (size : Nat) (stream : List Nat) : Option (List Nat × List Nat) :=
  if stream = [] then none else some (fgets_read (size - 1) stream)

/-- The C string that starts a buffer: its bytes before the first NUL. -/
def cstr (buf : List Nat) : List Nat := buf.takeWhile (fun b => b ≠ 0)

/-- NULL (`none`) when `c` does not occur in `s`, else the part of `s` before
the first `c` and the part after it. -/
def strchr : List Nat → Nat → Option (List Nat × List Nat)
  | [], _ => none
  | b :: s, c => if b = c then some ([], s) else (strchr s c).map fun r => (b :: r.1, r.2)

/-- Text that `snprintf` stores in a buffer of `size` bytes. -/
def snprintf (size : Nat) (text : List Nat) : List Nat := text.take (size - 1)

/-! ## monitor.c: the snapshot store -/

/-- The list after `file_list_add`; `st_mtime` and `st_size` are the wide fields of the `struct stat`. -/
def file_list_add (list : List file_t) (path : List Nat) (st_mtime st_size : Int) : List file_t :=
  list ++ [{ path := path, size := to_int st_size, mtime := to_int st_mtime, changed := 0 }]

/-- One iteration of the read loop of `file_list_state_get` on the buffer `buf`. -/
def file_list_state_get_line (list : List file_t) (buf : List Nat) : List file_t :=
  if (cstr buf).head? = some 35 then list
  else
    match strchr (cstr buf) 9 with
    | none => list
    | some (path, mtime_start) =>
      match strchr mtime_start 9 with
      | none => list
      | some (mtime, size_start) => file_list_add list path (atoi mtime) (atoi size_start)

def file_list_state_get_loop : Nat → List Nat → List file_t → Option (List file_t)
  | 0, _, _ => none
  | fuel + 1, stream, list =>
    match fgets 4096 stream with
    | none => some list
    | some (buf, rest) => file_list_state_get_loop fuel rest (file_list_state_get_line list buf)

/-- Argument `file` is the content of the file at `path`, `none` when it
cannot be opened.  The result is NULL (`Res.ret none`) or the list read.
Every `fgets` that returns a line consumes a byte, so one more iteration than
there are bytes is enough. -/
def file_list_state_get (file : Option (List Nat)) (w : World) : Res (Option (List file_t)) :=
  match file with
  | none => Res.ret none w
  | some content =>
    match file_list_state_get_loop (content.length + 1) content [] with
    | none => Res.more w
    | some list => Res.ret (some list) w

/-- What `file_list_state_save` writes for one record. -/
def state_line (f : file_t) : List Nat :=
  f.path ++ [9] ++ printf_d f.mtime ++ [9] ++ printf_d f.size ++ [10]

def state_lines : List file_t → List Nat
  | [] => []
  | f :: rest => state_line f ++ state_lines rest

/-- Argument `writable` tells whether the state file can be opened for writing. -/
def file_list_state_save (writable : Bool) (current_files : List file_t) (w : World) : Res Unit :=
  if !writable then Res.exit (1 <<< 4) w
  else Res.ret () { w with state_file := some (state_lines current_files),
                           trace := Event.saved (state_lines current_files) :: w.trace }

/-! ## monitor.c: the name of the state file -/

def hex_digit (d : Nat) : Nat := if d < 10 then 48 + d else 87 + d

def hex_digits : Nat → Nat → List Nat → List Nat
  | 0, _, acc => acc
  | fuel + 1, n, acc =>
    if n / 16 = 0 then hex_digit (n % 16) :: acc
    else hex_digits fuel (n / 16) (hex_digit (n % 16) :: acc)

/-- Conversion `%2x` of printf applied to the `unsigned int` value `v`:
lower-case hexadecimal, padded on the left with spaces to two characters. -/
def printf_2x (v : Nat) : List Nat :=
  let ds := hex_digits (v + 1) v []
  List.replicate (2 - ds.length) 32 ++ ds

/-- The `int` a `char` holding byte `b` is promoted to; `char_signed` tells
whether plain `char` is a signed type on the platform. -/
def char_to_int (char_signed : Bool) (b : Nat) : Int :=
  if char_signed && 128 ≤ b then (b : Int) - 256 else (b : Int)

/-- The text `snprintf(hex, sizeof(hex), "%2x", text[i])` stores in `hex[4]`. -/
def hex_of_char (char_signed : Bool) (b : Nat) : List Nat :=
  snprintf 4 (printf_2x ((char_to_int char_signed b % 2 ^ 32).toNat))

/-- The identity text built with format `%s:%s:%s` in `text[4096]`. -/
def identity_text (username hostname absolute : List Nat) : List Nat :=
  snprintf 4096 (username ++ [58] ++ hostname ++ [58] ++ absolute)

/-- The content of `hashed_text` after the loop; `none` when a `strcat`
writes past the `hash_len` bytes allocated for it. -/
def hashed_text (char_signed : Bool) (username hostname absolute : List Nat) : Option (List Nat) :=
  let hash_len := 2 * (username.length + hostname.length + absolute.length) + 8
  let hashed := (identity_text username hostname absolute).foldl
    (fun acc c => acc ++ hex_of_char char_signed c) []
  if hashed.length + 1 ≤ hash_len then some hashed else none

/-- Argument `home` is the value of the environment variable, `absolute`
what `realpath` stored for `path`. -/
def _get_state_file_name (char_signed : Bool) (home absolute hostname username : List Nat) :
    Option (List Nat) :=
  let buf := snprintf PATH_MAX (home ++ [47, 46] ++ PROGRAM_NAME)
  (hashed_text char_signed username hostname absolute).map fun hashed =>
    snprintf PATH_MAX (buf ++ [47] ++ hashed)

/-! ## monitor.c: scanning -/

/-- What the macros `S_ISLNK` and `S_ISDIR` tell about an `st_mode`. -/
inductive Mode where
  | lnk
  | dir
  | other
deriving DecidableEq, Repr

structure stat_t where
  st_mode : Mode
  st_size : Int
  st_mtime : Int
deriving DecidableEq, Repr

/-- The file system as the scanner sees it. -/
structure FS where
  /-- The names `readdir` yields for the directory, in order; `none` when `opendir` fails. -/
  readdir : List Nat → Option (List (List Nat))
  /-- The result of `stat` on a path; `none` when it fails. -/
  stat : List Nat → Option stat_t

/-- Decisions of the outside world about files and signals. -/
structure Host where
  /-- The file system during the `k`-th call of `monitor_files_get`. -/
  fs : Nat → FS
  /-- Whether the state file can be opened for writing in the `k`-th call of `monitor_watch`. -/
  writable : Nat → Bool
  /-- Whether SIGINT or SIGTERM has arrived by the end of the `k`-th call of `monitor_watch`. -/
  signal : Nat → Bool

/-- Result of `scan_recursive`. -/
inductive Scan where
  | null
  | list (l : List file_t)
  | fault
  | more
deriving DecidableEq, Repr

/-- The `readdir` loop of `scan_recursive`: the file list and the array
`directories` after the entries `names` of directory `path`. -/
def scan_entries (fs : FS) (path : List Nat) :
    List (List Nat) → List file_t → List (List Nat) → List file_t × List (List Nat)
  | [], list, directories => (list, directories)
  | d_name :: names, list, directories =>
    if d_name.head? = some 46 then scan_entries fs path names list directories
    else
      let buf := snprintf PATH_MAX (path ++ [SLASH] ++ d_name)
      match fs.stat buf with
      | none => scan_entries fs path names list directories
      | some fstat =>
        match fstat.st_mode with
        | Mode.lnk => scan_entries fs path names list directories
        | Mode.dir => scan_entries fs path names list (directories ++ [buf])
        | Mode.other =>
          scan_entries fs path names (file_list_add list buf fstat.st_mtime fstat.st_size) directories

/-- The loop over `directories` at the end of `scan_recursive`; `scan` is
the recursive call.  A NULL result of it is dereferenced by `_list_append`. -/
def scan_directories (scan : List Nat → Scan) : List (List Nat) → List file_t → Scan
  | [], list => Scan.list list
  | d :: ds, list =>
    match scan d with
    | Scan.list next => scan_directories scan ds (list ++ next)
    | Scan.null => Scan.fault
    | Scan.fault => Scan.fault
    | Scan.more => Scan.more

/-- The first argument bounds the depth of the recursion (`Scan.more` when
it is reached).  The array `directories` has 8192 slots and needs a NULL
after the last entry. -/
def scan_recursive (fs : FS) : Nat → List Nat → Scan
  | 0, _ => Scan.more
  | depth + 1, path =>
    match fs.readdir path with
    | none => Scan.null
    | some names =>
      let r := scan_entries fs path names [] []
      if 8192 ≤ r.2.length then Scan.fault
      else scan_directories (scan_recursive fs depth) r.2 r.1

/-! ## monitor.c: scanning, with `calloc` that may fail

The definitions above are the scanner when every `calloc` succeeds.  Below, `calloc_null k`
tells whether call number `k` of `calloc` returns NULL; the calls are counted along the scan.
Function `strdup` is not checked by the source. -/

/-- Function `file_list_add`, given whether its `calloc` returns NULL. -/
def file_list_add_alloc (calloc_null : Bool) (list : List file_t) (path : List Nat)
    (st_mtime st_size : Int) (w : World) : Res (List file_t) :=
  if calloc_null then error ErrorMsg.calloc w
  else Res.ret (file_list_add list path st_mtime st_size) w

/-- The `readdir` loop of `scan_recursive`; `k` counts the calls of `calloc`. -/
def scan_entries_alloc (calloc_null : Nat → Bool) (fs : FS) (path : List Nat) :
    List (List Nat) → List file_t → List (List Nat) → Nat → World →
      Res (List file_t × List (List Nat) × Nat)
  | [], list, directories, k, w => Res.ret (list, directories, k) w
  | d_name :: names, list, directories, k, w =>
    if d_name.head? = some 46 then
      scan_entries_alloc calloc_null fs path names list directories k w
    else
      let buf := snprintf PATH_MAX (path ++ [SLASH] ++ d_name)
      match fs.stat buf with
      | none => scan_entries_alloc calloc_null fs path names list directories k w
      | some fstat =>
        match fstat.st_mode with
        | Mode.lnk => scan_entries_alloc calloc_null fs path names list directories k w
        | Mode.dir => scan_entries_alloc calloc_null fs path names list (directories ++ [buf]) k w
        | Mode.other =>
          (file_list_add_alloc (calloc_null k) list buf fstat.st_mtime fstat.st_size w).bind
            fun list1 w1 =>
              scan_entries_alloc calloc_null fs path names list1 directories (k + 1) w1

/-- The loop over `directories` at the end of `scan_recursive`; a NULL result (`none`) of
the recursive call is dereferenced by `_list_append`. -/
def scan_directories_alloc (scan : List Nat → Nat → World → Res (Option (List file_t) × Nat)) :
    List (List Nat) → List file_t → Nat → World → Res (Option (List file_t) × Nat)
  | [], list, k, w => Res.ret (some list, k) w
  | d :: ds, list, k, w =>
    (scan d k w).bind fun r w1 =>
      match r.1 with
      | some next => scan_directories_alloc scan ds (list ++ next) r.2 w1
      | none => Res.fault w1

/-- Function `scan_recursive`: NULL (`none`) when `opendir` fails, `error("calloc()")` when
the `calloc` of the list head returns NULL. -/
def scan_recursive_alloc (calloc_null : Nat → Bool) (fs : FS) :
    Nat → List Nat → Nat → World → Res (Option (List file_t) × Nat)
  | 0, _, _, w => Res.more w
  | depth + 1, path, k, w =>
    match fs.readdir path with
    | none => Res.ret (none, k) w
    | some names =>
      if calloc_null k then error ErrorMsg.calloc w
      else
        (scan_entries_alloc calloc_null fs path names [] [] (k + 1) w).bind fun r w1 =>
          if 8192 ≤ r.2.1.length then Res.fault w1
          else
            scan_directories_alloc (scan_recursive_alloc calloc_null fs depth) r.2.1 r.1 r.2.2 w1

/-- The array `directories` has `DIRS_MAX` slots; the list holds the entries before the first
NULL.  Reading the slot at `_w_pos = DIRS_MAX` (an array with no NULL left) is a fault. -/
def directory_next (w : World) : Res (Option (List Nat)) :=
  if DIRS_MAX ≤ w.mon._w_pos then Res.fault w
  else
    match w.mon.directories.get? w.mon._w_pos with
    | none => Res.ret none { w with mon := { w.mon with _w_pos := 0 } }
    | some d => Res.ret (some d) { w with mon := { w.mon with _w_pos := w.mon._w_pos + 1 } }

def monitor_files_get_loop (fs : FS) (depth : Nat) :
    Nat → Option (List file_t) → World → Res (Option (List file_t))
  | 0, _, w => Res.more w
  | fuel + 1, list, w =>
    match directory_next w with
    | Res.ret none w1 => Res.ret list w1
    | Res.ret (some path) w1 =>
      match scan_recursive fs depth path with
      | Scan.list l => monitor_files_get_loop fs depth fuel (some l) w1
      | Scan.null => monitor_files_get_loop fs depth fuel none w1
      | Scan.fault => Res.fault w1
      | Scan.more => Res.more w1
    | Res.exit c w1 => Res.exit c w1
    | Res.fault w1 => Res.fault w1
    | Res.more w1 => Res.more w1

/-- The loop ends at the latest after one call of `directory_next` per entry
of `directories` and one more. -/
def monitor_files_get (host : Host) (depth : Nat) (list : Option (List file_t)) (w : World) :
    Res (Option (List file_t)) :=
  monitor_files_get_loop (host.fs w.scans) depth (w.mon.directories.length + 1) list
    { w with scans := w.scans + 1 }

/-! ## monitor.c: the watch controller -/

/-- Arguments `one` and `two` are dereferenced by the passes, NULL or not. -/
def _monitor_compare_lists (env : Env) (writable : Bool) (one two : Option (List file_t))
    (w : World) : Res (Option (List file_t)) :=
  match one, two with
  | some first, some second =>
    (file_lists_compare env first second w).bind fun r w1 =>
      if r.1 ≠ 0 then
        (file_list_state_save writable r.2.2 w1).bind fun _ w2 => Res.ret (some r.2.2) w2
      else Res.ret (some r.2.2) w1
  | _, _ => Res.fault w

/-- Argument `cycle` numbers the call.  After the call `list_now` and
`list_prev` point to the same list. -/
def monitor_watch (env : Env) (host : Host) (depth cycle : Nat) (poll : Int) (w : World) :
    Res Int :=
  if !w.mon.initialized then Res.ret 0 w
  else
    (monitor_files_get host depth w.mon.list_now w).bind fun now w1 =>
    (_monitor_compare_lists env (host.writable cycle) w1.mon.list_prev now w1).bind fun l w2 =>
      let w3 := { w2 with mon := { w2.mon with list_now := l, list_prev := l } }
      if poll ≠ 0 then Res.ret 1 (w3.log (Event.sleep poll))
      else Res.ret 0 { w3 with quit := true }

/-- The `do ... while (!quit)` loop of `monitor_monitor`, cut off (`Res.more`)
after `cycles` calls of `monitor_watch`. -/
def monitor_monitor_loop (env : Env) (host : Host) (depth : Nat) (interval : Int) :
    Nat → Nat → World → Res Int
  | 0, _, w => Res.more w
  | cycles + 1, cycle, w =>
    (monitor_watch env host depth cycle interval w).bind fun res w1 =>
      let w2 := { w1 with quit := w1.quit || host.signal cycle }
      if res = 0 then Res.ret 1 w2
      else if w2.quit then Res.ret 1 w2
      else monitor_monitor_loop env host depth interval cycles (cycle + 1) w2

def monitor_monitor (env : Env) (host : Host) (depth cycles : Nat) (interval : Int) (w : World) :
    Res Int :=
  if w.mon._d_idx = 0 then Res.exit (1 <<< 0) w
  else
    (file_list_state_get w.state_file w).bind fun prev w1 =>
      match prev with
      | some l =>
        monitor_monitor_loop env host depth interval cycles 0
          { w1 with mon := { w1.mon with list_prev := some l } }
      | none =>
        (monitor_files_get host depth none { w1 with first_run := true }).bind fun l w2 =>
          monitor_monitor_loop env host depth interval cycles 0
            { w2 with mon := { w2.mon with list_prev := l } }

/-- Arguments `fs`, `home` and `absolute` are the file system, the home directory and what
`realpath` stores for `path`.  The new entry goes to slot `_d_idx` of `directories`; a
`strcat` past the end of `hashed_text` in `_get_state_file_name` is a fault. -/
def monitor_watch_add (char_signed : Bool) (fs : FS) (home absolute path : List Nat)
    (w : World) : Res Int :=
  if DIRS_MAX ≤ w.mon._d_idx then error ErrorMsg.dirs_limit w
  else
    match fs.stat path with
    | none => error ErrorMsg.no_directory w
    | some dstat =>
      if dstat.st_mode ≠ Mode.dir then error ErrorMsg.not_a_directory w
      else
        match _get_state_file_name char_signed home absolute w.mon.hostname w.mon.username with
        | none => Res.fault w
        | some name =>
          Res.ret 1
            { w with mon :=
                { w.mon with
                  directories := w.mon.directories.take w.mon._d_idx ++ [path]
                    ++ w.mon.directories.drop (w.mon._d_idx + 1),
                  _d_idx := w.mon._d_idx + 1,
                  state_file := name } }

/-! ## Vocabulary of the statements -/

/-- The record with its `changed` field set to `kind`. -/
def tag (kind : Int) (f : file_t) : file_t := { f with changed := kind }

/-- The records handed to forked children with `changed = kind`, in the order of the forks. -/
def dispatched (kind : Int) : List Event → List file_t
  | [] => []
  | Event.fork _ _ f :: tr => if f.changed = kind then dispatched kind tr ++ [f] else dispatched kind tr
  | _ :: tr => dispatched kind tr

/-- The counter `n_jobs` is not below the number of live children, and equals
it as long as it has not passed `parallel_max`. -/
def PoolInv (w : World) : Prop :=
  (w.children.length : Int) ≤ w.n_jobs ∧
    (w.n_jobs ≤ w.mon.parallel_max → w.n_jobs = (w.children.length : Int))

/-- A status with which `wait_for_job` returns zero. -/
def WaitStatus.ok : WaitStatus → Bool
  | WaitStatus.exited code => code % 256 = 0
  | WaitStatus.killed => false

/-- The test of the Modified pass on a record of `second`. -/
def mod_hit (first : List file_t) (f : file_t) : Bool :=
  match file_exists first f.path with
  | some found => decide (f.mtime ≠ found.mtime)
  | none => false

/-- The counter `n_jobs` equals the number of live children and is within the limit. -/
def PoolExact (w : World) : Prop :=
  w.n_jobs = (w.children.length : Int) ∧ w.n_jobs ≤ w.mon.parallel_max

/-- The records the Added pass selects from `second`. -/
def add_set (first second : List file_t) (first_run : Bool) : List file_t :=
  second.filter fun f => (file_exists first f.path).isNone || first_run

/-- The records the Modified pass selects from `second`. -/
def mod_set (first second : List file_t) : List file_t :=
  second.filter (mod_hit first)

/-- The records the Deleted pass selects from `first`. -/
def del_set (first second : List file_t) : List file_t :=
  first.filter fun f => (file_exists second f.path).isNone

/-! ## The change sets in the words of the specification -/

/-- Added: the records of `now` whose path is absent from `prev`. -/
def spec_added (prev now : List file_t) : List file_t :=
  now.filter fun f => decide (f.path ∉ prev.map file_t.path)

/-- Modified: the records of `now` whose path is present in `prev` with a different `mtime`. -/
def spec_modified (prev now : List file_t) : List file_t :=
  now.filter fun f => decide (∃ e ∈ prev, e.path = f.path ∧ e.mtime ≠ f.mtime)

/-- Deleted: the records of `prev` whose path is absent from `now`. -/
def spec_deleted (prev now : List file_t) : List file_t :=
  prev.filter fun f => decide (f.path ∉ now.map file_t.path)

/-! ## Concrete inputs -/

/-- A monitor of the directory `/d` with limit `parallel_max` and no callbacks. -/
def ex_mon (parallel_max : Int) : monitor_t :=
  { hostname := [104], username := [117], password := some [112, 119, 0],
    directories := [[47, 100]], _d_idx := 1, _w_pos := 0, parallel_max := parallel_max,
    state_file := [47, 115], initialized := true, list_now := none, list_prev := none,
    add_callback := false, del_callback := false, mod_callback := false }

/-- A process with no job running, no state file and nothing done so far. -/
def ex_world (parallel_max : Int) (first_run : Bool) : World :=
  { first_run := first_run, quit := false, n_jobs := 0, children := [], forks := 0, waits := 0,
    scans := 0, state_file := none, trace := [], mon := ex_mon parallel_max }

/-- The record of the file `/d/<name>` of size 10. -/
def ex_file (name : Nat) (mtime : Int) : file_t :=
  { path := [47, 100, 47, name], size := 10, mtime := mtime, changed := MONITOR_NONE }

/-- Every job exits with status 0; `wait` reaps the oldest child; `fork` succeeds. -/
def env_ok : Env :=
  { status := fun _ => WaitStatus.exited 0, pick := fun _ => 0, fork_fails := fun _ => false }

/-- As `env_ok`, but the job forked as number `bad` exits with status 1. -/
def env_exit1 (bad : Nat) : Env :=
  { status := fun j => if j = bad then WaitStatus.exited 1 else WaitStatus.exited 0,
    pick := fun _ => 0, fork_fails := fun _ => false }

/-- As `env_ok`, but the first job is killed by a signal. -/
def env_killed : Env :=
  { status := fun j => if j = 0 then WaitStatus.killed else WaitStatus.exited 0,
    pick := fun _ => 0, fork_fails := fun _ => false }

/-- As `env_exit1 1`, and the first `wait` reaps the second of the live children. -/
def env_second_first : Env :=
  { status := fun j => if j = 1 then WaitStatus.exited 1 else WaitStatus.exited 0,
    pick := fun k => if k = 0 then 1 else 0, fork_fails := fun _ => false }

/-! ## Well-formed records of the snapshot store -/

/-- The value fits a C `int`. -/
def is_int (x : Int) : Prop := -(2 ^ 31) ≤ x ∧ x < 2 ^ 31

/-- A record the state file can hold: the path is a C string without tab or newline that
does not begin with `#`, its line fits the read buffer of 4096 bytes, and `mtime` and `size`
are `int` values. -/
def well_formed (f : file_t) : Prop :=
  (∀ b ∈ f.path, b ≠ 0 ∧ b ≠ 9 ∧ b ≠ 10) ∧ f.path.head? ≠ some 35 ∧
    (state_line f).length ≤ 4095 ∧ is_int f.mtime ∧ is_int f.size

instance : DecidablePred well_formed := fun f => by
  unfold well_formed is_int
  infer_instance

/-! ## Reading a fingerprint back -/

/-- Value of a character of a fingerprint: a hexadecimal digit, or 0 for the padding space. -/
def hex_value (c : Nat) : Nat :=
  if 48 ≤ c ∧ c ≤ 57 then c - 48 else if 97 ≤ c ∧ c ≤ 102 then c - 87 else 0

/-- The byte a pair of fingerprint characters stands for. -/
def unhex_pair (l : List Nat) : Nat :=
  match l with
  | [a, b] => 16 * hex_value a + hex_value b
  | _ => 0

/-- The text before `snprintf` cuts it to `text[4096]`. -/
def identity (username hostname absolute : List Nat) : List Nat :=
  username ++ [58] ++ hostname ++ [58] ++ absolute

/-- A byte that `%2x` renders with two characters: any byte when `char` is unsigned, an
ASCII byte when it is signed. -/
def plain_byte (char_signed : Bool) (b : Nat) : Prop :=
  b < 256 ∧ (char_signed = true → b < 128)

instance (char_signed : Bool) : DecidablePred (plain_byte char_signed) := fun b => by
  unfold plain_byte
  infer_instance

/-- A file system whose directory `/d` holds the one regular file `x` (size 10, mtime 100). -/
def ex_fs : FS :=
  { readdir := fun p => if p = [47, 100] then some [[46], [46, 46], [120]] else none,
    stat := fun p =>
      if p = [47, 100, 47, 120] then some { st_mode := Mode.other, st_size := 10, st_mtime := 100 }
      else none }

/-- The file system never changes, the state file can be written, no signal arrives. -/
def ex_host : Host :=
  { fs := fun _ => ex_fs, writable := fun _ => true, signal := fun _ => false }

/-! ## Vocabulary of the statements about one call and one cycle -/

/-- The contents written to the state file, most recent first. -/
def saves : List Event → List (List Nat)
  | [] => []
  | Event.saved content :: tr => content :: saves tr
  | _ :: tr => saves tr

/-- Record `g` is record `f` after the passes: same path, size and mtime, and a `changed`
field that is the old one or one of the three tags. -/
def Retagged (f g : file_t) : Prop :=
  g.path = f.path ∧ g.size = f.size ∧ g.mtime = f.mtime ∧
    (g.changed = f.changed ∨ g.changed = MONITOR_ADD ∨ g.changed = MONITOR_MOD ∨
      g.changed = MONITOR_DEL)

/-- From `w` to `w1` the state file has not been written. -/
def Quiet (w w1 : World) : Prop :=
  w1.state_file = w.state_file ∧ saves w1.trace = saves w.trace

/-! ## The state file in the words of the specification -/

/-- The decimal numeral of an integer, as bytes. -/
def spec_decimal (i : Int) : List Nat := (toString i).toList.map Char.toNat

/-- One line of the state file: path, tab, decimal mtime, tab, decimal size, newline. -/
def spec_line (f : file_t) : List Nat :=
  f.path ++ [9] ++ spec_decimal f.mtime ++ [9] ++ spec_decimal f.size ++ [10]

/-- The state file of a snapshot: one line per record, in list order. -/
def spec_state_file (S : List file_t) : List Nat := (S.map spec_line).flatten

/-- The lines of a file: each ends with its newline, the last one may lack it. -/
def split_lines : List Nat → List (List Nat)
  | [] => []
  | b :: s =>
    if b = 10 then [10] :: split_lines s
    else
      match split_lines s with
      | [] => [[b]]
      | l :: ls => (b :: l) :: ls

/-- The record a line of the state file stands for: none for a comment line and for a line
with fewer than two tabs; else the text before the first tab is the path, `atoi` of the text
between the first and the second tab the mtime, and `atoi` of the text after the second tab
the size. -/
def spec_record (line : List Nat) : Option file_t :=
  if line.head? = some 35 then none
  else if line.count 9 < 2 then none
  else
    some { path := line.takeWhile (fun b => b ≠ 9),
           mtime := atoi (((line.dropWhile (fun b => b ≠ 9)).drop 1).takeWhile (fun b => b ≠ 9)),
           size := atoi ((((line.dropWhile (fun b => b ≠ 9)).drop 1).dropWhile
             (fun b => b ≠ 9)).drop 1),
           changed := MONITOR_NONE }

/-! ## File systems with tidy directories -/

/-- Two watched directories: `/d` holds the regular file `x`, `/e` the regular file `y`. -/
def ex_fs_two_roots : FS :=
  { readdir := fun p =>
      if p = [47, 100] then some [[46], [46, 46], [120]]
      else if p = [47, 101] then some [[46], [46, 46], [121]]
      else none,
    stat := fun p =>
      if p = [47, 100, 47, 120] then some { st_mode := Mode.other, st_size := 10, st_mtime := 100 }
      else if p = [47, 101, 47, 121] then some { st_mode := Mode.other, st_size := 5, st_mtime := 50 }
      else none }

def ex_host_two_roots : Host :=
  { fs := fun _ => ex_fs_two_roots, writable := fun _ => true, signal := fun _ => false }

/-- A process as `ex_world`, watching `/d` and `/e`, with an empty previous snapshot. -/
def ex_world_two_roots : World :=
  { ex_world 1 false with
    mon := { ex_mon 1 with directories := [[47, 100], [47, 101]], _d_idx := 2,
                           list_prev := some [] } }

/-- Directory `/d` holds the regular file `x` (size 10, mtime 100), the symbolic link `l` to
`x` and the symbolic link `s` to a directory that holds the regular file `y` (size 5, mtime
50).  Function `stat` follows symbolic links: for `/d/l` it reports the regular file `x`, for
`/d/s` a directory, and `opendir` of `/d/s` lists the directory linked to. -/
def ex_fs_links : FS :=
  { readdir := fun p =>
      if p = [47, 100] then some [[46], [46, 46], [120], [108], [115]]
      else if p = [47, 100, 47, 115] then some [[46], [46, 46], [121]]
      else none,
    stat := fun p =>
      if p = [47, 100, 47, 120] then some { st_mode := Mode.other, st_size := 10, st_mtime := 100 }
      else if p = [47, 100, 47, 108] then
        some { st_mode := Mode.other, st_size := 10, st_mtime := 100 }
      else if p = [47, 100, 47, 115] then some { st_mode := Mode.dir, st_size := 0, st_mtime := 7 }
      else if p = [47, 100, 47, 115, 47, 121] then
        some { st_mode := Mode.other, st_size := 5, st_mtime := 50 }
      else none }

/-- As `env_ok`, but every call of `fork` fails. -/
def env_no_fork : Env :=
  { status := fun _ => WaitStatus.exited 0, pick := fun _ => 0, fork_fails := fun _ => true }

/-- A process as `ex_world` whose monitor has a directory but was never initialised. -/
def ex_world_uninitialized : World :=
  { ex_world 1 false with mon := { ex_mon 1 with initialized := false } }

/-- The jobs forked and not yet reaped after the events `tr` (most recent first), each
with the kind (`changed`) of its record. -/
def live : List Event → List (Nat × Int)
  | [] => []
  | Event.fork job _ f :: tr => (job, f.changed) :: live tr
  | Event.reap job _ :: tr => (live tr).filter fun x => x.1 ≠ job
  | _ :: tr => live tr

/-- The kinds of all jobs forked in `tr`. -/
def forked_kinds : List Event → List Int
  | [] => []
  | Event.fork _ _ f :: tr => f.changed :: forked_kinds tr
  | _ :: tr => forked_kinds tr

/-- Added comes first, then Modified, then Deleted. -/
def phase_rank (kind : Int) : Nat :=
  if kind = MONITOR_ADD then 0 else if kind = MONITOR_MOD then 1 else 2

/-- At every fork of the trace (most recent event first), every job still running is of the
kind of the job forked, and no job forked earlier is of a later phase. -/
def sequential : List Event → Prop
  | [] => True
  | Event.fork _ _ f :: tr =>
    sequential tr ∧ (∀ x ∈ live tr, x.2 = f.changed) ∧
      ∀ k ∈ forked_kinds tr, phase_rank k ≤ phase_rank f.changed
  | _ :: tr => sequential tr

/-- What holds throughout the phase of kind `kind`: the counter is not below the number of
children, every job running according to the trace is a child and of this kind, no job of a
later phase has been forked, and the trace so far is sequential. -/
def PhaseInv (kind : Int) (w : World) : Prop :=
  (w.children.length : Int) ≤ w.n_jobs ∧
  (∀ x ∈ live w.trace, x.1 ∈ w.children) ∧
  (∀ x ∈ live w.trace, x.2 = kind) ∧
  (∀ k ∈ forked_kinds w.trace, phase_rank k ≤ phase_rank kind) ∧
  sequential w.trace

instance sequential_decidable : ∀ tr : List Event, Decidable (sequential tr)
  | [] => isTrue trivial
  | e :: tr =>
    have ih : Decidable (sequential tr) := sequential_decidable tr
    match e with
    | Event.fork _ _ f =>
      (inferInstance : Decidable (sequential tr ∧ (∀ x ∈ live tr, x.2 = f.changed) ∧
        ∀ k ∈ forked_kinds tr, phase_rank k ≤ phase_rank f.changed))
    | Event.callback _ => ih
    | Event.reap _ _ => ih
    | Event.print _ _ => ih
    | Event.print_total _ => ih
    | Event.print_error _ => ih
    | Event.print_fatal => ih
    | Event.sleep _ => ih
    | Event.saved _ => ih

/-! ## The events of a part of a run -/

/-- The events that world `w1`, reached from `w`, has logged since `w`, most recent first. -/
def new_events (w w1 : World) : List Event :=
  w1.trace.take (w1.trace.length - w.trace.length)

/-- The process after the Added pass for the new files `a`, `b`, `c` with limit 3, where
the job for `b` exits with status 1: three jobs are running. -/
def ex_world_three_jobs : World :=
  (_check_add_files env_second_first [] [ex_file 97 1, ex_file 98 1, ex_file 99 1]
    (ex_world 3 false)).world

/-! ## File systems for the claims about distinct paths -/

theorem file_exists_eq_none_iff (l : List file_t) (p : List Nat) :
    file_exists l p = none ↔ p ∉ l.map file_t.path := by
  induction l with
  | nil => simp [file_exists]
  | cons f rest ih =>
    by_cases h : f.path = p
    · simp [file_exists, h]
    · simp only [file_exists, h, if_false, ih, List.map_cons, List.mem_cons, not_or]
      constructor
      · intro h1; exact ⟨fun h2 => h h2.symm, h1⟩
      · intro h1; exact h1.2

theorem file_exists_isNone_iff (l : List file_t) (p : List Nat) :
    (file_exists l p).isNone = true ↔ p ∉ l.map file_t.path := by
  rw [Option.isNone_iff_eq_none, file_exists_eq_none_iff]

theorem file_exists_some_mem {l : List file_t} {p : List Nat} {e : file_t}
    (h : file_exists l p = some e) : e ∈ l ∧ e.path = p := by
  induction l with
  | nil => simp [file_exists] at h
  | cons f rest ih =>
    by_cases hp : f.path = p
    · simp [file_exists, hp] at h
      subst h
      exact ⟨List.mem_cons_self _ _, hp⟩
    · simp [file_exists, hp] at h
      exact ⟨List.mem_cons_of_mem _ (ih h).1, (ih h).2⟩

theorem mem_unique_of_nodup_paths {l : List file_t} (hl : (l.map file_t.path).Nodup)
    {a b : file_t} (ha : a ∈ l) (hb : b ∈ l) (hab : a.path = b.path) : a = b :=
  List.inj_on_of_nodup_map hl ha hb hab

/-! ## Lemmas: events -/

@[simp] theorem dispatched_nil (k : Int) : dispatched k [] = [] := rfl

@[simp] theorem dispatched_fork (k : Int) (j : Nat) (wk : Work) (f : file_t) (tr : List Event) :
    dispatched k (Event.fork j wk f :: tr)
      = dispatched k tr ++ (if f.changed = k then [f] else []) := by
  by_cases h : f.changed = k <;> simp [dispatched, h]

@[simp] theorem dispatched_callback (k : Int) (f : file_t) (tr : List Event) :
    dispatched k (Event.callback f :: tr) = dispatched k tr := rfl

@[simp] theorem dispatched_reap (k : Int) (j : Nat) (st : WaitStatus) (tr : List Event) :
    dispatched k (Event.reap j st :: tr) = dispatched k tr := rfl

@[simp] theorem dispatched_print (k : Int) (m : Msg) (p : List Nat) (tr : List Event) :
    dispatched k (Event.print m p :: tr) = dispatched k tr := rfl

@[simp] theorem dispatched_print_total (k : Int) (n : Int) (tr : List Event) :
    dispatched k (Event.print_total n :: tr) = dispatched k tr := rfl

@[simp] theorem dispatched_print_error (k : Int) (m : ErrorMsg) (tr : List Event) :
    dispatched k (Event.print_error m :: tr) = dispatched k tr := rfl

@[simp] theorem dispatched_print_fatal (k : Int) (tr : List Event) :
    dispatched k (Event.print_fatal :: tr) = dispatched k tr := rfl

/-! ## Lemmas: the job pool -/

theorem sys_wait_of_children (env : Env) (w : World) (h : w.children ≠ []) :
    ∃ job w1, sys_wait env w = (some (env.status job), w1) ∧
      w1.children.length + 1 = w.children.length ∧
      w1.trace = Event.reap job (env.status job) :: w.trace ∧
      w1.first_run = w.first_run ∧ w1.mon = w.mon ∧ w1.forks = w.forks ∧
      w1.n_jobs = w.n_jobs ∧ job ∈ w.children := by
  obtain ⟨c, cs, hc⟩ := List.exists_cons_of_ne_nil h
  have hi : env.pick w.waits % (cs.length + 1) < (c :: cs).length := by
    simp only [List.length_cons]; exact Nat.mod_lt _ (Nat.succ_pos _)
  refine ⟨(c :: cs).getD (env.pick w.waits % (cs.length + 1)) c,
    { w with waits := w.waits + 1,
             children := (c :: cs).eraseIdx (env.pick w.waits % (cs.length + 1)),
             trace := Event.reap ((c :: cs).getD (env.pick w.waits % (cs.length + 1)) c)
               (env.status ((c :: cs).getD (env.pick w.waits % (cs.length + 1)) c)) :: w.trace },
    ?_, ?_, rfl, rfl, rfl, rfl, rfl, ?_⟩
  · simp only [sys_wait, hc]
  · have hi2 := hi
    simp only [List.length_cons] at hi2
    simp only [hc, List.length_eraseIdx, List.length_cons, if_pos hi2]; omega
  · rw [hc, List.getD_eq_getElem _ _ hi]; exact List.getElem_mem _

/-- What a call of `wait_for_job` with a live child does. -/
theorem wait_for_job_of_children (env : Env) (w : World) (h : w.children ≠ []) :
    ∃ r w1 job, wait_for_job env w = Res.ret r w1 ∧
      w1.children.length + 1 = w.children.length ∧
      w1.trace = Event.reap job (env.status job) :: w.trace ∧
      w1.first_run = w.first_run ∧ w1.mon = w.mon ∧ w1.forks = w.forks ∧
      job ∈ w.children ∧
      ((env.status job).ok = true ∧ r = 0 ∧ w1.n_jobs = w.n_jobs - 1 ∨
       (env.status job).ok = false ∧ r ≠ 0 ∧
         (w1.n_jobs = w.n_jobs - 1 ∨ env.status job = WaitStatus.killed ∧ w1.n_jobs = w.n_jobs)) := by
  obtain ⟨job, w1, hsw, hlen, htr, hfr, hmon, hforks, hn, hmem⟩ := sys_wait_of_children env w h
  cases hs : env.status job with
  | killed =>
    refine ⟨1, w1, job, ?_, hlen, htr, hfr, hmon, hforks, hmem, Or.inr ⟨?_, by decide, Or.inr ⟨hs, hn⟩⟩⟩
    · simp only [wait_for_job, hsw, hs]
    · simp [hs, WaitStatus.ok]
  | exited code =>
    refine ⟨((code % 256 : Nat) : Int), { w1 with n_jobs := w1.n_jobs - 1 }, job, ?_, hlen, htr, hfr,
      hmon, hforks, hmem, ?_⟩
    · simp only [wait_for_job, hsw, hs]
    · by_cases h0 : code % 256 = 0
      · exact Or.inl ⟨by simp [hs, WaitStatus.ok, h0], by simp [h0], by simp [hn]⟩
      · exact Or.inr ⟨by simp [hs, WaitStatus.ok, h0], by exact_mod_cast h0, Or.inl (by simp [hn])⟩

theorem wait_for_job_of_no_children (env : Env) (w : World) (h : w.children = []) :
    wait_for_job env w
      = Res.exit 128 { w with waits := w.waits + 1, trace := Event.print_error ErrorMsg.wait :: w.trace } := by
  simp [wait_for_job, sys_wait, h, error, World.log]

theorem PoolInv_log {w : World} (e : Event) (h : PoolInv w) : PoolInv (w.log e) := h

theorem dispatched_log_nonfork (k : Int) (w : World) (e : Event)
    (h : ∀ j wk f, e ≠ Event.fork j wk f) :
    dispatched k (w.log e).trace = dispatched k w.trace := by
  cases e with
  | fork j wk f => exact absurd rfl (h j wk f)
  | _ => rfl

/-- With `fork` succeeding, the job-pool lines of a pass fork exactly one child for the record. -/
theorem dispatch_ok (env : Env) (w : World) (work : Work) (f : file_t)
    (hf : ∀ k, env.fork_fails k = false) (hpm : 1 ≤ w.mon.parallel_max) (hinv : PoolInv w) :
    ∃ w1, dispatch env work f w = Res.ret () w1 ∧ PoolInv w1 ∧
      w1.first_run = w.first_run ∧ w1.mon = w.mon ∧
      (∀ k, dispatched k w1.trace = dispatched k w.trace ++ (if f.changed = k then [f] else [])) ∧
      ((∀ j, env.status j ≠ WaitStatus.killed) → PoolExact w → PoolExact w1) := by
  unfold dispatch
  by_cases hcap : w.n_jobs = w.mon.parallel_max
  · have hlen : w.n_jobs = (w.children.length : Int) := hinv.2 (le_of_eq hcap)
    have hne : w.children ≠ [] := by
      intro h0
      rw [h0] at hlen
      simp at hlen
      omega
    obtain ⟨r, w1, job, hw, hl, htr, hfr, hmon, _, _, hst⟩ := wait_for_job_of_children env w hne
    rw [if_pos hcap, hw]
    simp only [Res.bind, hf, Bool.false_eq_true, if_false]
    refine ⟨_, rfl, ?_, hfr, hmon, ?_, ?_⟩
    · simp only [PoolInv, List.length_append, List.length_singleton, hmon]
      push_cast
      rcases hst with ⟨_, _, hn⟩ | ⟨_, _, hn | ⟨_, hn⟩⟩ <;> constructor <;> intros <;> omega
    · intro k
      simp [htr]
    · intro hk hex
      simp only [PoolExact, List.length_append, List.length_singleton, hmon]
      push_cast
      rcases hst with ⟨_, _, hn⟩ | ⟨_, _, hn | ⟨hkill, _⟩⟩
      · constructor <;> omega
      · constructor <;> omega
      · exact absurd hkill (hk job)
  · rw [if_neg hcap]
    simp only [Res.bind, hf, Bool.false_eq_true, if_false]
    refine ⟨_, rfl, ?_, rfl, rfl, ?_, ?_⟩
    · have h1 := hinv.1
      have h2 := hinv.2
      simp only [PoolInv, List.length_append, List.length_singleton]
      push_cast
      constructor
      · omega
      · intro h3
        have := h2 (by omega)
        omega
    · intro k
      simp
    · intro _ hex
      have h1 := hex.1
      have h2 := hex.2
      simp only [PoolExact, List.length_append, List.length_singleton]
      push_cast
      constructor <;> omega

/-- The Added pass: with `fork` succeeding it returns, and forks one child
for each record that `file_exists` misses in `first` or for every record when `first_run` is set. -/
theorem check_add_files_loop_ok (env : Env) (first : List file_t)
    (hf : ∀ k, env.fork_fails k = false) :
    ∀ (l : List file_t) (c : Int) (w : World), 1 ≤ w.mon.parallel_max → PoolInv w →
    ∃ w1, _check_add_files_loop env first l c w
        = Res.ret (c + ((l.filter fun f => (file_exists first f.path).isNone || w.first_run).length : Int),
            l.map fun f => if (file_exists first f.path).isNone || w.first_run
              then tag MONITOR_ADD f else f) w1 ∧
      PoolInv w1 ∧ w1.first_run = w.first_run ∧ w1.mon = w.mon ∧
      (∀ k, dispatched k w1.trace = dispatched k w.trace ++
        (if k = MONITOR_ADD then
          (l.filter fun f => (file_exists first f.path).isNone || w.first_run).map (tag MONITOR_ADD)
         else [])) ∧
      ((∀ j, env.status j ≠ WaitStatus.killed) → PoolExact w → PoolExact w1) := by
  intro l
  induction l with
  | nil =>
    intro c w _ hinv
    exact ⟨w, by simp [_check_add_files_loop], hinv, rfl, rfl, by intro k; simp, fun _ h => h⟩
  | cons f rest ih =>
    intro c w hpm hinv
    by_cases hsel : ((file_exists first f.path).isNone || w.first_run) = true
    · obtain ⟨w2, hd, hinv2, hfr2, hmon2, htr2, hex2⟩ :=
        dispatch_ok env
          (if w.mon.add_callback then w.log (Event.callback f) else w)
          Work.remote_add { f with changed := MONITOR_ADD } hf
          (by split <;> exact hpm) (by split <;> exact hinv)
      have hfrw : w2.first_run = w.first_run := by rw [hfr2]; split <;> rfl
      have hmonw : w2.mon = w.mon := by rw [hmon2]; split <;> rfl
      obtain ⟨w4, hl, hinv4, hfr4, hmon4, htr4, hex4⟩ :=
        ih (c + 1) (w2.log (if !w2.first_run then Event.print Msg.add_file f.path
                            else Event.print Msg.init_file f.path))
          (by show 1 ≤ w2.mon.parallel_max; rw [hmonw]; exact hpm) (PoolInv_log _ hinv2)
      have hfr3 : (w2.log (if !w2.first_run then Event.print Msg.add_file f.path
                            else Event.print Msg.init_file f.path)).first_run = w.first_run := hfrw
      rw [hfr3] at hl htr4
      refine ⟨w4, ?_, hinv4, hfr4.trans hfr3, hmon4.trans hmonw, ?_,
        fun hk he => hex4 hk (hex2 hk (by split <;> exact he))⟩
      · simp only [_check_add_files_loop, hsel, if_true, hd, Res.bind, hl, List.filter_cons,
          List.length_cons, List.map_cons, tag]
        congr 2
        push_cast
        ring
      · intro k
        rw [htr4 k]
        have h3 : dispatched k (w2.log (if !w2.first_run then Event.print Msg.add_file f.path
                            else Event.print Msg.init_file f.path)).trace = dispatched k w2.trace := by
          apply dispatched_log_nonfork
          intro j wk g
          split <;> simp
        have h0 : dispatched k (if w.mon.add_callback then w.log (Event.callback f) else w).trace
            = dispatched k w.trace := by
          split
          · rfl
          · rfl
        rw [h3, htr2 k, h0]
        by_cases hk : k = MONITOR_ADD
        · subst hk
          simp [hsel, tag]
        · have hk2 : ¬ (MONITOR_ADD = k) := fun h => hk h.symm
          simp [hk, hk2]
    · obtain ⟨w4, hl, hinv4, hfr4, hmon4, htr4, hex4⟩ := ih c w hpm hinv
      refine ⟨w4, ?_, hinv4, hfr4, hmon4, ?_, hex4⟩
      · simp only [_check_add_files_loop, hsel, Res.bind, hl, List.filter_cons, List.map_cons]
        simp
      · intro k
        rw [htr4 k]
        simp [List.filter_cons, hsel]

/-- The Modified pass: with `fork` succeeding it returns, and forks one child for each record
whose path `file_exists` finds in `first` with another `mtime`. -/
theorem check_mod_files_loop_ok (env : Env) (first : List file_t)
    (hf : ∀ k, env.fork_fails k = false) :
    ∀ (l : List file_t) (c : Int) (w : World), 1 ≤ w.mon.parallel_max → PoolInv w →
    ∃ w1, _check_mod_files_loop env first l c w
        = Res.ret (c + ((l.filter (mod_hit first)).length : Int),
            l.map fun f => if mod_hit first f then tag MONITOR_MOD f else f) w1 ∧
      PoolInv w1 ∧ w1.first_run = w.first_run ∧ w1.mon = w.mon ∧
      (∀ k, dispatched k w1.trace = dispatched k w.trace ++
        (if k = MONITOR_MOD then (l.filter (mod_hit first)).map (tag MONITOR_MOD) else [])) ∧
      ((∀ j, env.status j ≠ WaitStatus.killed) → PoolExact w → PoolExact w1) := by
  intro l
  induction l with
  | nil =>
    intro c w _ hinv
    exact ⟨w, by simp [_check_mod_files_loop], hinv, rfl, rfl, by intro k; simp, fun _ h => h⟩
  | cons f rest ih =>
    intro c w hpm hinv
    by_cases hsel : mod_hit first f = true
    · obtain ⟨e, he, hne⟩ : ∃ e, file_exists first f.path = some e ∧ f.mtime ≠ e.mtime := by
        unfold mod_hit at hsel
        cases hx : file_exists first f.path with
        | none => simp [hx] at hsel
        | some e => exact ⟨e, rfl, by simpa [hx] using hsel⟩
      obtain ⟨w2, hd, hinv2, hfr2, hmon2, htr2, hex2⟩ :=
        dispatch_ok env
          (if w.mon.mod_callback then w.log (Event.callback { f with changed := MONITOR_MOD }) else w)
          Work.remote_add { f with changed := MONITOR_MOD } hf
          (by split <;> exact hpm) (by split <;> exact hinv)
      have hfrw : w2.first_run = w.first_run := by rw [hfr2]; split <;> rfl
      have hmonw : w2.mon = w.mon := by rw [hmon2]; split <;> rfl
      obtain ⟨w4, hl, hinv4, hfr4, hmon4, htr4, hex4⟩ :=
        ih (c + 1) (w2.log (Event.print Msg.mod_file f.path))
          (by show 1 ≤ w2.mon.parallel_max; rw [hmonw]; exact hpm) (PoolInv_log _ hinv2)
      refine ⟨w4, ?_, hinv4, hfr4.trans hfrw, hmon4.trans hmonw, ?_,
        fun hk he => hex4 hk (hex2 hk (by split <;> exact he))⟩
      · simp only [_check_mod_files_loop, he, hne, ne_eq, not_false_eq_true, if_true, hd, Res.bind,
          hl, List.filter_cons, hsel, List.length_cons, List.map_cons, tag]
        congr 2
        push_cast
        ring
      · intro k
        rw [htr4 k]
        have h3 : dispatched k (w2.log (Event.print Msg.mod_file f.path)).trace
            = dispatched k w2.trace := rfl
        have h0 : dispatched k (if w.mon.mod_callback
              then w.log (Event.callback { f with changed := MONITOR_MOD }) else w).trace
            = dispatched k w.trace := by
          split
          · rfl
          · rfl
        rw [h3, htr2 k, h0]
        by_cases hk : k = MONITOR_MOD
        · subst hk
          simp [hsel, tag]
        · have hk2 : ¬ (MONITOR_MOD = k) := fun h => hk h.symm
          simp [hk, hk2]
    · obtain ⟨w4, hl, hinv4, hfr4, hmon4, htr4, hex4⟩ := ih c w hpm hinv
      refine ⟨w4, ?_, hinv4, hfr4, hmon4, ?_, hex4⟩
      · have hloop : _check_mod_files_loop env first (f :: rest) c w
            = (_check_mod_files_loop env first rest c w).bind fun r w4 =>
                Res.ret (r.1, f :: r.2) w4 := by
          unfold mod_hit at hsel
          cases hx : file_exists first f.path with
          | none => simp only [_check_mod_files_loop, hx]
          | some e =>
            have : ¬ (f.mtime ≠ e.mtime) := by simpa [hx] using hsel
            simp only [_check_mod_files_loop, hx, this, if_false]
        rw [hloop, hl]
        simp [Res.bind, List.filter_cons, hsel]
      · intro k
        rw [htr4 k]
        simp [List.filter_cons, hsel]

/-- The Deleted pass: with `fork` succeeding it returns, and forks one child for each record
of `first` whose path `file_exists` misses in `second`. -/
theorem check_del_files_loop_ok (env : Env) (second : List file_t)
    (hf : ∀ k, env.fork_fails k = false) :
    ∀ (l : List file_t) (c : Int) (w : World), 1 ≤ w.mon.parallel_max → PoolInv w →
    ∃ w1, _check_del_files_loop env second l c w
        = Res.ret (c + ((l.filter fun f => (file_exists second f.path).isNone).length : Int),
            l.map fun f => if (file_exists second f.path).isNone then tag MONITOR_DEL f else f) w1 ∧
      PoolInv w1 ∧ w1.first_run = w.first_run ∧ w1.mon = w.mon ∧
      (∀ k, dispatched k w1.trace = dispatched k w.trace ++
        (if k = MONITOR_DEL then
          (l.filter fun f => (file_exists second f.path).isNone).map (tag MONITOR_DEL) else [])) ∧
      ((∀ j, env.status j ≠ WaitStatus.killed) → PoolExact w → PoolExact w1) := by
  intro l
  induction l with
  | nil =>
    intro c w _ hinv
    exact ⟨w, by simp [_check_del_files_loop], hinv, rfl, rfl, by intro k; simp, fun _ h => h⟩
  | cons f rest ih =>
    intro c w hpm hinv
    by_cases hsel : (file_exists second f.path).isNone = true
    · obtain ⟨w2, hd, hinv2, hfr2, hmon2, htr2, hex2⟩ :=
        dispatch_ok env
          (if w.mon.del_callback then w.log (Event.callback { f with changed := MONITOR_DEL }) else w)
          Work.remote_del { f with changed := MONITOR_DEL } hf
          (by split <;> exact hpm) (by split <;> exact hinv)
      have hfrw : w2.first_run = w.first_run := by rw [hfr2]; split <;> rfl
      have hmonw : w2.mon = w.mon := by rw [hmon2]; split <;> rfl
      obtain ⟨w4, hl, hinv4, hfr4, hmon4, htr4, hex4⟩ :=
        ih (c + 1) (w2.log (Event.print Msg.del_file f.path))
          (by show 1 ≤ w2.mon.parallel_max; rw [hmonw]; exact hpm) (PoolInv_log _ hinv2)
      refine ⟨w4, ?_, hinv4, hfr4.trans hfrw, hmon4.trans hmonw, ?_,
        fun hk he => hex4 hk (hex2 hk (by split <;> exact he))⟩
      · simp only [_check_del_files_loop, hsel, if_true, hd, Res.bind, hl, List.filter_cons,
          List.length_cons, List.map_cons, tag]
        congr 2
        push_cast
        ring
      · intro k
        rw [htr4 k]
        have h3 : dispatched k (w2.log (Event.print Msg.del_file f.path)).trace
            = dispatched k w2.trace := rfl
        have h0 : dispatched k (if w.mon.del_callback
              then w.log (Event.callback { f with changed := MONITOR_DEL }) else w).trace
            = dispatched k w.trace := by
          split
          · rfl
          · rfl
        rw [h3, htr2 k, h0]
        by_cases hk : k = MONITOR_DEL
        · subst hk
          simp [hsel, tag]
        · have hk2 : ¬ (MONITOR_DEL = k) := fun h => hk h.symm
          simp [hk, hk2]
    · obtain ⟨w4, hl, hinv4, hfr4, hmon4, htr4, hex4⟩ := ih c w hpm hinv
      refine ⟨w4, ?_, hinv4, hfr4, hmon4, ?_, hex4⟩
      · simp only [_check_del_files_loop, hsel, Res.bind, hl, List.filter_cons, List.map_cons]
        simp
      · intro k
        rw [htr4 k]
        simp [List.filter_cons, hsel]

/-! ## Lemmas: the barrier -/

/-- The barrier loop never runs out of fuel, forks nothing, and reports what it saw:
1 with no job left, or 0 right after reaping a job that did not exit with status 0. -/
theorem wait_for_all_jobs_loop_spec (env : Env) :
    ∀ (fuel : Nat) (w : World), w.children.length < fuel →
      ((w.children.length : Int) ≤ w.n_jobs) →
      (∀ k, dispatched k (wait_for_all_jobs_loop env fuel w).world.trace = dispatched k w.trace) ∧
      (wait_for_all_jobs_loop env fuel w).world.first_run = w.first_run ∧
      (wait_for_all_jobs_loop env fuel w).world.mon = w.mon ∧
      match wait_for_all_jobs_loop env fuel w with
      | Res.ret s w1 =>
        (s = 1 ∧ w1.n_jobs = 0 ∧ w1.children = []) ∨
        (s = 0 ∧ ∃ job tr, w1.trace = Event.reap job (env.status job) :: tr ∧
          (env.status job).ok = false)
      | Res.exit c w1 => c = 128 ∧ ∃ tr, w1.trace = Event.print_error ErrorMsg.wait :: tr
      | Res.fault _ => False
      | Res.more _ => False := by
  intro fuel
  induction fuel with
  | zero => intro w h; exact absurd h (Nat.not_lt_zero _)
  | succ fuel ih =>
    intro w hlen hle
    by_cases hn : w.n_jobs = 0
    · have hch : w.children = [] := by
        rw [hn] at hle
        exact List.length_eq_zero.mp (by omega)
      simp [wait_for_all_jobs_loop, hn, Res.world, hch]
    · by_cases hch : w.children = []
      · simp [wait_for_all_jobs_loop, hn, wait_for_job_of_no_children env w hch, Res.world]
      · obtain ⟨r, w1, job, hw, hl, htr, hfr, hmon, _, _, hst⟩ := wait_for_job_of_children env w hch
        have hd : ∀ k, dispatched k w1.trace = dispatched k w.trace := by
          intro k; rw [htr]; rfl
        rcases hst with ⟨hok, hr, hn1⟩ | ⟨hok, hr, hn1⟩
        · have hstep : wait_for_all_jobs_loop env (fuel + 1) w = wait_for_all_jobs_loop env fuel w1 := by
            simp [wait_for_all_jobs_loop, hn, hw, hr]
          rw [hstep]
          obtain ⟨h1, h2, h3, h4⟩ := ih w1 (by omega) (by omega)
          exact ⟨fun k => (h1 k).trans (hd k), h2.trans hfr, h3.trans hmon, h4⟩
        · have hstep : wait_for_all_jobs_loop env (fuel + 1) w = Res.ret 0 w1 := by
            simp [wait_for_all_jobs_loop, hn, hw, hr]
          rw [hstep]
          exact ⟨hd, hfr, hmon, Or.inr ⟨rfl, job, w.trace, htr, hok⟩⟩

/-- With the counter exact and every live child exiting with status 0 the barrier returns 1. -/
theorem wait_for_all_jobs_loop_ok (env : Env) (hok : ∀ j, (env.status j).ok = true) :
    ∀ (fuel : Nat) (w : World), w.children.length < fuel →
      w.n_jobs = (w.children.length : Int) →
      ∃ w1, wait_for_all_jobs_loop env fuel w = Res.ret 1 w1 := by
  intro fuel
  induction fuel with
  | zero => intro w h; exact absurd h (Nat.not_lt_zero _)
  | succ fuel ih =>
    intro w hlen hex
    by_cases hn : w.n_jobs = 0
    · exact ⟨w, by simp [wait_for_all_jobs_loop, hn]⟩
    · have hch : w.children ≠ [] := by
        intro h0
        rw [h0] at hex
        exact hn (by simpa using hex)
      obtain ⟨r, w1, job, hw, hl, htr, hfr, hmon, _, _, hst⟩ := wait_for_job_of_children env w hch
      rcases hst with ⟨_, hr, hn1⟩ | ⟨hbad, _, _⟩
      · obtain ⟨w2, h2⟩ := ih w1 (by omega) (by omega)
        exact ⟨w2, by simp [wait_for_all_jobs_loop, hn, hw, hr, h2]⟩
      · rw [hok job] at hbad
        exact absurd hbad (by decide)

theorem transfer_error_dispatched (α : Type) (w : World) (k : Int) :
    dispatched k (_transfer_error w : Res α).world.trace = dispatched k w.trace := by
  unfold _transfer_error monitor_shutdown
  cases w.mon.password <;> rfl

theorem transfer_error_not_ret (α : Type) (w : World) (a : α) (w1 : World) :
    (_transfer_error w : Res α) ≠ Res.ret a w1 := by
  unfold _transfer_error monitor_shutdown
  cases w.mon.password <;> simp [Res.bind]

/-- The block after a pass forks nothing; when it returns, the total has grown by the
count of the pass and either nothing happened or no job is left. -/
theorem phase_barrier_spec (env : Env) (m total : Int) (w : World)
    (hle : (w.children.length : Int) ≤ w.n_jobs) :
    (∀ k, dispatched k (phase_barrier env m total w).world.trace = dispatched k w.trace) ∧
    (∀ t w1, phase_barrier env m total w = Res.ret t w1 →
      t = total + m ∧ w1.first_run = w.first_run ∧ w1.mon = w.mon ∧
      (w1 = w ∨ (w1.n_jobs = 0 ∧ w1.children = []))) ∧
    ∀ c w1, phase_barrier env m total w = Res.exit c w1 →
      (c = 1 ∧ ∃ job tr, w1.trace = Event.print_fatal :: Event.reap job (env.status job) :: tr ∧
        (env.status job).ok = false) ∨
      (c = 128 ∧ ∃ tr, w1.trace = Event.print_error ErrorMsg.wait :: tr) := by
  unfold phase_barrier
  by_cases hm : m = 0
  · subst hm
    simp [Res.world]
  · rw [if_pos hm]
    obtain ⟨h1, h2, h3, h4⟩ :=
      wait_for_all_jobs_loop_spec env (w.children.length + 1) w (Nat.lt_succ_self _) hle
    unfold wait_for_all_jobs
    cases hr : wait_for_all_jobs_loop env (w.children.length + 1) w with
    | ret s w1 =>
      rw [hr] at h1 h2 h3 h4
      simp only [Res.world] at h1 h2 h3
      simp only [Res.bind]
      rcases h4 with ⟨hs, hn, hc⟩ | ⟨hs, job, tr, htr, hbad⟩
      · subst hs
        simp only [one_ne_zero, if_false, Res.world]
        refine ⟨h1, ?_, by intro c w2 heq; simp at heq⟩
        intro t w2 heq
        simp only [Res.ret.injEq] at heq
        obtain ⟨rfl, rfl⟩ := heq
        exact ⟨rfl, h2, h3, Or.inr ⟨hn, hc⟩⟩
      · subst hs
        simp only [if_true]
        refine ⟨fun k => (transfer_error_dispatched Int w1 k).trans (h1 k), ?_, ?_⟩
        · intro t w2 heq
          exact absurd heq (transfer_error_not_ret Int w1 t w2)
        · intro c w2 heq
          unfold _transfer_error monitor_shutdown at heq
          cases hp : w1.mon.password with
          | none => simp [hp, Res.bind] at heq
          | some pass =>
            simp only [hp, Res.bind, Res.exit.injEq] at heq
            obtain ⟨rfl, rfl⟩ := heq
            exact Or.inl ⟨rfl, job, tr, by simp [World.log, htr], hbad⟩
    | exit c w1 =>
      rw [hr] at h1 h4
      simp only [Res.world] at h1
      simp only [Res.bind, Res.world]
      refine ⟨h1, by intro t w2 heq; simp at heq, ?_⟩
      intro c2 w2 heq
      simp only [Res.exit.injEq] at heq
      obtain ⟨rfl, rfl⟩ := heq
      exact Or.inr h4
    | fault w1 => rw [hr] at h4; exact absurd h4 id
    | more w1 => rw [hr] at h4; exact absurd h4 id

theorem phase_barrier_ok (env : Env) (hok : ∀ j, (env.status j).ok = true) (m total : Int)
    (w : World) (hex : w.n_jobs = (w.children.length : Int)) :
    ∃ w1, phase_barrier env m total w = Res.ret (total + m) w1 := by
  unfold phase_barrier
  by_cases hm : m = 0
  · subst hm
    exact ⟨w, by simp⟩
  · rw [if_pos hm]
    obtain ⟨w1, h1⟩ :=
      wait_for_all_jobs_loop_ok env hok (w.children.length + 1) w (Nat.lt_succ_self _) hex
    exact ⟨w1, by simp [wait_for_all_jobs, h1, Res.bind]⟩

/-! ## Lemmas: the barrier fails fast -/

theorem new_events_of_append (w w1 : World) (evs : List Event) (h : w1.trace = evs ++ w.trace) :
    new_events w w1 = evs := by
  simp [new_events, h]

/-- The events of the barrier loop, most recent first: every event but the last is the
reaping of a job that exited with status 0; when the last one is the reaping of a job that
did not, the loop returns 0 with the world as that reaping left it; and unless the last one
is an error message, every event has reaped one child. -/
theorem wait_for_all_jobs_loop_fail_fast (env : Env) :
    ∀ (fuel : Nat) (w : World), ∃ evs,
      (wait_for_all_jobs_loop env fuel w).world.trace = evs ++ w.trace ∧
      (wait_for_all_jobs_loop env fuel w).world.mon = w.mon ∧
      (∀ e ∈ evs.tail, ∃ job, e = Event.reap job (env.status job) ∧ (env.status job).ok = true) ∧
      (∀ job st, evs.head? = some (Event.reap job st) → st.ok = false →
        wait_for_all_jobs_loop env fuel w
          = Res.ret 0 (wait_for_all_jobs_loop env fuel w).world) ∧
      ((∀ msg, evs.head? ≠ some (Event.print_error msg)) →
        (wait_for_all_jobs_loop env fuel w).world.children.length + evs.length
          = w.children.length) := by
  intro fuel
  induction fuel with
  | zero =>
    intro w
    exact ⟨[], rfl, rfl, by simp, by simp, by simp [wait_for_all_jobs_loop, Res.world]⟩
  | succ fuel ih =>
    intro w
    unfold wait_for_all_jobs_loop
    by_cases hn : w.n_jobs = 0
    · simp only [hn, ne_eq, not_true_eq_false, if_false]
      exact ⟨[], rfl, rfl, by simp, by simp, by simp [Res.world]⟩
    · simp only [ne_eq, hn, not_false_eq_true, if_true]
      by_cases hc : w.children = []
      · rw [wait_for_job_of_no_children env w hc]
        refine ⟨[Event.print_error ErrorMsg.wait], rfl, rfl, by simp, by simp, ?_⟩
        intro h
        exact absurd rfl (h ErrorMsg.wait)
      · obtain ⟨r, w1, job, hw, hlen, htr, _, hmon, _, _, hst⟩ :=
          wait_for_job_of_children env w hc
        rw [hw]
        simp only
        rcases hst with ⟨hok, hr, _⟩ | ⟨hbad, hr, _⟩
        · subst hr
          simp only [ne_eq, not_true_eq_false, if_false]
          obtain ⟨evs1, h1, h2, h3, h4, h5⟩ := ih w1
          refine ⟨evs1 ++ [Event.reap job (env.status job)], ?_, ?_, ?_, ?_, ?_⟩
          · rw [h1, htr]; simp
          · rw [h2, hmon]
          · intro e he
            cases evs1 with
            | nil => simp at he
            | cons e1 es =>
              simp only [List.cons_append, List.tail_cons, List.mem_append,
                List.mem_singleton] at he
              rcases he with he | he
              · exact h3 e (by simpa using he)
              · exact ⟨job, he, hok⟩
          · intro j st hhead hbad
            cases evs1 with
            | nil =>
              simp only [List.nil_append, List.head?_cons, Option.some.injEq,
                Event.reap.injEq] at hhead
              rw [← hhead.2, hok] at hbad
              exact absurd hbad (by decide)
            | cons e1 es => exact h4 j st (by simpa using hhead) hbad
          · intro hne
            have hne1 : ∀ msg, evs1.head? ≠ some (Event.print_error msg) := by
              intro msg
              cases evs1 with
              | nil => simp
              | cons e1 es => simpa using hne msg
            have := h5 hne1
            simp only [List.length_append, List.length_singleton]
            omega
        · simp only [ne_eq, hr, not_false_eq_true, if_true, Res.world]
          refine ⟨[Event.reap job (env.status job)], by rw [htr]; rfl, hmon, by simp, by simp,
            ?_⟩
          intro _
          simp only [List.length_singleton]
          omega

/-! ## Lemmas: what the passes select -/

theorem retag_paths (c : file_t → Bool) (k : Int) (l : List file_t) :
    (l.map fun f => if c f then tag k f else f).map file_t.path = l.map file_t.path := by
  induction l with
  | nil => rfl
  | cons f rest ih =>
    simp only [List.map_cons, ih]
    by_cases h : c f = true <;> simp [h, tag]

theorem mod_hit_tag (first : List file_t) (k : Int) (f : file_t) :
    mod_hit first (tag k f) = mod_hit first f := rfl

theorem mod_set_retag (first : List file_t) (c : file_t → Bool) (k : Int) (l : List file_t) :
    (mod_set first (l.map fun f => if c f then tag k f else f)).map (tag MONITOR_MOD)
      = (mod_set first l).map (tag MONITOR_MOD) := by
  induction l with
  | nil => rfl
  | cons f rest ih =>
    unfold mod_set at ih ⊢
    have htag : mod_hit first (tag k f) = mod_hit first f := rfl
    by_cases h : c f = true
    · by_cases hm : mod_hit first f = true
      · simp only [List.map_cons, h, if_true, List.filter_cons, htag, hm]
        rw [ih]
        rfl
      · simp only [List.map_cons, h, if_true, List.filter_cons, htag, hm]
        exact ih
    · by_cases hm : mod_hit first f = true
      · simp only [List.map_cons, h, List.filter_cons, hm, if_true, Bool.false_eq_true, if_false]
        rw [ih]
      · simp only [List.map_cons, h, List.filter_cons, hm, Bool.false_eq_true, if_false]
        exact ih

theorem del_set_congr (first second second1 : List file_t)
    (h : second1.map file_t.path = second.map file_t.path) :
    del_set first second1 = del_set first second := by
  unfold del_set
  apply List.filter_congr
  intro f _
  rw [Bool.eq_iff_iff, file_exists_isNone_iff, file_exists_isNone_iff, h]

theorem dispatched_ite_log (k : Int) (c : Prop) [Decidable c] (w : World) (n : Int) :
    dispatched k (if c then w.log (Event.print_total n) else w).trace = dispatched k w.trace := by
  split <;> rfl

theorem PoolInv_of_idle {w : World} (hn : w.n_jobs = 0) (hc : w.children = []) : PoolInv w := by
  simp [PoolInv, hn, hc]

theorem PoolExact_of_idle {w : World} (hn : w.n_jobs = 0) (hc : w.children = [])
    (hpm : 1 ≤ w.mon.parallel_max) : PoolExact w := by
  simp only [PoolExact, hn, hc, List.length_nil, Nat.cast_zero, true_and]
  omega

/-! ## Lemmas: `file_lists_compare` as a whole -/

@[simp] theorem Res.bind_ret {α β : Type} (a : α) (w : World) (k : α → World → Res β) :
    (Res.ret a w).bind k = k a w := rfl

@[simp] theorem Res.bind_exit {α β : Type} (c : Nat) (w : World) (k : α → World → Res β) :
    (Res.exit c w : Res α).bind k = Res.exit c w := rfl

@[simp] theorem Res.bind_fault {α β : Type} (w : World) (k : α → World → Res β) :
    (Res.fault w : Res α).bind k = Res.fault w := rfl

@[simp] theorem Res.bind_more {α β : Type} (w : World) (k : α → World → Res β) :
    (Res.more w : Res α).bind k = Res.more w := rfl

theorem kinds_ne : MONITOR_ADD ≠ MONITOR_MOD ∧ MONITOR_ADD ≠ MONITOR_DEL ∧ MONITOR_MOD ≠ MONITOR_DEL := by
  decide

/-- With `fork` succeeding: the Added pass always runs to its end; the jobs of each kind forked
by the call are none or the whole set of that kind; when the call returns all three sets have
been dispatched and counted; and it returns when every job exits with status 0. -/
theorem file_lists_compare_spec (env : Env) (prev now : List file_t) (w : World)
    (hfork : ∀ k, env.fork_fails k = false) (hpm : 1 ≤ w.mon.parallel_max) (hinv : PoolInv w) :
    dispatched MONITOR_ADD (file_lists_compare env prev now w).world.trace
      = dispatched MONITOR_ADD w.trace ++ (add_set prev now w.first_run).map (tag MONITOR_ADD) ∧
    (dispatched MONITOR_MOD (file_lists_compare env prev now w).world.trace
        = dispatched MONITOR_MOD w.trace ∨
      dispatched MONITOR_MOD (file_lists_compare env prev now w).world.trace
        = dispatched MONITOR_MOD w.trace ++ (mod_set prev now).map (tag MONITOR_MOD)) ∧
    (dispatched MONITOR_DEL (file_lists_compare env prev now w).world.trace
        = dispatched MONITOR_DEL w.trace ∨
      dispatched MONITOR_DEL (file_lists_compare env prev now w).world.trace
        = dispatched MONITOR_DEL w.trace ++ (del_set prev now).map (tag MONITOR_DEL)) ∧
    (∀ r w1, file_lists_compare env prev now w = Res.ret r w1 →
      dispatched MONITOR_MOD w1.trace
        = dispatched MONITOR_MOD w.trace ++ (mod_set prev now).map (tag MONITOR_MOD) ∧
      dispatched MONITOR_DEL w1.trace
        = dispatched MONITOR_DEL w.trace ++ (del_set prev now).map (tag MONITOR_DEL) ∧
      r.1 = ((add_set prev now w.first_run).length : Int) + ((mod_set prev now).length : Int)
        + ((del_set prev now).length : Int)) ∧
    ((∀ j, (env.status j).ok = true) → PoolExact w →
      ∃ r w1, file_lists_compare env prev now w = Res.ret r w1) ∧
    (∀ c w1, file_lists_compare env prev now w = Res.exit c w1 →
      (c = 1 ∧ ∃ job tr, w1.trace = Event.print_fatal :: Event.reap job (env.status job) :: tr ∧
        (env.status job).ok = false) ∨
      (c = 128 ∧ ∃ tr, w1.trace = Event.print_error ErrorMsg.wait :: tr)) := by
  obtain ⟨hAM, hAD, hMD⟩ := kinds_ne
  -- the Added pass
  obtain ⟨w1, hA, hinv1, hfr1, hmon1, htr1, hex1⟩ :=
    check_add_files_loop_ok env prev hfork now 0 w hpm hinv
  have hpm1 : 1 ≤ w1.mon.parallel_max := by rw [hmon1]; exact hpm
  have hp1 := retag_paths (fun f => (file_exists prev f.path).isNone || w.first_run) MONITOR_ADD now
  have hM1 := mod_set_retag prev (fun f => (file_exists prev f.path).isNone || w.first_run)
    MONITOR_ADD now
  generalize (now.map fun f => if (file_exists prev f.path).isNone || w.first_run
    then tag MONITOR_ADD f else f) = now1 at hA hp1 hM1
  have hAa : dispatched MONITOR_ADD w1.trace
      = dispatched MONITOR_ADD w.trace ++ (add_set prev now w.first_run).map (tag MONITOR_ADD) := by
    rw [htr1 MONITOR_ADD, if_pos rfl]; rfl
  have hAm : dispatched MONITOR_MOD w1.trace = dispatched MONITOR_MOD w.trace := by
    rw [htr1 MONITOR_MOD, if_neg (Ne.symm hAM), List.append_nil]
  have hAd : dispatched MONITOR_DEL w1.trace = dispatched MONITOR_DEL w.trace := by
    rw [htr1 MONITOR_DEL, if_neg (Ne.symm hAD), List.append_nil]
  have hcA : (0 : Int) + ((now.filter fun f => (file_exists prev f.path).isNone || w.first_run).length : Int)
      = ((add_set prev now w.first_run).length : Int) := by
    rw [zero_add]; rfl
  rw [hcA] at hA
  have hnk : (∀ j, (env.status j).ok = true) → ∀ j, env.status j ≠ WaitStatus.killed := by
    intro hok j hj
    have := hok j
    rw [hj] at this
    exact absurd this (by decide)
  unfold file_lists_compare _check_add_files _check_mod_files _check_del_files
  rw [hA]
  simp only [Res.bind_ret]
  -- the barrier after it
  obtain ⟨hbd1, hbr1, hbx1⟩ := phase_barrier_spec env ((add_set prev now w.first_run).length : Int) 0 w1 hinv1.1
  have hbok1 := fun hok => phase_barrier_ok env hok ((add_set prev now w.first_run).length : Int) 0 w1
  generalize phase_barrier env ((add_set prev now w.first_run).length : Int) 0 w1 = b1
    at hbd1 hbr1 hbok1 hbx1
  cases b1 with
  | ret t1 w2 =>
    simp only [Res.bind_ret]
    obtain ⟨ht1, hfr2, hmon2, hw2⟩ := hbr1 t1 w2 rfl
    simp only [Res.world] at hbd1
    have hinv2 : PoolInv w2 := by
      rcases hw2 with rfl | ⟨hn, hc⟩
      · exact hinv1
      · exact PoolInv_of_idle hn hc
    have hpm2 : 1 ≤ w2.mon.parallel_max := by rw [hmon2]; exact hpm1
    have hex2 : (∀ j, (env.status j).ok = true) → PoolExact w → PoolExact w2 := by
      intro hok hex
      rcases hw2 with rfl | ⟨hn, hc⟩
      · exact hex1 (hnk hok) hex
      · exact PoolExact_of_idle hn hc hpm2
    -- the Modified pass
    obtain ⟨w3, hM, hinv3, hfr3, hmon3, htr3, hex3⟩ :=
      check_mod_files_loop_ok env prev hfork now1 0 w2 hpm2 hinv2
    have hpm3 : 1 ≤ w3.mon.parallel_max := by rw [hmon3]; exact hpm2
    have hp2 := retag_paths (mod_hit prev) MONITOR_MOD now1
    generalize (now1.map fun f => if mod_hit prev f then tag MONITOR_MOD f else f) = now2 at hM hp2
    have hlenM : ((now1.filter (mod_hit prev)).length : Int) = ((mod_set prev now).length : Int) := by
      have := congrArg List.length hM1
      simp only [List.length_map] at this
      exact_mod_cast this
    have hMa : dispatched MONITOR_ADD w3.trace
        = dispatched MONITOR_ADD w.trace ++ (add_set prev now w.first_run).map (tag MONITOR_ADD) := by
      rw [htr3 MONITOR_ADD, if_neg hAM, List.append_nil, hbd1, hAa]
    have hMm : dispatched MONITOR_MOD w3.trace
        = dispatched MONITOR_MOD w.trace ++ (mod_set prev now).map (tag MONITOR_MOD) := by
      rw [htr3 MONITOR_MOD, if_pos rfl, hbd1, hAm, ← hM1]; rfl
    have hMd : dispatched MONITOR_DEL w3.trace = dispatched MONITOR_DEL w.trace := by
      rw [htr3 MONITOR_DEL, if_neg (Ne.symm hMD), List.append_nil, hbd1, hAd]
    rw [zero_add, hlenM] at hM
    rw [hM]
    simp only [Res.bind_ret]
    obtain ⟨hbd2, hbr2, hbx2⟩ := phase_barrier_spec env ((mod_set prev now).length : Int) t1 w3 hinv3.1
    have hbok2 := fun hok => phase_barrier_ok env hok ((mod_set prev now).length : Int) t1 w3
    generalize phase_barrier env ((mod_set prev now).length : Int) t1 w3 = b2 at hbd2 hbr2 hbok2 hbx2
    cases b2 with
    | ret t2 w4 =>
      simp only [Res.bind_ret]
      obtain ⟨ht2, hfr4, hmon4, hw4⟩ := hbr2 t2 w4 rfl
      simp only [Res.world] at hbd2
      have hinv4 : PoolInv w4 := by
        rcases hw4 with rfl | ⟨hn, hc⟩
        · exact hinv3
        · exact PoolInv_of_idle hn hc
      have hpm4 : 1 ≤ w4.mon.parallel_max := by rw [hmon4]; exact hpm3
      have hex4 : (∀ j, (env.status j).ok = true) → PoolExact w → PoolExact w4 := by
        intro hok hex
        rcases hw4 with rfl | ⟨hn, hc⟩
        · exact hex3 (hnk hok) (hex2 hok hex)
        · exact PoolExact_of_idle hn hc hpm4
      -- the Deleted pass
      obtain ⟨w5, hD, hinv5, hfr5, hmon5, htr5, hex5⟩ :=
        check_del_files_loop_ok env now2 hfork prev 0 w4 hpm4 hinv4
      have hDset : del_set prev now2 = del_set prev now := del_set_congr prev now now2 (hp2.trans hp1)
      have hDset2 : (prev.filter fun f => (file_exists now2 f.path).isNone) = del_set prev now := hDset
      generalize (prev.map fun f => if (file_exists now2 f.path).isNone then tag MONITOR_DEL f else f)
        = prev1 at hD
      rw [hDset2] at hD htr5
      have hDa : dispatched MONITOR_ADD w5.trace
          = dispatched MONITOR_ADD w.trace ++ (add_set prev now w.first_run).map (tag MONITOR_ADD) := by
        rw [htr5 MONITOR_ADD, if_neg hAD, List.append_nil, hbd2, hMa]
      have hDm : dispatched MONITOR_MOD w5.trace
          = dispatched MONITOR_MOD w.trace ++ (mod_set prev now).map (tag MONITOR_MOD) := by
        rw [htr5 MONITOR_MOD, if_neg hMD, List.append_nil, hbd2, hMm]
      have hDd : dispatched MONITOR_DEL w5.trace
          = dispatched MONITOR_DEL w.trace ++ (del_set prev now).map (tag MONITOR_DEL) := by
        rw [htr5 MONITOR_DEL, if_pos rfl, hbd2, hMd]
      rw [zero_add] at hD
      rw [hD]
      simp only [Res.bind_ret]
      obtain ⟨hbd3, hbr3, hbx3⟩ := phase_barrier_spec env ((del_set prev now).length : Int) t2 w5 hinv5.1
      have hbok3 := fun hok => phase_barrier_ok env hok ((del_set prev now).length : Int) t2 w5
      generalize phase_barrier env ((del_set prev now).length : Int) t2 w5 = b3 at hbd3 hbr3 hbok3 hbx3
      cases b3 with
      | ret t3 w6 =>
        obtain ⟨ht3, _, _, _⟩ := hbr3 t3 w6 rfl
        simp only [Res.world] at hbd3
        simp only [Res.bind_ret, Res.world, dispatched_ite_log]
        refine ⟨by rw [hbd3, hDa], Or.inr (by rw [hbd3, hDm]), Or.inr (by rw [hbd3, hDd]), ?_,
          fun _ _ => ⟨_, _, rfl⟩, by intro c w' h; simp at h⟩
        intro r w' h
        simp only [Res.ret.injEq] at h
        obtain ⟨rfl, rfl⟩ := h
        refine ⟨by rw [dispatched_ite_log, hbd3, hDm], by rw [dispatched_ite_log, hbd3, hDd], ?_⟩
        show t3 = _
        rw [ht3, ht2, ht1, zero_add]
      | _ =>
        simp only [Res.world] at hbd3
        simp only [Res.bind_exit, Res.bind_fault, Res.bind_more, Res.world]
        refine ⟨by rw [hbd3, hDa], Or.inr (by rw [hbd3, hDm]), Or.inr (by rw [hbd3, hDd]),
          by intro r w' h; simp at h, ?_,
          by intro c w' h; cases h <;> exact hbx3 _ _ rfl⟩
        intro hok hex
        obtain ⟨w', h'⟩ := hbok3 hok (hex5 (hnk hok) (hex4 hok hex)).1
        simp at h'
    | _ =>
      simp only [Res.world] at hbd2
      simp only [Res.bind_exit, Res.bind_fault, Res.bind_more, Res.world]
      refine ⟨by rw [hbd2, hMa], Or.inr (by rw [hbd2, hMm]), Or.inl (by rw [hbd2, hMd]),
        by intro r w' h; simp at h, ?_,
          by intro c w' h; cases h <;> exact hbx2 _ _ rfl⟩
      intro hok hex
      obtain ⟨w', h'⟩ := hbok2 hok (hex3 (hnk hok) (hex2 hok hex)).1
      simp at h'
  | _ =>
    simp only [Res.world] at hbd1
    simp only [Res.bind_exit, Res.bind_fault, Res.bind_more, Res.world]
    refine ⟨by rw [hbd1, hAa], Or.inl (by rw [hbd1, hAm]), Or.inl (by rw [hbd1, hAd]),
      by intro r w' h; simp at h, ?_,
          by intro c w' h; cases h <;> exact hbx1 _ _ rfl⟩
    intro hok hex
    obtain ⟨w', h'⟩ := hbok1 hok (hex1 (hnk hok) hex).1
    simp at h'

/-! ## Lemmas: the sets of the code and of the specification -/

theorem add_set_eq_spec (prev now : List file_t) : add_set prev now false = spec_added prev now := by
  unfold add_set spec_added
  apply List.filter_congr
  intro f _
  rw [Bool.or_false, Bool.eq_iff_iff, file_exists_isNone_iff]
  simp

theorem add_set_first_run (prev now : List file_t) : add_set prev now true = now := by
  unfold add_set
  simp

theorem del_set_eq_spec (prev now : List file_t) : del_set prev now = spec_deleted prev now := by
  unfold del_set spec_deleted
  apply List.filter_congr
  intro f _
  rw [Bool.eq_iff_iff, file_exists_isNone_iff]
  simp

theorem mod_hit_iff (prev : List file_t) (hprev : (prev.map file_t.path).Nodup) (f : file_t) :
    mod_hit prev f = true ↔ ∃ e ∈ prev, e.path = f.path ∧ e.mtime ≠ f.mtime := by
  unfold mod_hit
  cases hx : file_exists prev f.path with
  | none =>
    have hno := (file_exists_eq_none_iff prev f.path).mp hx
    constructor
    · intro h; exact absurd h (by simp)
    · rintro ⟨e, he, hp, _⟩
      exact absurd (List.mem_map.mpr ⟨e, he, hp⟩) hno
  | some found =>
    obtain ⟨hmem, hpath⟩ := file_exists_some_mem hx
    constructor
    · intro h
      exact ⟨found, hmem, hpath, fun heq => (of_decide_eq_true h) heq.symm⟩
    · rintro ⟨e, he, hp, hne⟩
      have : e = found := mem_unique_of_nodup_paths hprev he hmem (hp.trans hpath.symm)
      subst this
      exact decide_eq_true (fun heq => hne heq.symm)

theorem mod_set_eq_spec (prev now : List file_t) (hprev : (prev.map file_t.path).Nodup) :
    mod_set prev now = spec_modified prev now := by
  unfold mod_set spec_modified
  apply List.filter_congr
  intro f _
  rw [Bool.eq_iff_iff, mod_hit_iff prev hprev f]
  simp

theorem mod_set_nil (now : List file_t) : mod_set [] now = [] := by
  unfold mod_set
  apply List.filter_eq_nil_iff.mpr
  intro f _
  simp [mod_hit, file_exists]

/-! ## Claims about the diff engine and the job pool -/

/-- C1. With `first_run` false, `prev` holding pairwise distinct paths, no job running at
the call and `fork` succeeding, the three passes of `file_lists_compare` classify exactly:
the Added pass forks one job for each record of `now` whose path is absent from `prev` (it
runs to its end in every execution); when the call returns, the Modified pass has forked one
job for each record of `now` whose path is in `prev` with a different mtime, the Deleted pass
one for each record of `prev` whose path is absent from `now`, and the returned total is the
sum of the three counts; the call returns whenever every job exits with status 0; and a
record present in both lists with equal mtime is in none of the three sets.  Size is never
compared.  Distinctness of the paths of `now` is not needed. -/
theorem C1_passes_classify_exactly (env : Env) (prev now : List file_t) (w : World)
    (hfr : w.first_run = false) (hprev : (prev.map file_t.path).Nodup)
    (hpm : 1 ≤ w.mon.parallel_max) (hn : w.n_jobs = 0) (hch : w.children = [])
    (hfork : ∀ k, env.fork_fails k = false) :
    dispatched MONITOR_ADD (file_lists_compare env prev now w).world.trace
      = dispatched MONITOR_ADD w.trace ++ (spec_added prev now).map (tag MONITOR_ADD) ∧
    (∀ r w1, file_lists_compare env prev now w = Res.ret r w1 →
      dispatched MONITOR_MOD w1.trace
        = dispatched MONITOR_MOD w.trace ++ (spec_modified prev now).map (tag MONITOR_MOD) ∧
      dispatched MONITOR_DEL w1.trace
        = dispatched MONITOR_DEL w.trace ++ (spec_deleted prev now).map (tag MONITOR_DEL) ∧
      r.1 = ((spec_added prev now).length : Int) + ((spec_modified prev now).length : Int)
        + ((spec_deleted prev now).length : Int)) ∧
    ((∀ j, (env.status j).ok = true) →
      ∃ r w1, file_lists_compare env prev now w = Res.ret r w1) ∧
    (∀ f ∈ now, ∀ e ∈ prev, e.path = f.path → e.mtime = f.mtime →
      f ∉ spec_added prev now ∧ f ∉ spec_modified prev now ∧ e ∉ spec_deleted prev now) := by
  obtain ⟨h1, _, _, h4, h5, _⟩ :=
    file_lists_compare_spec env prev now w hfork hpm (PoolInv_of_idle hn hch)
  rw [hfr, add_set_eq_spec] at h1 h4
  rw [mod_set_eq_spec prev now hprev, del_set_eq_spec] at h4
  refine ⟨h1, h4, fun hok => h5 hok (PoolExact_of_idle hn hch hpm), ?_⟩
  intro f hf e he hp hm
  refine ⟨?_, ?_, ?_⟩
  · intro h
    have := (List.mem_filter.mp h).2
    exact (of_decide_eq_true this) (List.mem_map.mpr ⟨e, he, hp⟩)
  · intro h
    obtain ⟨e', he', hp', hne⟩ := of_decide_eq_true (List.mem_filter.mp h).2
    have : e' = e := mem_unique_of_nodup_paths hprev he' he (hp'.trans hp.symm)
    subst this
    exact hne hm
  · intro h
    have := (List.mem_filter.mp h).2
    exact (of_decide_eq_true this) (List.mem_map.mpr ⟨f, hf, hp.symm⟩)

/-- C1 at `prev = {a@1, b@1, c@1}`, `now = {a@1, b@2, d@1}` with limit 2. -/
theorem C1_passes_classify_exactly_witness :
    dispatched MONITOR_ADD
        (file_lists_compare env_ok [ex_file 97 1, ex_file 98 1, ex_file 99 1]
          [ex_file 97 1, ex_file 98 2, ex_file 100 1] (ex_world 2 false)).world.trace
      = dispatched MONITOR_ADD (ex_world 2 false).trace
        ++ (spec_added [ex_file 97 1, ex_file 98 1, ex_file 99 1]
              [ex_file 97 1, ex_file 98 2, ex_file 100 1]).map (tag MONITOR_ADD) :=
  (C1_passes_classify_exactly env_ok [ex_file 97 1, ex_file 98 1, ex_file 99 1]
    [ex_file 97 1, ex_file 98 2, ex_file 100 1] (ex_world 2 false) rfl (by decide) (by decide) rfl rfl
    (fun _ => rfl)).1

/-- C2, at the failing input `first_run = true`, `prev = {/d/a mtime 100}`,
`now = {/d/a mtime 200}`: the call returns 2, having forked a job for `/d/a` tagged
MONITOR_ADD in the Added pass and a second job for `/d/a` tagged MONITOR_MOD in the Modified
pass, so the path is classified both Added and Modified. -/
theorem C2_path_added_and_modified :
    ∃ r w1, file_lists_compare env_ok [ex_file 97 100] [ex_file 97 200] (ex_world 1 true)
        = Res.ret r w1 ∧ r.1 = 2 ∧
      dispatched MONITOR_ADD w1.trace = [tag MONITOR_ADD (ex_file 97 200)] ∧
      dispatched MONITOR_MOD w1.trace = [tag MONITOR_MOD (ex_file 97 200)] :=
  ⟨_, _, rfl, by decide, by decide, by decide⟩

/-- C3. For every record list `now`, `file_lists_compare` on an empty `prev` with `first_run`
set (no job running at the call, `fork` succeeding) forks one MONITOR_ADD job for every
record of `now`, in order, and no MONITOR_MOD or MONITOR_DEL job, in every execution; and
when every job exits with status 0 it returns with total = the number of records. -/
theorem C3_first_run_bootstrap (env : Env) (now : List file_t) (w : World)
    (hfr : w.first_run = true) (hpm : 1 ≤ w.mon.parallel_max) (hn : w.n_jobs = 0)
    (hch : w.children = []) (hfork : ∀ k, env.fork_fails k = false) :
    dispatched MONITOR_ADD (file_lists_compare env [] now w).world.trace
      = dispatched MONITOR_ADD w.trace ++ now.map (tag MONITOR_ADD) ∧
    dispatched MONITOR_MOD (file_lists_compare env [] now w).world.trace
      = dispatched MONITOR_MOD w.trace ∧
    dispatched MONITOR_DEL (file_lists_compare env [] now w).world.trace
      = dispatched MONITOR_DEL w.trace ∧
    ((∀ j, (env.status j).ok = true) →
      ∃ r w1, file_lists_compare env [] now w = Res.ret r w1 ∧ r.1 = (now.length : Int)) := by
  obtain ⟨h1, h2, h3, h4, h5, _⟩ :=
    file_lists_compare_spec env [] now w hfork hpm (PoolInv_of_idle hn hch)
  have hdel : del_set [] now = [] := rfl
  rw [hfr, add_set_first_run] at h1 h4
  rw [mod_set_nil, List.map_nil, List.append_nil, or_self] at h2
  rw [hdel, List.map_nil, List.append_nil, or_self] at h3
  refine ⟨h1, h2, h3, ?_⟩
  intro hok
  obtain ⟨r, w1, hr⟩ := h5 hok (PoolExact_of_idle hn hch hpm)
  refine ⟨r, w1, hr, ?_⟩
  rw [(h4 r w1 hr).2.2, mod_set_nil, hdel]
  simp

/-- C3 at `now = {a, b, c}` with limit 2. -/
theorem C3_first_run_bootstrap_witness :
    dispatched MONITOR_ADD
        (file_lists_compare env_ok [] [ex_file 97 1, ex_file 98 1, ex_file 99 1]
          (ex_world 2 true)).world.trace
      = dispatched MONITOR_ADD (ex_world 2 true).trace
        ++ [ex_file 97 1, ex_file 98 1, ex_file 99 1].map (tag MONITOR_ADD) :=
  (C3_first_run_bootstrap env_ok [ex_file 97 1, ex_file 98 1, ex_file 99 1] (ex_world 2 true)
    rfl (by decide) rfl rfl (fun _ => rfl)).1

/-- C8, at the failing input `parallel_max = 1`, `prev` empty, `now = {a, b}`, the job for
`a` exiting with status 1: the at-capacity wait before the second fork reaps that job and
drops its status, the barrier sees only the second job, and `file_lists_compare` returns 2
as on success. -/
theorem C8_failure_reaped_at_capacity_is_lost :
    ∃ r w1, file_lists_compare (env_exit1 0) [] [ex_file 97 1, ex_file 98 1] (ex_world 1 false)
        = Res.ret r w1 ∧ r.1 = 2 ∧
      w1.trace.reverse =
        [Event.fork 0 Work.remote_add (tag MONITOR_ADD (ex_file 97 1)),
         Event.print Msg.add_file [47, 100, 47, 97],
         Event.reap 0 (WaitStatus.exited 1),
         Event.fork 1 Work.remote_add (tag MONITOR_ADD (ex_file 98 1)),
         Event.print Msg.add_file [47, 100, 47, 98],
         Event.reap 1 (WaitStatus.exited 0),
         Event.print_total 2] :=
  ⟨_, _, rfl, by decide, by decide⟩

/-- C9, at the failing input `parallel_max = 1`, `now = {a, b, c}`, the job for `a` killed
by a signal: `wait_for_job` returns before `--n_jobs`, so after the Added pass `n_jobs` is 3
while two children (more than the limit) are running. -/
theorem C9_ceiling_broken_after_abnormal_exit :
    ∃ r w1, _check_add_files env_killed [] [ex_file 97 1, ex_file 98 1, ex_file 99 1]
        (ex_world 1 false) = Res.ret r w1 ∧
      w1.mon.parallel_max = 1 ∧ w1.children = [1, 2] ∧ w1.n_jobs = 3 :=
  ⟨_, _, rfl, by decide, by decide, by decide⟩

/-- C10 as stated fails: with items `{a, b, c}`, limit 3 and the job for `b` failing and
finishing first, the run is aborted with status 1 while the jobs for `a` and `c` are still
running (`n_jobs = 2`). -/
theorem C10_failure_reported_before_all_completed :
    ∃ w1, file_lists_compare env_second_first [] [ex_file 97 1, ex_file 98 1, ex_file 99 1]
        (ex_world 3 false) = Res.exit 1 w1 ∧ w1.children = [0, 2] ∧ w1.n_jobs = 2 :=
  ⟨_, rfl, by decide, by decide⟩

/-- When `file_lists_compare` ends the process with status 1, the last two events are the
reaping of a job that did not exit with status 0 and the FATAL message. -/
theorem file_lists_compare_exit_one (env : Env) (prev now : List file_t) (w : World)
    (hpm : 1 ≤ w.mon.parallel_max) (hn : w.n_jobs = 0) (hch : w.children = [])
    (hfork : ∀ k, env.fork_fails k = false) (w1 : World)
    (h : file_lists_compare env prev now w = Res.exit 1 w1) :
    ∃ job tr, w1.trace = Event.print_fatal :: Event.reap job (env.status job) :: tr ∧
      (env.status job).ok = false := by
  obtain ⟨_, _, _, _, _, h6⟩ :=
    file_lists_compare_spec env prev now w hfork hpm (PoolInv_of_idle hn hch)
  rcases h6 1 w1 h with ⟨_, hx⟩ | ⟨hc, _⟩
  · exact hx
  · exact absurd hc (by decide)

/-- C10 as amended.  Let the block after a pass that counted `m ≠ 0` changes start in world
`w` (password set).  Of the events of its wait (most recent first) every one but the last is
the reaping of a job that exited with status 0.  When the last one is the reaping of a job
that did not exit with status 0, `wait_for_all_jobs` returns 0 in the world as that reaping
left it: every event has reaped one child, the children not reaped are still running; and the
block ends the process with status 1, having zeroed the password and logged the FATAL
message, nothing else.  When one of the three blocks of `file_lists_compare` ends the
process, `file_lists_compare` ends it with the same status in the same world: nothing is
forked afterwards. -/
theorem C10_failure_reported_at_once (env : Env) (m total : Int) (w : World) (pw : List Nat)
    (hm : m ≠ 0) (hpw : w.mon.password = some pw) :
    (wait_for_all_jobs env w).world.trace
      = new_events w (wait_for_all_jobs env w).world ++ w.trace ∧
    (∀ e ∈ (new_events w (wait_for_all_jobs env w).world).tail,
      ∃ job, e = Event.reap job (env.status job) ∧ (env.status job).ok = true) ∧
    (∀ job st, (new_events w (wait_for_all_jobs env w).world).head? = some (Event.reap job st) →
      st.ok = false →
      ∃ w1, wait_for_all_jobs env w = Res.ret 0 w1 ∧
        w1.children.length + (new_events w w1).length = w.children.length ∧
        phase_barrier env m total w
          = Res.exit 1
              ({ w1 with mon := { w1.mon with password := some (_clear_password pw) } }.log
                Event.print_fatal)) ∧
    (∀ first second w0 a w1 c w2, _check_add_files env first second w0 = Res.ret a w1 →
      phase_barrier env a.1 0 w1 = Res.exit c w2 →
      file_lists_compare env first second w0 = Res.exit c w2) ∧
    (∀ first second w0 a w1 t1 w2 b w3 c w4, _check_add_files env first second w0 = Res.ret a w1 →
      phase_barrier env a.1 0 w1 = Res.ret t1 w2 →
      _check_mod_files env first a.2 w2 = Res.ret b w3 →
      phase_barrier env b.1 t1 w3 = Res.exit c w4 →
      file_lists_compare env first second w0 = Res.exit c w4) ∧
    ∀ first second w0 a w1 t1 w2 b w3 t2 w4 d w5 c w6,
      _check_add_files env first second w0 = Res.ret a w1 →
      phase_barrier env a.1 0 w1 = Res.ret t1 w2 →
      _check_mod_files env first a.2 w2 = Res.ret b w3 →
      phase_barrier env b.1 t1 w3 = Res.ret t2 w4 →
      _check_del_files env first b.2 w4 = Res.ret d w5 →
      phase_barrier env d.1 t2 w5 = Res.exit c w6 →
      file_lists_compare env first second w0 = Res.exit c w6 := by
  obtain ⟨evs, h1, h2, h3, h4, h5⟩ :=
    wait_for_all_jobs_loop_fail_fast env (w.children.length + 1) w
  have hev : new_events w (wait_for_all_jobs env w).world = evs :=
    new_events_of_append w _ evs h1
  refine ⟨?_, ?_, ?_, ?_, ?_, ?_⟩
  · rw [hev]; exact h1
  · rw [hev]; exact h3
  · intro job st hhead hbad
    rw [hev] at hhead
    have hret := h4 job st hhead hbad
    refine ⟨(wait_for_all_jobs env w).world, hret, ?_, ?_⟩
    · rw [hev]
      apply h5
      intro msg
      rw [hhead]
      simp
    · have hmon : (wait_for_all_jobs env w).world.mon.password = some pw := by
        unfold wait_for_all_jobs
        rw [h2]; exact hpw
      unfold phase_barrier
      rw [if_pos hm]
      unfold wait_for_all_jobs at hret hmon ⊢
      rw [hret]
      rw [hret] at hmon
      simp only [Res.world] at hmon
      simp only [Res.bind_ret, if_true, _transfer_error, monitor_shutdown, hmon, Res.world]
  · intro first second w0 a w1 c w2 ha hb
    simp only [file_lists_compare, ha, hb, Res.bind_ret, Res.bind_exit]
  · intro first second w0 a w1 t1 w2 b w3 c w4 ha hb hmod hb2
    simp only [file_lists_compare, ha, hb, hmod, hb2, Res.bind_ret, Res.bind_exit]
  · intro first second w0 a w1 t1 w2 b w3 t2 w4 d w5 c w6 ha hb hmod hb2 hdel hb3
    simp only [file_lists_compare, ha, hb, hmod, hb2, hdel, hb3, Res.bind_ret, Res.bind_exit]

/-- C10 as amended, at the block after the Added pass for `{a, b, c}` with limit 3, the job
for `b` failing and being reaped first: the wait returns 0 after one reaping, two of the
three jobs are still running, and the block exits with status 1. -/
theorem C10_failure_reported_at_once_witness :
    (∃ w1, wait_for_all_jobs env_second_first ex_world_three_jobs = Res.ret 0 w1 ∧
      w1.children.length + (new_events ex_world_three_jobs w1).length
        = ex_world_three_jobs.children.length ∧
      phase_barrier env_second_first 3 0 ex_world_three_jobs
        = Res.exit 1
            ({ w1 with mon := { w1.mon with password := some (_clear_password [112, 119, 0]) } }.log
              Event.print_fatal)) ∧
    ex_world_three_jobs.children = [0, 1, 2] ∧
    (phase_barrier env_second_first 3 0 ex_world_three_jobs).world.children = [0, 2] ∧
    (phase_barrier env_second_first 3 0 ex_world_three_jobs).world.n_jobs = 2 :=
  ⟨(C10_failure_reported_at_once env_second_first 3 0 ex_world_three_jobs [112, 119, 0]
      (by decide) (by decide)).2.2.1 1 (WaitStatus.exited 1) (by decide) (by decide),
    by decide, by decide, by decide⟩

/-! ## Lemmas: decimal output and `atoi` -/

theorem isdigit_iff (c : Nat) : isdigit c = true ↔ 48 ≤ c ∧ c ≤ 57 := by
  simp [isdigit]

theorem dec_digits_append (fuel n : Nat) (acc : List Nat) :
    dec_digits fuel n acc = dec_digits fuel n [] ++ acc := by
  induction fuel generalizing n acc with
  | zero => simp [dec_digits]
  | succ fuel ih =>
    unfold dec_digits
    by_cases h : n / 10 = 0
    · simp [h]
    · simp only [h, if_false]
      rw [ih (n / 10) ((48 + n % 10) :: acc), ih (n / 10) [48 + n % 10]]
      simp

theorem dec_digits_mem (fuel n : Nat) (acc : List Nat) :
    ∀ b ∈ dec_digits fuel n acc, isdigit b = true ∨ b ∈ acc := by
  induction fuel generalizing n acc with
  | zero => intro b hb; exact Or.inr (by simpa [dec_digits] using hb)
  | succ fuel ih =>
    intro b hb
    unfold dec_digits at hb
    have hd : isdigit (48 + n % 10) = true := by
      rw [isdigit_iff]; have := Nat.mod_lt n (show 10 > 0 by decide); omega
    by_cases h : n / 10 = 0
    · simp only [h, if_true, List.mem_cons] at hb
      rcases hb with rfl | hb
      · exact Or.inl hd
      · exact Or.inr hb
    · simp only [h, if_false] at hb
      rcases ih (n / 10) _ b hb with h1 | h1
      · exact Or.inl h1
      · rcases List.mem_cons.mp h1 with rfl | h2
        · exact Or.inl hd
        · exact Or.inr h2

theorem dec_digits_ne_nil (fuel n : Nat) (acc : List Nat) (h : 0 < fuel) :
    dec_digits fuel n acc ≠ [] := by
  induction fuel generalizing n acc with
  | zero => exact absurd h (Nat.lt_irrefl 0)
  | succ fuel ih =>
    unfold dec_digits
    by_cases h0 : n / 10 = 0
    · simp [h0]
    · simp only [h0, if_false]
      rw [dec_digits_append]
      simp

/-- Reading back the digits written for `n`. -/
theorem atoi_digits_dec_digits (fuel : Nat) :
    ∀ (n : Nat) (acc : List Nat), n < fuel →
      ∃ k, ∀ a, atoi_digits a (dec_digits fuel n acc) = atoi_digits (a * 10 ^ k + n) acc := by
  induction fuel with
  | zero => intro n acc h; exact absurd h (Nat.not_lt_zero _)
  | succ fuel ih =>
    intro n acc hn
    have hd : isdigit (48 + n % 10) = true := by
      rw [isdigit_iff]; have := Nat.mod_lt n (show 10 > 0 by decide); omega
    unfold dec_digits
    by_cases h : n / 10 = 0
    · refine ⟨1, fun a => ?_⟩
      have hlt : n < 10 := by
        by_contra hge
        have : 1 ≤ n / 10 := (Nat.le_div_iff_mul_le (by decide)).mpr (by omega)
        omega
      simp only [h, if_true, atoi_digits, hd, pow_one]
      congr 1
      have := Nat.mod_eq_of_lt hlt
      omega
    · have hlt : n / 10 < fuel := by
        have : n / 10 < n := Nat.div_lt_self (by
          by_contra h0
          have : n = 0 := by omega
          subst this
          exact h (by simp)) (by decide)
        omega
      obtain ⟨k, hk⟩ := ih (n / 10) ((48 + n % 10) :: acc) hlt
      refine ⟨k + 1, fun a => ?_⟩
      simp only [h, if_false]
      rw [hk a]
      simp only [atoi_digits, hd, if_true]
      congr 1
      have := Nat.div_add_mod n 10
      rw [pow_succ]
      have e : (48 + n % 10 - 48) = n % 10 := by omega
      rw [e]
      nlinarith [this]

theorem atoi_digits_stop (a : Nat) (tail : List Nat)
    (h : tail = [] ∨ ∃ c t, tail = c :: t ∧ isdigit c = false) : atoi_digits a tail = a := by
  rcases h with rfl | ⟨c, t, rfl, hc⟩
  · rfl
  · simp [atoi_digits, hc]

theorem atoi_digits_decimal (n : Nat) (tail : List Nat)
    (h : tail = [] ∨ ∃ c t, tail = c :: t ∧ isdigit c = false) :
    atoi_digits 0 (decimal n ++ tail) = n := by
  unfold decimal
  rw [← dec_digits_append]
  obtain ⟨k, hk⟩ := atoi_digits_dec_digits (n + 1) n tail (Nat.lt_succ_self n)
  rw [hk 0, atoi_digits_stop _ _ h]
  simp

theorem decimal_head (n : Nat) : ∃ d rest, decimal n = d :: rest ∧ isdigit d = true := by
  have hne := dec_digits_ne_nil (n + 1) n [] (Nat.succ_pos n)
  have hmem := dec_digits_mem (n + 1) n []
  unfold decimal
  cases hx : dec_digits (n + 1) n [] with
  | nil => exact absurd hx hne
  | cons d rest =>
    refine ⟨d, rest, rfl, ?_⟩
    rcases hmem d (by rw [hx]; exact List.mem_cons_self _ _) with h | h
    · exact h
    · simp at h

theorem decimal_mem (n : Nat) : ∀ b ∈ decimal n, isdigit b = true := by
  intro b hb
  rcases dec_digits_mem (n + 1) n [] b hb with h | h
  · exact h
  · simp at h

theorem printf_d_mem (i : Int) : ∀ b ∈ printf_d i, b = 45 ∨ isdigit b = true := by
  intro b hb
  unfold printf_d at hb
  split at hb
  · rcases List.mem_cons.mp hb with rfl | h
    · exact Or.inl rfl
    · exact Or.inr (decimal_mem _ b h)
  · exact Or.inr (decimal_mem _ b hb)

theorem printf_d_clean (i : Int) : ∀ b ∈ printf_d i, b ≠ 0 ∧ b ≠ 9 ∧ b ≠ 10 := by
  intro b hb
  rcases printf_d_mem i b hb with rfl | h
  · decide
  · rw [isdigit_iff] at h
    omega

theorem to_int_of_is_int (x : Int) (h : is_int x) : to_int x = x := by
  unfold to_int
  unfold is_int at h
  omega

/-- Function `atoi` reads back what `%d` wrote for an `int`, also when a non-digit follows. -/
theorem atoi_printf_d (i : Int) (hi : is_int i) (tail : List Nat)
    (h : tail = [] ∨ ∃ c t, tail = c :: t ∧ isdigit c = false) :
    atoi (printf_d i ++ tail) = i := by
  unfold is_int at hi
  unfold atoi strtol10 printf_d
  by_cases hneg : i < 0
  · simp only [hneg, if_true, List.cons_append]
    have hsp : List.dropWhile isspace (45 :: (decimal (-i).toNat ++ tail))
        = 45 :: (decimal (-i).toNat ++ tail) := by
      simp [List.dropWhile, isspace]
    rw [hsp]
    simp only [atoi_digits_decimal _ _ h]
    have : ((-i).toNat : Int) = -i := Int.toNat_of_nonneg (by omega)
    rw [this]
    unfold to_int
    omega
  · simp only [hneg, if_false]
    obtain ⟨d, rest, hd, hdig⟩ := decimal_head i.toNat
    have hval := atoi_digits_decimal i.toNat tail h
    rw [hd] at hval ⊢
    rw [isdigit_iff] at hdig
    have hsp : List.dropWhile isspace (d :: rest ++ tail) = d :: (rest ++ tail) := by
      have : isspace d = false := by
        simp only [isspace, Bool.or_eq_false_iff, decide_eq_false_iff_not, Bool.and_eq_false_iff]
        constructor
        · omega
        · right; simp; omega
      simp [List.dropWhile, this]
    rw [hsp]
    have h45 : d ≠ 45 := by omega
    have h43 : d ≠ 43 := by omega
    have hm : (match d :: (rest ++ tail) with
        | 45 :: t => max (-(2 ^ 63)) (min (2 ^ 63 - 1) (-(atoi_digits 0 t : Int)))
        | 43 :: t => max (-(2 ^ 63)) (min (2 ^ 63 - 1) (atoi_digits 0 t : Int))
        | t => max (-(2 ^ 63)) (min (2 ^ 63 - 1) (atoi_digits 0 t : Int)))
        = max (-(2 ^ 63)) (min (2 ^ 63 - 1) (atoi_digits 0 (d :: (rest ++ tail)) : Int)) := by
      split
      · rename_i t heq; simp at heq; exact absurd heq.1 h45
      · rename_i t heq; simp at heq; exact absurd heq.1 h43
      · rfl
    rw [hm]
    have hval2 : atoi_digits 0 (d :: (rest ++ tail)) = i.toNat := hval
    rw [hval2]
    have : (i.toNat : Int) = i := Int.toNat_of_nonneg (by omega)
    rw [this]
    unfold to_int
    omega

/-! ## Lemmas: reading a state file back -/

theorem fgets_read_line (room : Nat) (body rest : List Nat) (hnl : 10 ∉ body)
    (hroom : body.length + 1 ≤ room) :
    fgets_read room (body ++ 10 :: rest) = (body ++ [10], rest) := by
  induction body generalizing room with
  | nil =>
    cases room with
    | zero => exact absurd hroom (by simp)
    | succ room => simp [fgets_read]
  | cons b body ih =>
    cases room with
    | zero => exact absurd hroom (by simp)
    | succ room =>
      have hb : b ≠ 10 := fun h => hnl (by simp [h])
      have hbody : 10 ∉ body := fun h => hnl (List.mem_cons_of_mem _ h)
      have := ih room hbody (by simpa using hroom)
      simp [fgets_read, hb, this]

theorem strchr_split (pre post : List Nat) (c : Nat) (h : c ∉ pre) :
    strchr (pre ++ c :: post) c = some (pre, post) := by
  induction pre with
  | nil => simp [strchr]
  | cons b pre ih =>
    have hb : b ≠ c := fun hbc => h (by simp [hbc])
    have hpre : c ∉ pre := fun hc => h (List.mem_cons_of_mem _ hc)
    simp [strchr, hb, ih hpre]

theorem cstr_of_no_nul (buf : List Nat) (h : 0 ∉ buf) : cstr buf = buf := by
  unfold cstr
  apply List.takeWhile_eq_self_iff.mpr
  intro b hb
  simpa using fun h0 : b = 0 => h (h0 ▸ hb)

theorem state_line_clean (f : file_t) (hwf : well_formed f) :
    0 ∉ state_line f ∧ 10 ∉ f.path ++ [9] ++ printf_d f.mtime ++ [9] ++ printf_d f.size := by
  obtain ⟨hpath, _, _, _, _⟩ := hwf
  have hm := printf_d_clean f.mtime
  have hs := printf_d_clean f.size
  constructor
  · unfold state_line
    simp only [List.mem_append, List.mem_singleton, not_or]
    exact ⟨⟨⟨⟨⟨fun h => (hpath 0 h).1 rfl, by decide⟩, fun h => (hm 0 h).1 rfl⟩, by decide⟩,
      fun h => (hs 0 h).1 rfl⟩, by decide⟩
  · simp only [List.mem_append, List.mem_singleton, not_or]
    exact ⟨⟨⟨⟨fun h => (hpath 10 h).2.2 rfl, by decide⟩, fun h => (hm 10 h).2.2 rfl⟩, by decide⟩,
      fun h => (hs 10 h).2.2 rfl⟩

/-- The loop body reads the line written for a well-formed record back as that record. -/
theorem file_list_state_get_line_state_line (list : List file_t) (f : file_t)
    (hwf : well_formed f) :
    file_list_state_get_line list (state_line f) = list ++ [tag MONITOR_NONE f] := by
  have hclean := (state_line_clean f hwf).1
  obtain ⟨hpath, hhash, _, hmt, hsz⟩ := hwf
  unfold file_list_state_get_line
  rw [cstr_of_no_nul _ hclean]
  have hhead : (state_line f).head? ≠ some 35 := by
    unfold state_line
    cases hp : f.path with
    | nil => simp
    | cons b rest =>
      rw [hp] at hhash
      simpa using hhash
  rw [if_neg hhead]
  have h1 : strchr (state_line f) 9
      = some (f.path, printf_d f.mtime ++ 9 :: (printf_d f.size ++ [10])) := by
    have : state_line f = f.path ++ 9 :: (printf_d f.mtime ++ 9 :: (printf_d f.size ++ [10])) := by
      simp [state_line]
    rw [this]
    exact strchr_split _ _ 9 (fun h => (hpath 9 h).2.1 rfl)
  have h2 : strchr (printf_d f.mtime ++ 9 :: (printf_d f.size ++ [10])) 9
      = some (printf_d f.mtime, printf_d f.size ++ [10]) :=
    strchr_split _ _ 9 (fun h => (printf_d_clean f.mtime 9 h).2.1 rfl)
  simp only [h1, h2]
  have ha1 : atoi (printf_d f.mtime) = f.mtime := by
    have := atoi_printf_d f.mtime hmt [] (Or.inl rfl)
    simpa using this
  have ha2 : atoi (printf_d f.size ++ [10]) = f.size :=
    atoi_printf_d f.size hsz [10] (Or.inr ⟨10, [], rfl, by decide⟩)
  rw [ha1, ha2]
  unfold file_list_add
  rw [to_int_of_is_int _ hmt, to_int_of_is_int _ hsz]
  rfl

theorem state_lines_length (S : List file_t) : S.length ≤ (state_lines S).length := by
  induction S with
  | nil => simp [state_lines]
  | cons f S ih =>
    simp only [state_lines, state_line, List.length_append, List.length_cons, List.length_nil]
    omega

/-- The read loop returns the records written, in order, with one unit of fuel per line and one more. -/
theorem file_list_state_get_loop_state_lines (S : List file_t) (hwf : ∀ f ∈ S, well_formed f) :
    ∀ (fuel : Nat) (list : List file_t), S.length < fuel →
      file_list_state_get_loop fuel (state_lines S) list
        = some (list ++ S.map (tag MONITOR_NONE)) := by
  induction S with
  | nil =>
    intro fuel list hfuel
    cases fuel with
    | zero => exact absurd hfuel (Nat.not_lt_zero _)
    | succ fuel => simp [file_list_state_get_loop, state_lines, fgets]
  | cons f S ih =>
    intro fuel list hfuel
    cases fuel with
    | zero => exact absurd hfuel (Nat.not_lt_zero _)
    | succ fuel =>
      have hf := hwf f (List.mem_cons_self _ _)
      have hnl := (state_line_clean f hf).2
      have hlen : (state_line f).length ≤ 4095 := hf.2.2.1
      have hsplit : state_lines (f :: S)
          = (f.path ++ [9] ++ printf_d f.mtime ++ [9] ++ printf_d f.size) ++ 10 :: state_lines S := by
        simp [state_lines, state_line]
      have hread : fgets 4096 (state_lines (f :: S)) = some (state_line f, state_lines S) := by
        unfold fgets
        rw [if_neg (by rw [hsplit]; simp)]
        rw [hsplit, fgets_read_line _ _ _ hnl (by
          have : (state_line f).length
              = (f.path ++ [9] ++ printf_d f.mtime ++ [9] ++ printf_d f.size).length + 1 := by
            simp only [state_line, List.length_append, List.length_singleton]
          omega)]
        rfl
      unfold file_list_state_get_loop
      rw [hread]
      simp only
      rw [file_list_state_get_line_state_line list f hf,
        ih (fun g hg => hwf g (List.mem_cons_of_mem _ hg)) fuel _ (by simpa using hfuel)]
      simp

/-- C5. Round trip of the snapshot store: for every list of well-formed records (path a C
string without tab or newline and not beginning with `#`, written line within the 4096-byte
read buffer, `mtime` and `size` C `int` values), `file_list_state_save` succeeds when the
file can be opened, and `file_list_state_get` applied to what it wrote returns (never NULL,
never out of fuel) the same records in the same order with the same path, mtime and size,
their `changed` field being MONITOR_NONE. -/
theorem C5_state_round_trip (S : List file_t) (w : World) (hwf : ∀ f ∈ S, well_formed f) :
    ∃ w1, file_list_state_save true S w = Res.ret () w1 ∧
      file_list_state_get w1.state_file w1 = Res.ret (some (S.map (tag MONITOR_NONE))) w1 ∧
      (S.map (tag MONITOR_NONE)).map (fun f => (f.path, f.mtime, f.size))
        = S.map (fun f => (f.path, f.mtime, f.size)) := by
  refine ⟨{ w with state_file := some (state_lines S),
                   trace := Event.saved (state_lines S) :: w.trace }, rfl, ?_, ?_⟩
  · simp only [file_list_state_get]
    rw [file_list_state_get_loop_state_lines S hwf _ []
      (Nat.lt_succ_of_le (state_lines_length S))]
    simp
  · simp [tag]

/-- C5 at the snapshot `{/d/a (mtime 1700000000, size 10), /d/b (mtime -1, size 0)}`. -/
theorem C5_state_round_trip_witness :
    ∃ w1, file_list_state_save true
        [ex_file 97 1700000000, { path := [47, 100, 47, 98], size := 0, mtime := -1, changed := 1 }]
        (ex_world 1 false) = Res.ret () w1 ∧
      file_list_state_get w1.state_file w1
        = Res.ret (some ([ex_file 97 1700000000,
            { path := [47, 100, 47, 98], size := 0, mtime := -1, changed := 1 }].map
              (tag MONITOR_NONE))) w1 ∧
      ([ex_file 97 1700000000,
          ({ path := [47, 100, 47, 98], size := 0, mtime := -1, changed := 1 } : file_t)].map
            (tag MONITOR_NONE)).map (fun f => (f.path, f.mtime, f.size))
        = [ex_file 97 1700000000,
            ({ path := [47, 100, 47, 98], size := 0, mtime := -1, changed := 1 } : file_t)].map
              (fun f => (f.path, f.mtime, f.size)) :=
  C5_state_round_trip _ (ex_world 1 false) (by decide)

/-! ## Lemmas: the fingerprint -/

set_option maxRecDepth 100000 in
theorem hex_of_char_unsigned :
    ∀ b < 256, (hex_of_char false b).length = 2 ∧ unhex_pair (hex_of_char false b) = b := by
  decide

theorem hex_of_char_plain (cs : Bool) (b : Nat) (h : plain_byte cs b) :
    hex_of_char cs b = hex_of_char false b := by
  cases cs with
  | false => rfl
  | true =>
    have hb : ¬ (128 ≤ b) := by have := h.2 rfl; omega
    simp [hex_of_char, char_to_int, hb]

theorem hex_of_char_length (cs : Bool) (b : Nat) (h : plain_byte cs b) :
    (hex_of_char cs b).length = 2 := by
  rw [hex_of_char_plain cs b h]
  exact (hex_of_char_unsigned b h.1).1

theorem hex_of_char_inj (cs : Bool) (b b' : Nat) (h : plain_byte cs b) (h' : plain_byte cs b')
    (heq : hex_of_char cs b = hex_of_char cs b') : b = b' := by
  rw [hex_of_char_plain cs b h, hex_of_char_plain cs b' h'] at heq
  rw [← (hex_of_char_unsigned b h.1).2, ← (hex_of_char_unsigned b' h'.1).2, heq]

theorem hash_foldl_append (cs : Bool) (l : List Nat) (acc : List Nat) :
    l.foldl (fun acc c => acc ++ hex_of_char cs c) acc
      = acc ++ l.foldl (fun acc c => acc ++ hex_of_char cs c) [] := by
  induction l generalizing acc with
  | nil => simp
  | cons b l ih =>
    simp only [List.foldl_cons, List.nil_append]
    rw [ih (acc ++ hex_of_char cs b), ih (hex_of_char cs b), List.append_assoc]

theorem hash_foldl_length (cs : Bool) (l : List Nat) (h : ∀ b ∈ l, plain_byte cs b) :
    (l.foldl (fun acc c => acc ++ hex_of_char cs c) []).length = 2 * l.length := by
  induction l with
  | nil => rfl
  | cons b l ih =>
    simp only [List.foldl_cons, List.nil_append]
    rw [hash_foldl_append, List.length_append, ih (fun x hx => h x (List.mem_cons_of_mem _ hx)),
      hex_of_char_length cs b (h b (List.mem_cons_self _ _)), List.length_cons]
    omega

/-- The hex expansion is injective on texts of plain bytes. -/
theorem hash_foldl_inj (cs : Bool) :
    ∀ (l l' : List Nat), (∀ b ∈ l, plain_byte cs b) → (∀ b ∈ l', plain_byte cs b) →
      l.foldl (fun acc c => acc ++ hex_of_char cs c) []
        = l'.foldl (fun acc c => acc ++ hex_of_char cs c) [] → l = l' := by
  intro l
  induction l with
  | nil =>
    intro l' _ h' heq
    cases l' with
    | nil => rfl
    | cons b' l' =>
      have := congrArg List.length heq
      rw [hash_foldl_length cs _ h'] at this
      simp at this
  | cons b l ih =>
    intro l' h h' heq
    cases l' with
    | nil =>
      have := congrArg List.length heq
      rw [hash_foldl_length cs _ h] at this
      simp at this
    | cons b' l' =>
      simp only [List.foldl_cons, List.nil_append] at heq
      rw [hash_foldl_append cs l, hash_foldl_append cs l'] at heq
      have hb := h b (List.mem_cons_self _ _)
      have hb' := h' b' (List.mem_cons_self _ _)
      obtain ⟨h1, h2⟩ := List.append_inj heq
        ((hex_of_char_length cs b hb).trans (hex_of_char_length cs b' hb').symm)
      rw [hex_of_char_inj cs b b' hb hb' h1,
        ih l' (fun x hx => h x (List.mem_cons_of_mem _ hx))
          (fun x hx => h' x (List.mem_cons_of_mem _ hx)) h2]

/-- The state-file name of an identity of plain bytes that fits `path_complete`. -/
theorem get_state_file_name_plain (cs : Bool) (home u h p : List Nat)
    (hplain : ∀ b ∈ identity u h p, plain_byte cs b)
    (hfit : home.length + 9 + 2 * (identity u h p).length ≤ 4095) :
    _get_state_file_name cs home p h u
      = some (home ++ [47, 46] ++ PROGRAM_NAME ++ [47]
          ++ (identity u h p).foldl (fun acc c => acc ++ hex_of_char cs c) []) := by
  have hid : identity_text u h p = identity u h p := by
    unfold identity_text snprintf
    exact List.take_of_length_le (by unfold identity at hfit; omega)
  have hlen := hash_foldl_length cs (identity u h p) hplain
  have hidlen : (identity u h p).length = u.length + h.length + p.length + 2 := by
    simp [identity]; omega
  unfold _get_state_file_name hashed_text
  simp only [hid]
  rw [if_pos (by rw [hlen, hidlen]; omega)]
  simp only [Option.map_some']
  congr 1
  have hprog : PROGRAM_NAME.length = 6 := rfl
  have hbuf : snprintf PATH_MAX (home ++ [47, 46] ++ PROGRAM_NAME) = home ++ [47, 46] ++ PROGRAM_NAME := by
    unfold snprintf PATH_MAX
    exact List.take_of_length_le (by simp [hprog]; omega)
  rw [hbuf]
  unfold snprintf PATH_MAX
  exact List.take_of_length_le (by simp [hprog, hlen]; omega)

/-! ## Claims about the state-file name -/

/-- C6 as stated fails: the triples (user `a`, host `b`, path `/c:d:/e`) and (user `a:b:/c`,
host `d`, path `/e`) differ in every component, yet both have the identity text
`a:b:/c:d:/e` and so the same state-file name (home `/h`, `char` signed or not). -/
theorem C6_distinct_triples_same_name :
    ([97] ≠ [97, 58, 98, 58, 47, 99] ∧ [98] ≠ [100] ∧ [47, 99, 58, 100, 58, 47, 101] ≠ [47, 101]) ∧
    _get_state_file_name true [47, 104] [47, 99, 58, 100, 58, 47, 101] [98] [97]
      = _get_state_file_name true [47, 104] [47, 101] [100] [97, 58, 98, 58, 47, 99] ∧
    _get_state_file_name false [47, 104] [47, 99, 58, 100, 58, 47, 101] [98] [97]
      = _get_state_file_name false [47, 104] [47, 101] [100] [97, 58, 98, 58, 47, 99] ∧
    _get_state_file_name true [47, 104] [47, 101] [100] [97, 58, 98, 58, 47, 99] ≠ none := by
  decide

/-- C6 as amended: the state-file name is a function of the home directory and of the
identity text `username:hostname:absolutePath` (two triples with the same text get the same
name); and two triples whose identity texts differ, are made of plain bytes and are short
enough for the name to fit `path_complete` get names, and the names differ. -/
theorem C6_name_determined_by_identity_text (cs : Bool) (home u h p u' h' p' : List Nat) :
    (identity u h p = identity u' h' p' →
      _get_state_file_name cs home p h u = _get_state_file_name cs home p' h' u') ∧
    ((∀ b ∈ identity u h p, plain_byte cs b) → (∀ b ∈ identity u' h' p', plain_byte cs b) →
      home.length + 9 + 2 * (identity u h p).length ≤ 4095 →
      home.length + 9 + 2 * (identity u' h' p').length ≤ 4095 →
      identity u h p ≠ identity u' h' p' →
      ∃ n n', _get_state_file_name cs home p h u = some n ∧
        _get_state_file_name cs home p' h' u' = some n' ∧ n ≠ n') := by
  constructor
  · intro heq
    have hl : u.length + h.length + p.length = u'.length + h'.length + p'.length := by
      have := congrArg List.length heq
      simp only [identity, List.length_append, List.length_singleton] at this
      omega
    have heq2 : u ++ [58] ++ h ++ [58] ++ p = u' ++ [58] ++ h' ++ [58] ++ p' := heq
    unfold _get_state_file_name hashed_text identity_text
    rw [hl, heq2]
  · intro hp hp' hf hf' hne
    refine ⟨_, _, get_state_file_name_plain cs home u h p hp hf,
      get_state_file_name_plain cs home u' h' p' hp' hf', ?_⟩
    intro heq
    exact hne (hash_foldl_inj cs _ _ hp hp' (List.append_cancel_left heq))

/-- C6 as amended, at the triples (`u`, `h`, `/a`) and (`u`, `h`, `/b`) with home `/h`. -/
theorem C6_name_determined_by_identity_text_witness :
    ∃ n n', _get_state_file_name true [47, 104] [47, 97] [104] [117] = some n ∧
      _get_state_file_name true [47, 104] [47, 98] [104] [117] = some n' ∧ n ≠ n' :=
  (C6_name_determined_by_identity_text true [47, 104] [117] [104] [47, 97] [117] [104] [47, 98]).2
    (by decide) (by decide) (by decide) (by decide) (by decide)

/-- C7, at the failing inputs: for the identity text `u:h:/<TAB>` the pair written for the tab
byte (9) is a space and `9`, not `09` (whether `char` is signed or not); and where `char` is
signed, each of the two bytes of the UTF-8 letter in `u:h:/é` is written as the three
characters `fff`, so the six bytes give sixteen characters. -/
theorem C7_fingerprint_is_not_two_digit_hex :
    hashed_text true [117] [104] [47, 9]
      = some [55, 53, 51, 97, 54, 56, 51, 97, 50, 102, 32, 57] ∧
    hashed_text false [117] [104] [47, 9]
      = some [55, 53, 51, 97, 54, 56, 51, 97, 50, 102, 32, 57] ∧
    hashed_text true [117] [104] [47, 195, 169]
      = some [55, 53, 51, 97, 54, 56, 51, 97, 50, 102, 102, 102, 102, 102, 102, 102] := by
  decide

/-! ## Claims about the watch controller -/

/-- C4, at the failing input: no state file, interval 1, the directory `/d` holding the one
file `x`, unchanged between the scans, every job exiting with status 0.  After two watch
cycles `first_run` is still set, and the second cycle, whose scan equals the previous
snapshot, has again forked a job for `/d/x` as a MONITOR_ADD (`init file`) and rewritten the
state file. -/
theorem C4_tree_added_again_in_second_cycle :
    (monitor_monitor env_ok ex_host 2 2 1 (ex_world 1 false)).world.first_run = true ∧
    (monitor_monitor env_ok ex_host 2 2 1 (ex_world 1 false)).world.trace.reverse =
      [Event.fork 0 Work.remote_add
         { path := [47, 100, 47, 120], size := 10, mtime := 100, changed := MONITOR_ADD },
       Event.print Msg.init_file [47, 100, 47, 120],
       Event.reap 0 (WaitStatus.exited 0),
       Event.print_total 1,
       Event.saved [47, 100, 47, 120, 9, 49, 48, 48, 9, 49, 48, 10],
       Event.sleep 1,
       Event.fork 1 Work.remote_add
         { path := [47, 100, 47, 120], size := 10, mtime := 100, changed := MONITOR_ADD },
       Event.print Msg.init_file [47, 100, 47, 120],
       Event.reap 1 (WaitStatus.exited 0),
       Event.print_total 1,
       Event.saved [47, 100, 47, 120, 9, 49, 48, 48, 9, 49, 48, 10],
       Event.sleep 1] := by
  decide

/-! ## Lemmas: the passes in every environment -/

theorem Res.bind_eq_ret {α β : Type} (r : Res α) (k : α → World → Res β) (b : β) (w1 : World) :
    r.bind k = Res.ret b w1 ↔ ∃ a w0, r = Res.ret a w0 ∧ k a w0 = Res.ret b w1 := by
  cases r with
  | ret a w0 =>
    constructor
    · intro h; exact ⟨a, w0, rfl, h⟩
    · rintro ⟨a1, w2, h1, h2⟩
      cases h1
      exact h2
  | exit c w0 => simp [Res.bind]
  | fault w0 => simp [Res.bind]
  | more w0 => simp [Res.bind]

theorem Res.world_bind_of_inv {α β : Type} (P : World → Prop) (r : Res α)
    (k : α → World → Res β) (hr : P r.world) (hk : ∀ a w0, r = Res.ret a w0 → P (k a w0).world) :
    P (r.bind k).world := by
  cases r with
  | ret a w0 => exact hk a w0 rfl
  | exit c w0 => exact hr
  | fault w0 => exact hr
  | more w0 => exact hr

theorem Res.world_bind_ret {α β : Type} (r : Res α) (g : α → β) :
    (r.bind fun a w0 => Res.ret (g a) w0).world = r.world := by
  cases r <;> rfl

/-- A property kept by the log lines and by `dispatch` is kept by the Added pass,
however the pass ends. -/
theorem check_add_files_loop_inv (env : Env) (first : List file_t) (P : World → Prop)
    (hlog : ∀ w e, P w → (∀ j wk f, e ≠ Event.fork j wk f) → (∀ j st, e ≠ Event.reap j st) →
      (∀ c, e ≠ Event.saved c) → P (w.log e))
    (hdisp : ∀ w f, P w → P (dispatch env Work.remote_add (tag MONITOR_ADD f) w).world) :
    ∀ (l : List file_t) (c : Int) (w : World), P w →
      P (_check_add_files_loop env first l c w).world := by
  intro l
  induction l with
  | nil => intro c w h; exact h
  | cons f rest ih =>
    intro c w h
    unfold _check_add_files_loop
    split
    · have h1 : P (if w.mon.add_callback then w.log (Event.callback f) else w) := by
        split
        · exact hlog w _ h (by simp) (by simp) (by simp)
        · exact h
      apply Res.world_bind_of_inv P _ _ (hdisp _ f h1)
      intro _ w2 hd
      have h2 : P w2 := by
        have := hdisp _ f h1
        rw [hd] at this
        exact this
      rw [Res.world_bind_ret]
      apply ih
      apply hlog w2 _ h2
      · intro j wk g; split <;> simp
      · intro j st; split <;> simp
      · intro c; split <;> simp
    · rw [Res.world_bind_ret]
      exact ih c w h

theorem check_mod_files_loop_inv (env : Env) (first : List file_t) (P : World → Prop)
    (hlog : ∀ w e, P w → (∀ j wk f, e ≠ Event.fork j wk f) → (∀ j st, e ≠ Event.reap j st) →
      (∀ c, e ≠ Event.saved c) → P (w.log e))
    (hdisp : ∀ w f, P w → P (dispatch env Work.remote_add (tag MONITOR_MOD f) w).world) :
    ∀ (l : List file_t) (c : Int) (w : World), P w →
      P (_check_mod_files_loop env first l c w).world := by
  intro l
  induction l with
  | nil => intro c w h; exact h
  | cons f rest ih =>
    intro c w h
    unfold _check_mod_files_loop
    split
    · split
      · have h1 : P (if w.mon.mod_callback
            then w.log (Event.callback { f with changed := MONITOR_MOD }) else w) := by
          split
          · exact hlog w _ h (by simp) (by simp) (by simp)
          · exact h
        apply Res.world_bind_of_inv P _ _ (hdisp _ f h1)
        intro _ w2 hd
        have h2 : P w2 := by
          have := hdisp _ f h1
          rw [hd] at this
          exact this
        rw [Res.world_bind_ret]
        apply ih
        exact hlog w2 _ h2 (by simp) (by simp) (by simp)
      · rw [Res.world_bind_ret]
        exact ih c w h
    · rw [Res.world_bind_ret]
      exact ih c w h

theorem check_del_files_loop_inv (env : Env) (second : List file_t) (P : World → Prop)
    (hlog : ∀ w e, P w → (∀ j wk f, e ≠ Event.fork j wk f) → (∀ j st, e ≠ Event.reap j st) →
      (∀ c, e ≠ Event.saved c) → P (w.log e))
    (hdisp : ∀ w f, P w → P (dispatch env Work.remote_del (tag MONITOR_DEL f) w).world) :
    ∀ (l : List file_t) (c : Int) (w : World), P w →
      P (_check_del_files_loop env second l c w).world := by
  intro l
  induction l with
  | nil => intro c w h; exact h
  | cons f rest ih =>
    intro c w h
    unfold _check_del_files_loop
    split
    · have h1 : P (if w.mon.del_callback
          then w.log (Event.callback { f with changed := MONITOR_DEL }) else w) := by
        split
        · exact hlog w _ h (by simp) (by simp) (by simp)
        · exact h
      apply Res.world_bind_of_inv P _ _ (hdisp _ f h1)
      intro _ w2 hd
      have h2 : P w2 := by
        have := hdisp _ f h1
        rw [hd] at this
        exact this
      rw [Res.world_bind_ret]
      apply ih
      exact hlog w2 _ h2 (by simp) (by simp) (by simp)
    · rw [Res.world_bind_ret]
      exact ih c w h

theorem Retagged.refl (f : file_t) : Retagged f f := ⟨rfl, rfl, rfl, Or.inl rfl⟩

theorem Retagged.tag (k : Int) (f : file_t)
    (hk : k = MONITOR_ADD ∨ k = MONITOR_MOD ∨ k = MONITOR_DEL) : Retagged f (tag k f) :=
  ⟨rfl, rfl, rfl, Or.inr hk⟩

/-- When the Added pass returns, the count has not dropped, an unchanged count means that
nothing at all happened, and the records differ from the input only in `changed`. -/
theorem check_add_files_loop_ret (env : Env) (first : List file_t) :
    ∀ (l : List file_t) (c : Int) (w : World) (r : Int × List file_t) (w1 : World),
      _check_add_files_loop env first l c w = Res.ret r w1 →
      c ≤ r.1 ∧ (r.1 = c → w1 = w) ∧ List.Forall₂ Retagged l r.2 := by
  intro l
  induction l with
  | nil =>
    intro c w r w1 h
    simp only [_check_add_files_loop, Res.ret.injEq] at h
    obtain ⟨rfl, rfl⟩ := h
    exact ⟨le_refl _, fun _ => rfl, List.Forall₂.nil⟩
  | cons f rest ih =>
    intro c w r w1 h
    unfold _check_add_files_loop at h
    split at h
    · rw [Res.bind_eq_ret] at h
      obtain ⟨_, w2, _, h⟩ := h
      rw [Res.bind_eq_ret] at h
      obtain ⟨r', w4, hl, h⟩ := h
      simp only [Res.ret.injEq] at h
      obtain ⟨rfl, rfl⟩ := h
      obtain ⟨h1, _, h3⟩ := ih _ _ _ _ hl
      refine ⟨by simp only; omega, fun he => absurd he (by simp only; omega), ?_⟩
      exact List.Forall₂.cons (Retagged.tag MONITOR_ADD f (Or.inl rfl)) h3
    · rw [Res.bind_eq_ret] at h
      obtain ⟨r', w4, hl, h⟩ := h
      simp only [Res.ret.injEq] at h
      obtain ⟨rfl, rfl⟩ := h
      obtain ⟨h1, h2, h3⟩ := ih _ _ _ _ hl
      exact ⟨h1, h2, List.Forall₂.cons (Retagged.refl f) h3⟩

theorem check_mod_files_loop_ret (env : Env) (first : List file_t) :
    ∀ (l : List file_t) (c : Int) (w : World) (r : Int × List file_t) (w1 : World),
      _check_mod_files_loop env first l c w = Res.ret r w1 →
      c ≤ r.1 ∧ (r.1 = c → w1 = w) ∧ List.Forall₂ Retagged l r.2 := by
  intro l
  induction l with
  | nil =>
    intro c w r w1 h
    simp only [_check_mod_files_loop, Res.ret.injEq] at h
    obtain ⟨rfl, rfl⟩ := h
    exact ⟨le_refl _, fun _ => rfl, List.Forall₂.nil⟩
  | cons f rest ih =>
    intro c w r w1 h
    unfold _check_mod_files_loop at h
    split at h
    · split at h
      · rw [Res.bind_eq_ret] at h
        obtain ⟨_, w2, _, h⟩ := h
        rw [Res.bind_eq_ret] at h
        obtain ⟨r', w4, hl, h⟩ := h
        simp only [Res.ret.injEq] at h
        obtain ⟨rfl, rfl⟩ := h
        obtain ⟨h1, _, h3⟩ := ih _ _ _ _ hl
        refine ⟨by simp only; omega, fun he => absurd he (by simp only; omega), ?_⟩
        exact List.Forall₂.cons (Retagged.tag MONITOR_MOD f (Or.inr (Or.inl rfl))) h3
      · rw [Res.bind_eq_ret] at h
        obtain ⟨r', w4, hl, h⟩ := h
        simp only [Res.ret.injEq] at h
        obtain ⟨rfl, rfl⟩ := h
        obtain ⟨h1, h2, h3⟩ := ih _ _ _ _ hl
        exact ⟨h1, h2, List.Forall₂.cons (Retagged.refl f) h3⟩
    · rw [Res.bind_eq_ret] at h
      obtain ⟨r', w4, hl, h⟩ := h
      simp only [Res.ret.injEq] at h
      obtain ⟨rfl, rfl⟩ := h
      obtain ⟨h1, h2, h3⟩ := ih _ _ _ _ hl
      exact ⟨h1, h2, List.Forall₂.cons (Retagged.refl f) h3⟩

theorem check_del_files_loop_ret (env : Env) (second : List file_t) :
    ∀ (l : List file_t) (c : Int) (w : World) (r : Int × List file_t) (w1 : World),
      _check_del_files_loop env second l c w = Res.ret r w1 →
      c ≤ r.1 ∧ (r.1 = c → w1 = w) ∧ List.Forall₂ Retagged l r.2 := by
  intro l
  induction l with
  | nil =>
    intro c w r w1 h
    simp only [_check_del_files_loop, Res.ret.injEq] at h
    obtain ⟨rfl, rfl⟩ := h
    exact ⟨le_refl _, fun _ => rfl, List.Forall₂.nil⟩
  | cons f rest ih =>
    intro c w r w1 h
    unfold _check_del_files_loop at h
    split at h
    · rw [Res.bind_eq_ret] at h
      obtain ⟨_, w2, _, h⟩ := h
      rw [Res.bind_eq_ret] at h
      obtain ⟨r', w4, hl, h⟩ := h
      simp only [Res.ret.injEq] at h
      obtain ⟨rfl, rfl⟩ := h
      obtain ⟨h1, _, h3⟩ := ih _ _ _ _ hl
      refine ⟨by simp only; omega, fun he => absurd he (by simp only; omega), ?_⟩
      exact List.Forall₂.cons (Retagged.tag MONITOR_DEL f (Or.inr (Or.inr rfl))) h3
    · rw [Res.bind_eq_ret] at h
      obtain ⟨r', w4, hl, h⟩ := h
      simp only [Res.ret.injEq] at h
      obtain ⟨rfl, rfl⟩ := h
      obtain ⟨h1, h2, h3⟩ := ih _ _ _ _ hl
      exact ⟨h1, h2, List.Forall₂.cons (Retagged.refl f) h3⟩

theorem Retagged.trans {f g h : file_t} (h1 : Retagged f g) (h2 : Retagged g h) : Retagged f h := by
  obtain ⟨a1, a2, a3, a4⟩ := h1
  obtain ⟨b1, b2, b3, b4⟩ := h2
  refine ⟨b1.trans a1, b2.trans a2, b3.trans a3, ?_⟩
  rcases b4 with b4 | b4
  · rw [b4]; exact a4
  · exact Or.inr b4

theorem forall₂_retagged_trans {l1 l2 l3 : List file_t} (h1 : List.Forall₂ Retagged l1 l2)
    (h2 : List.Forall₂ Retagged l2 l3) : List.Forall₂ Retagged l1 l3 := by
  induction h1 generalizing l3 with
  | nil => cases h2; exact List.Forall₂.nil
  | cons hab _ ih =>
    cases h2 with
    | cons hbc htl => exact List.Forall₂.cons (hab.trans hbc) (ih htl)

/-- When `file_lists_compare` returns, the two lists it leaves differ from its arguments
only in the `changed` fields. -/
theorem file_lists_compare_lists (env : Env) (first second : List file_t) (w : World)
    (r : Int × List file_t × List file_t) (w1 : World)
    (h : file_lists_compare env first second w = Res.ret r w1) :
    List.Forall₂ Retagged first r.2.1 ∧ List.Forall₂ Retagged second r.2.2 := by
  unfold file_lists_compare _check_add_files _check_mod_files _check_del_files at h
  rw [Res.bind_eq_ret] at h
  obtain ⟨a, wa, ha, h⟩ := h
  rw [Res.bind_eq_ret] at h
  obtain ⟨t1, wb, _, h⟩ := h
  rw [Res.bind_eq_ret] at h
  obtain ⟨m, wm, hm, h⟩ := h
  rw [Res.bind_eq_ret] at h
  obtain ⟨t2, wc, _, h⟩ := h
  rw [Res.bind_eq_ret] at h
  obtain ⟨d, wd, hd, h⟩ := h
  rw [Res.bind_eq_ret] at h
  obtain ⟨t3, we, _, h⟩ := h
  simp only [Res.ret.injEq] at h
  obtain ⟨rfl, _⟩ := h
  exact ⟨(check_del_files_loop_ret env _ _ _ _ _ _ hd).2.2,
    forall₂_retagged_trans (check_add_files_loop_ret env _ _ _ _ _ _ ha).2.2
      (check_mod_files_loop_ret env _ _ _ _ _ _ hm).2.2⟩

theorem state_lines_retagged {l1 l2 : List file_t} (h : List.Forall₂ Retagged l1 l2) :
    state_lines l2 = state_lines l1 := by
  induction h with
  | nil => rfl
  | cons hab _ ih =>
    obtain ⟨a1, a2, a3, _⟩ := hab
    simp only [state_lines, state_line, a1, a2, a3, ih]

/-! ## Lemmas: nothing but `file_list_state_save` writes the state file -/

theorem quiet_log (w0 w : World) (e : Event) (h : Quiet w0 w) (he : ∀ c, e ≠ Event.saved c) :
    Quiet w0 (w.log e) := by
  refine ⟨h.1, ?_⟩
  rw [← h.2]
  cases e with
  | saved c => exact absurd rfl (he c)
  | _ => rfl

/-- Whatever `wait_for_job` does, it leaves the state file, the monitor and the flags alone. -/
theorem wait_for_job_frame (env : Env) (w : World) :
    (wait_for_job env w).world.state_file = w.state_file ∧
    (wait_for_job env w).world.mon = w.mon ∧
    (wait_for_job env w).world.first_run = w.first_run ∧
    (wait_for_job env w).world.quit = w.quit ∧
    (wait_for_job env w).world.scans = w.scans := by
  cases hch : w.children with
  | nil => simp [wait_for_job, sys_wait, hch, error, World.log, Res.world]
  | cons c cs =>
    simp only [wait_for_job, sys_wait, hch]
    cases env.status ((c :: cs).getD (env.pick w.waits % (cs.length + 1)) c) <;>
      simp [Res.world]

theorem wait_for_job_quiet (env : Env) (w0 w : World) (h : Quiet w0 w) :
    Quiet w0 (wait_for_job env w).world := by
  refine ⟨(wait_for_job_frame env w).1.trans h.1, ?_⟩
  by_cases hc : w.children = []
  · rw [wait_for_job_of_no_children env w hc]
    exact h.2
  · obtain ⟨r, w1, job, hw, _, htr, _, _, _, _, _⟩ := wait_for_job_of_children env w hc
    rw [hw]
    simp only [Res.world, htr, saves]
    exact h.2

theorem dispatch_quiet (env : Env) (work : Work) (f : file_t) (w0 w : World) (h : Quiet w0 w) :
    Quiet w0 (dispatch env work f w).world := by
  unfold dispatch
  apply Res.world_bind_of_inv (Quiet w0)
  · split
    · exact wait_for_job_quiet env w0 w h
    · exact h
  · intro _ w1 hw
    have h1 : Quiet w0 w1 := by
      split at hw
      · have := wait_for_job_quiet env w0 w h
        rw [hw] at this
        exact this
      · simp only [Res.ret.injEq] at hw
        rw [← hw.2]
        exact h
    split
    · exact h1
    · exact h1

theorem wait_for_all_jobs_loop_quiet (env : Env) (w0 : World) :
    ∀ (fuel : Nat) (w : World), Quiet w0 w → Quiet w0 (wait_for_all_jobs_loop env fuel w).world := by
  intro fuel
  induction fuel with
  | zero => intro w h; exact h
  | succ fuel ih =>
    intro w h
    unfold wait_for_all_jobs_loop
    split
    · have hq := wait_for_job_quiet env w0 w h
      split
      · rename_i err w1 heq
        rw [heq] at hq
        split
        · exact hq
        · exact ih w1 hq
      · rename_i c w1 heq; rw [heq] at hq; exact hq
      · rename_i w1 heq; rw [heq] at hq; exact hq
      · rename_i w1 heq; rw [heq] at hq; exact hq
    · exact h

theorem transfer_error_quiet (α : Type) (w0 w : World) (h : Quiet w0 w) :
    Quiet w0 (_transfer_error w : Res α).world := by
  unfold _transfer_error monitor_shutdown
  cases w.mon.password <;> exact h

theorem phase_barrier_quiet (env : Env) (m total : Int) (w0 w : World) (h : Quiet w0 w) :
    Quiet w0 (phase_barrier env m total w).world := by
  unfold phase_barrier
  split
  · apply Res.world_bind_of_inv (Quiet w0)
    · exact wait_for_all_jobs_loop_quiet env w0 _ w h
    · intro s w1 hw
      have h1 : Quiet w0 w1 := by
        have := wait_for_all_jobs_loop_quiet env w0 (w.children.length + 1) w h
        unfold wait_for_all_jobs at hw
        rw [hw] at this
        exact this
      split
      · exact transfer_error_quiet Int w0 w1 h1
      · exact h1
  · exact h

/-- However `file_lists_compare` ends, it has not written the state file. -/
theorem file_lists_compare_quiet (env : Env) (first second : List file_t) (w : World) :
    Quiet w (file_lists_compare env first second w).world := by
  have hlog : ∀ w1 e, Quiet w w1 → (∀ j wk f, e ≠ Event.fork j wk f) →
      (∀ j st, e ≠ Event.reap j st) → (∀ c, e ≠ Event.saved c) → Quiet w (w1.log e) :=
    fun w1 e h _ _ he => quiet_log w w1 e h he
  have base : Quiet w w := ⟨rfl, rfl⟩
  have step : ∀ {α : Type} (r : Res α) (a : α) (w1 : World), Quiet w r.world → r = Res.ret a w1 →
      Quiet w w1 := by
    intro α r a w1 h heq
    rw [heq] at h
    exact h
  unfold file_lists_compare _check_add_files _check_mod_files _check_del_files
  have hA := check_add_files_loop_inv env first (Quiet w) hlog
    (fun w1 f h => dispatch_quiet env _ _ w w1 h) second 0 w base
  apply Res.world_bind_of_inv (Quiet w) _ _ hA
  intro a wa ha
  have hB1 := phase_barrier_quiet env a.1 0 w wa (step _ _ _ hA ha)
  apply Res.world_bind_of_inv (Quiet w) _ _ hB1
  intro t1 wb hb
  have hM := check_mod_files_loop_inv env first (Quiet w) hlog
    (fun w1 f h => dispatch_quiet env _ _ w w1 h) a.2 0 wb (step _ _ _ hB1 hb)
  apply Res.world_bind_of_inv (Quiet w) _ _ hM
  intro m wm hm
  have hB2 := phase_barrier_quiet env m.1 t1 w wm (step _ _ _ hM hm)
  apply Res.world_bind_of_inv (Quiet w) _ _ hB2
  intro t2 wc hc
  have hD := check_del_files_loop_inv env m.2 (Quiet w) hlog
    (fun w1 f h => dispatch_quiet env _ _ w w1 h) first 0 wc (step _ _ _ hB2 hc)
  apply Res.world_bind_of_inv (Quiet w) _ _ hD
  intro d wd hd
  have hB3 := phase_barrier_quiet env d.1 t2 w wd (step _ _ _ hD hd)
  apply Res.world_bind_of_inv (Quiet w) _ _ hB3
  intro t3 we he
  have := step _ _ _ hB3 he
  show Quiet w (if t3 ≠ 0 then we.log (Event.print_total t3) else we)
  split
  · exact quiet_log w we _ this (by simp)
  · exact this

/-! ## Claims about persisting the snapshot -/

/-- C11. In one watch cycle `_monitor_compare_lists` writes the state file exactly when
`file_lists_compare` returns (no barrier reported a failure, no fatal error) with a non-zero
total, the file being writable: then the content written is the lines of the snapshot `now`
(the second list), and the cycle goes on with that list.  In every other case (the run is
aborted, or the total is zero) the state file is not written.  In particular, with `fork`
succeeding and a consistent job counter, a cycle whose Added, Modified and Deleted sets are
all empty writes nothing. -/
theorem C11_persist_only_on_success_and_change (env : Env) (writable : Bool)
    (first second : List file_t) (w : World) :
    (∀ r w1, file_lists_compare env first second w = Res.ret r w1 → r.1 ≠ 0 → writable = true →
      _monitor_compare_lists env writable (some first) (some second) w
        = Res.ret (some r.2.2)
            { w1 with state_file := some (state_lines second),
                      trace := Event.saved (state_lines second) :: w1.trace } ∧
      saves w1.trace = saves w.trace) ∧
    ((∀ r w1, file_lists_compare env first second w = Res.ret r w1 → r.1 ≠ 0 → writable = false) →
      Quiet w (_monitor_compare_lists env writable (some first) (some second) w).world) ∧
    ((∀ k, env.fork_fails k = false) → 1 ≤ w.mon.parallel_max → PoolInv w →
      add_set first second w.first_run = [] → mod_set first second = [] →
      del_set first second = [] →
      Quiet w (_monitor_compare_lists env writable (some first) (some second) w).world) := by
  have hq := file_lists_compare_quiet env first second w
  have part2 : (∀ r w1, file_lists_compare env first second w = Res.ret r w1 → r.1 ≠ 0 →
      writable = false) →
      Quiet w (_monitor_compare_lists env writable (some first) (some second) w).world := by
    intro hno
    unfold _monitor_compare_lists
    simp only
    cases hR : file_lists_compare env first second w with
    | ret r w1 =>
      rw [hR] at hq
      simp only [Res.bind_ret]
      by_cases h0 : r.1 = 0
      · simp only [h0, ne_eq, not_true_eq_false, if_false]
        exact hq
      · have hwr := hno r w1 hR h0
        simp only [ne_eq, h0, not_false_eq_true, if_true, file_list_state_save, hwr,
          Bool.not_false, Res.bind_exit]
        exact hq
    | exit c w1 => rw [hR] at hq; exact hq
    | fault w1 => rw [hR] at hq; exact hq
    | more w1 => rw [hR] at hq; exact hq
  refine ⟨?_, part2, ?_⟩
  · intro r w1 hR h0 hwr
    have hlines := state_lines_retagged (file_lists_compare_lists env first second w r w1 hR).2
    rw [hR] at hq
    refine ⟨?_, hq.2⟩
    unfold _monitor_compare_lists
    simp only [hR, Res.bind_ret, ne_eq, h0, not_false_eq_true, if_true, file_list_state_save,
      hwr, Bool.not_true, Bool.false_eq_true, if_false, hlines]
  · intro hfork hpm hinv hA hM hD
    apply part2
    intro r w1 hR h0
    obtain ⟨_, _, _, h4, _, _⟩ := file_lists_compare_spec env first second w hfork hpm hinv
    have := (h4 r w1 hR).2.2
    rw [hA, hM, hD] at this
    exact absurd (by simpa using this) h0

/-- C11 at an empty previous snapshot and the new file `/d/a`: the cycle writes its line. -/
theorem C11_persist_only_on_success_and_change_witness :
    (_monitor_compare_lists env_ok true (some []) (some [ex_file 97 1])
      (ex_world 1 false)).world.state_file = some (state_lines [ex_file 97 1]) :=
  congrArg (fun r => r.world.state_file)
    ((C11_persist_only_on_success_and_change env_ok true [] [ex_file 97 1] (ex_world 1 false)).1
      _ _ rfl (by decide) rfl).1

/-! ## Lemmas: `%d` writes the decimal numeral -/

theorem digitChar_toNat : ∀ d < 10, (Nat.digitChar d).toNat = 48 + d := by decide

theorem toDigitsCore_eq_dec_digits (fuel : Nat) :
    ∀ (n : Nat) (ds : List Char),
      (Nat.toDigitsCore 10 fuel n ds).map Char.toNat = dec_digits fuel n (ds.map Char.toNat) := by
  induction fuel with
  | zero => intro n ds; rfl
  | succ fuel ih =>
    intro n ds
    have hd := digitChar_toNat (n % 10) (Nat.mod_lt n (by decide))
    unfold Nat.toDigitsCore dec_digits
    by_cases h : n / 10 = 0
    · simp [h, hd]
    · simp only [h, if_false]
      rw [ih]
      simp [hd]

theorem decimal_eq_toDigits (n : Nat) : decimal n = (Nat.toDigits 10 n).map Char.toNat := by
  unfold decimal Nat.toDigits
  rw [toDigitsCore_eq_dec_digits]
  rfl

theorem printf_d_eq_spec (i : Int) : printf_d i = spec_decimal i := by
  unfold printf_d spec_decimal
  cases i with
  | ofNat m =>
    have : ¬ ((Int.ofNat m) < 0) := by simp
    rw [if_neg this, decimal_eq_toDigits]
    rfl
  | negSucc m =>
    have : (Int.negSucc m) < 0 := Int.negSucc_lt_zero m
    rw [if_pos this, decimal_eq_toDigits]
    have h1 : (-(Int.negSucc m)).toNat = m + 1 := rfl
    rw [h1]
    show _ = (("-" ++ toString (m + 1)).toList).map Char.toNat
    rw [String.toList, String.data_append]
    rfl

theorem state_lines_eq_spec (S : List file_t) : state_lines S = spec_state_file S := by
  induction S with
  | nil => rfl
  | cons f S ih =>
    simp only [state_lines, state_line, ih, spec_state_file, List.map_cons, List.flatten_cons,
      spec_line, printf_d_eq_spec]

/-- C12. For every snapshot, `file_list_state_save` (the file being writable) replaces the
content of the state file by exactly one line per record, in list order, each line being the
path, a tab, the decimal numeral of mtime, a tab, the decimal numeral of size and a newline,
and nothing else; the record of a file with size 10 and mtime 100 is written as its path
followed by `\t100\t10\n`. -/
theorem C12_state_file_format (S : List file_t) (w : World) :
    file_list_state_save true S w
      = Res.ret () { w with state_file := some (spec_state_file S),
                            trace := Event.saved (spec_state_file S) :: w.trace } ∧
    ∀ (p : List Nat) (c : Int),
      spec_state_file [{ path := p, size := 10, mtime := 100, changed := c }]
        = p ++ [9, 49, 48, 48, 9, 49, 48, 10] := by
  constructor
  · simp [file_list_state_save, state_lines_eq_spec]
  · intro p c
    have h1 : spec_decimal 100 = [49, 48, 48] := by decide
    have h2 : spec_decimal 10 = [49, 48] := by decide
    simp [spec_state_file, spec_line, h1, h2]

/-! ## Lemmas: loading a state file -/

theorem strchr_eq (s : List Nat) (c : Nat) :
    strchr s c = if c ∈ s then
        some (s.takeWhile (fun b => b ≠ c), (s.dropWhile (fun b => b ≠ c)).drop 1)
      else none := by
  induction s with
  | nil => simp [strchr]
  | cons b s ih =>
    by_cases hb : b = c
    · subst hb
      simp [strchr]
    · have hcb : ¬ c = b := fun h => hb h.symm
      simp only [strchr, hb, if_false, ih, List.mem_cons, hcb, false_or]
      by_cases hc : c ∈ s
      · simp [hc, hb]
      · simp [hc]

theorem count_after_first (s : List Nat) (c : Nat) (h : c ∈ s) :
    s.count c = 1 + ((s.dropWhile (fun b => b ≠ c)).drop 1).count c := by
  induction s with
  | nil => simp at h
  | cons b s ih =>
    by_cases hb : b = c
    · subst hb
      simp [List.count_cons]
      omega
    · have hc : c ∈ s := by
        rcases List.mem_cons.mp h with h1 | h1
        · exact absurd h1.symm hb
        · exact h1
      simp [List.count_cons, hb, ih hc]

theorem count_lt_two_iff (s : List Nat) (c : Nat) :
    s.count c < 2 ↔ ¬ (c ∈ s ∧ c ∈ (s.dropWhile (fun b => b ≠ c)).drop 1) := by
  by_cases h : c ∈ s
  · rw [count_after_first s c h]
    by_cases h2 : c ∈ (s.dropWhile (fun b => b ≠ c)).drop 1
    · have := List.count_pos_iff.mpr h2
      constructor
      · intro h3; omega
      · intro h3; exact absurd ⟨h, h2⟩ h3
    · have := List.count_eq_zero.mpr h2
      constructor
      · intro _ h3; exact h2 h3.2
      · intro _; omega
  · have := List.count_eq_zero.mpr h
    constructor
    · intro _ h3; exact h h3.1
    · intro _; omega

theorem to_int_range (x : Int) : is_int (to_int x) := by
  unfold to_int is_int
  omega

theorem to_int_atoi (s : List Nat) : to_int (atoi s) = atoi s :=
  to_int_of_is_int _ (to_int_range _)

/-- On a buffer without NUL the loop body adds the record the line stands for, if any. -/
theorem file_list_state_get_line_eq_spec (list : List file_t) (line : List Nat)
    (h0 : 0 ∉ line) :
    file_list_state_get_line list line = list ++ (spec_record line).toList := by
  unfold file_list_state_get_line spec_record
  rw [cstr_of_no_nul line h0]
  by_cases hh : line.head? = some 35
  · simp [hh]
  · rw [if_neg hh, if_neg hh, strchr_eq]
    by_cases h1 : 9 ∈ line
    · rw [if_pos h1]
      simp only
      rw [strchr_eq]
      by_cases h2 : 9 ∈ (line.dropWhile (fun b => b ≠ 9)).drop 1
      · have hc : ¬ (line.count 9 < 2) := by
          rw [count_lt_two_iff]; exact fun h => h ⟨h1, h2⟩
        rw [if_pos h2, if_neg hc]
        simp only [file_list_add, to_int_atoi, Option.toList]
        rfl
      · have hc : line.count 9 < 2 := by
          rw [count_lt_two_iff]; exact fun h => h2 h.2
        rw [if_neg h2, if_pos hc]
        simp
    · have hc : line.count 9 < 2 := by
        rw [count_lt_two_iff]; exact fun h => h1 h.1
      rw [if_neg h1, if_pos hc]
      simp

/-- What `fgets` reads from a non-empty stream is its first line, when that fits the buffer. -/
theorem fgets_read_split (s : List Nat) (hs : s ≠ []) :
    ∃ l rest, split_lines s = l :: split_lines rest ∧ s = l ++ rest ∧ l ≠ [] ∧
      ∀ room, l.length ≤ room → fgets_read room s = (l, rest) := by
  induction s with
  | nil => exact absurd rfl hs
  | cons b s ih =>
    by_cases hb : b = 10
    · subst hb
      refine ⟨[10], s, by simp [split_lines], rfl, by simp, ?_⟩
      intro room hroom
      cases room with
      | zero => simp at hroom
      | succ room => simp [fgets_read]
    · by_cases hs' : s = []
      · subst hs'
        refine ⟨[b], [], by simp [split_lines, hb], rfl, by simp, ?_⟩
        intro room hroom
        cases room with
        | zero => simp at hroom
        | succ room => cases room <;> simp [fgets_read, hb]
      · obtain ⟨l, rest, h1, h2, h3, h4⟩ := ih hs'
        refine ⟨b :: l, rest, by simp [split_lines, hb, h1], by simp [h2], by simp, ?_⟩
        intro room hroom
        cases room with
        | zero => simp at hroom
        | succ room =>
          have := h4 room (by simpa using hroom)
          simp [fgets_read, hb, this]

theorem file_list_state_get_loop_eq_spec :
    ∀ (fuel : Nat) (s : List Nat) (list : List file_t), s.length < fuel → 0 ∉ s →
      (∀ l ∈ split_lines s, l.length ≤ 4095) →
      file_list_state_get_loop fuel s list
        = some (list ++ (split_lines s).filterMap spec_record) := by
  intro fuel
  induction fuel with
  | zero => intro s list h; exact absurd h (Nat.not_lt_zero _)
  | succ fuel ih =>
    intro s list hfuel h0 hlen
    by_cases hs : s = []
    · subst hs
      simp [file_list_state_get_loop, fgets, split_lines]
    · obtain ⟨l, rest, h1, h2, h3, h4⟩ := fgets_read_split s hs
      have hl : l.length ≤ 4095 := hlen l (by rw [h1]; exact List.mem_cons_self _ _)
      have hread : fgets 4096 s = some (l, rest) := by
        unfold fgets
        rw [if_neg hs, h4 4095 hl]
      have h0l : 0 ∉ l := fun h => h0 (by rw [h2]; exact List.mem_append_left _ h)
      have h0r : 0 ∉ rest := fun h => h0 (by rw [h2]; exact List.mem_append_right _ h)
      have hlenr : rest.length < fuel := by
        have : s.length = l.length + rest.length := by rw [h2, List.length_append]
        have : 0 < l.length := List.length_pos.mpr h3
        omega
      unfold file_list_state_get_loop
      rw [hread]
      simp only
      rw [file_list_state_get_line_eq_spec list l h0l,
        ih rest _ hlenr h0r (fun x hx => hlen x (by rw [h1]; exact List.mem_cons_of_mem _ hx)), h1]
      cases hr : spec_record l <;> simp [List.filterMap_cons, hr]

theorem fgets_read_length (room : Nat) (c : Nat) (s : List Nat) :
    (fgets_read (room + 1) (c :: s)).2.length ≤ s.length := by
  induction s generalizing room c with
  | nil =>
    unfold fgets_read
    split
    · simp
    · cases room <;> simp [fgets_read]
  | cons d s ih =>
    unfold fgets_read
    split
    · simp
    · cases room with
      | zero => simp [fgets_read]
      | succ room =>
        have := ih room d
        simp only [List.length_cons] at this ⊢
        omega

/-- The read loop never runs out of fuel, whatever the file holds. -/
theorem file_list_state_get_loop_total :
    ∀ (fuel : Nat) (s : List Nat) (list : List file_t), s.length < fuel →
      ∃ l, file_list_state_get_loop fuel s list = some l := by
  intro fuel
  induction fuel with
  | zero => intro s list h; exact absurd h (Nat.not_lt_zero _)
  | succ fuel ih =>
    intro s list hfuel
    cases s with
    | nil => exact ⟨list, by simp [file_list_state_get_loop, fgets]⟩
    | cons c s =>
      have hlen : (fgets_read (4096 - 1) (c :: s)).2.length ≤ s.length :=
        fgets_read_length 4094 c s
      unfold file_list_state_get_loop fgets
      simp only [List.cons_ne_nil, if_false]
      exact ih _ _ (by simp only [List.length_cons] at hfuel; omega)

/-! ## Claims about loading the state file -/

/-- C13 as stated fails: the one-line file `a<NUL><TAB>1<TAB>2<NEWLINE>` is shorter than the
buffer, does not begin with `#` and holds two tabs, so the claim promises the record with the
path `a<NUL>`, mtime 1, size 2; but the C string in the buffer ends at the NUL, `strchr` finds
no tab, and the loaded snapshot is empty. -/
theorem C13_line_with_nul_gives_no_record :
    file_list_state_get (some [97, 0, 9, 49, 9, 50, 10]) (ex_world 1 false)
      = Res.ret (some []) (ex_world 1 false) ∧
    (split_lines [97, 0, 9, 49, 9, 50, 10]).filterMap spec_record
      = [{ path := [97, 0], size := 2, mtime := 1, changed := MONITOR_NONE }] := by
  decide

/-- C13 as amended: for every file content without NUL bytes whose lines are shorter than
the 4096-byte read buffer, `file_list_state_get` returns, in file order, exactly one record
for each line that does not begin with `#` and holds at least two tabs, with path the text
before the first tab, mtime `atoi` of the text between the first and the second tab and size
`atoi` of the text after the second tab, and no record for the other lines; it returns NULL
when the file cannot be opened, and for an existing file, whatever it holds, it returns a
list (empty when no line is valid), never NULL. -/
theorem C13_load_rules (content : List Nat) (w : World) (h0 : 0 ∉ content)
    (hlen : ∀ l ∈ split_lines content, l.length ≤ 4095) :
    file_list_state_get (some content) w
      = Res.ret (some ((split_lines content).filterMap spec_record)) w ∧
    file_list_state_get none w = Res.ret none w ∧
    ∀ c : List Nat, ∃ l, file_list_state_get (some c) w = Res.ret (some l) w := by
  refine ⟨?_, rfl, ?_⟩
  · simp only [file_list_state_get]
    rw [file_list_state_get_loop_eq_spec _ content [] (Nat.lt_succ_self _) h0 hlen]
    simp
  · intro c
    obtain ⟨l, hl⟩ := file_list_state_get_loop_total (c.length + 1) c [] (Nat.lt_succ_self _)
    exact ⟨l, by simp only [file_list_state_get, hl]⟩

/-- C13 as amended, at the file `#c`, `/d/a<TAB>100<TAB>10`, `bad` (three lines). -/
theorem C13_load_rules_witness :
    file_list_state_get
        (some [35, 99, 10, 47, 100, 47, 97, 9, 49, 48, 48, 9, 49, 48, 10, 98, 97, 100, 10])
        (ex_world 1 false)
      = Res.ret (some ((split_lines
          [35, 99, 10, 47, 100, 47, 97, 9, 49, 48, 48, 9, 49, 48, 10, 98, 97, 100, 10]).filterMap
            spec_record)) (ex_world 1 false) :=
  (C13_load_rules _ (ex_world 1 false) (by decide) (by decide)).1

/-! ## Lemmas: the paths of a scan -/

/-- C15, at the failing input: a monitor watching `/d` (regular file `x`) and `/e` (regular
file `y`).  The scan of `/d` finds `x`, but `monitor_files_get` keeps only the list of the
last root: the snapshot of the cycle is `{/e/y}`, and the watch cycle, started from an empty
previous snapshot, dispatches `/e/y` alone. -/
theorem C15_only_last_root_is_kept :
    scan_recursive ex_fs_two_roots 2 [47, 100]
      = Scan.list [{ path := [47, 100, 47, 120], size := 10, mtime := 100, changed := 0 }] ∧
    (∃ w1, monitor_files_get ex_host_two_roots 2 none ex_world_two_roots
      = Res.ret (some [{ path := [47, 101, 47, 121], size := 5, mtime := 50, changed := 0 }]) w1) ∧
    dispatched MONITOR_ADD
        (monitor_watch env_ok ex_host_two_roots 2 0 1 ex_world_two_roots).world.trace
      = [{ path := [47, 101, 47, 121], size := 5, mtime := 50, changed := MONITOR_ADD }] :=
  ⟨by decide, ⟨_, rfl⟩, by decide⟩

/-- C16, at the failing input `ex_fs_links`: because the entries are examined with `stat`,
which follows symbolic links, the test `S_ISLNK` never holds; the scan of `/d` records the
symbolic link `/d/l` as a file (with the size and mtime of its target) and descends into the
symbolic link `/d/s`, recording `/d/s/y`. -/
theorem C16_symbolic_links_are_followed :
    scan_recursive ex_fs_links 3 [47, 100]
      = Scan.list [{ path := [47, 100, 47, 120], size := 10, mtime := 100, changed := 0 },
                   { path := [47, 100, 47, 108], size := 10, mtime := 100, changed := 0 },
                   { path := [47, 100, 47, 115, 47, 121], size := 5, mtime := 50, changed := 0 }] := by
  decide

/-! ## Lemmas: the scanner when no `calloc` fails -/

theorem scan_entries_alloc_ok (calloc_null : Nat → Bool) (hok : ∀ k, calloc_null k = false)
    (fs : FS) (path : List Nat) :
    ∀ (names : List (List Nat)) (list : List file_t) (directories : List (List Nat)) (k : Nat)
      (w : World), ∃ k1,
      scan_entries_alloc calloc_null fs path names list directories k w
        = Res.ret ((scan_entries fs path names list directories).1,
            (scan_entries fs path names list directories).2, k1) w := by
  intro names
  induction names with
  | nil => intro list directories k w; exact ⟨k, rfl⟩
  | cons d_name names ih =>
    intro list directories k w
    unfold scan_entries_alloc scan_entries
    split
    · exact ih list directories k w
    · simp only
      cases hst : fs.stat (snprintf PATH_MAX (path ++ [SLASH] ++ d_name)) with
      | none => exact ih list directories k w
      | some fstat =>
        cases hmode : fstat.st_mode with
        | lnk => simp only [hmode]; exact ih list directories k w
        | dir => simp only [hmode]; exact ih list _ k w
        | other =>
          simp only [hmode, file_list_add_alloc, hok k, Bool.false_eq_true, if_false,
            Res.bind_ret]
          exact ih _ directories (k + 1) w

theorem scan_directories_alloc_ok (scan : List Nat → Scan)
    (scan_alloc : List Nat → Nat → World → Res (Option (List file_t) × Nat))
    (h : ∀ d k w, ∃ k1, scan_alloc d k w
      = match scan d with
        | Scan.list l => Res.ret (some l, k1) w
        | Scan.null => Res.ret (none, k1) w
        | Scan.fault => Res.fault w
        | Scan.more => Res.more w) :
    ∀ (ds : List (List Nat)) (list : List file_t) (k : Nat) (w : World), ∃ k1,
      scan_directories_alloc scan_alloc ds list k w
        = match scan_directories scan ds list with
          | Scan.list l => Res.ret (some l, k1) w
          | Scan.null => Res.ret (none, k1) w
          | Scan.fault => Res.fault w
          | Scan.more => Res.more w := by
  intro ds
  induction ds with
  | nil => intro list k w; exact ⟨k, rfl⟩
  | cons d ds ih =>
    intro list k w
    obtain ⟨k1, h1⟩ := h d k w
    unfold scan_directories_alloc scan_directories
    rw [h1]
    cases scan d with
    | list next => simp only [Res.bind_ret]; exact ih (list ++ next) k1 w
    | null => exact ⟨k1, rfl⟩
    | fault => exact ⟨k1, rfl⟩
    | more => exact ⟨k1, rfl⟩

/-- When no `calloc` fails, the scanner with allocation is the scanner of the claims above. -/
theorem scan_recursive_alloc_ok (calloc_null : Nat → Bool) (hok : ∀ k, calloc_null k = false)
    (fs : FS) :
    ∀ (depth : Nat) (path : List Nat) (k : Nat) (w : World), ∃ k1,
      scan_recursive_alloc calloc_null fs depth path k w
        = match scan_recursive fs depth path with
          | Scan.list l => Res.ret (some l, k1) w
          | Scan.null => Res.ret (none, k1) w
          | Scan.fault => Res.fault w
          | Scan.more => Res.more w := by
  intro depth
  induction depth with
  | zero => intro path k w; exact ⟨k, rfl⟩
  | succ depth ih =>
    intro path k w
    unfold scan_recursive_alloc scan_recursive
    cases hr : fs.readdir path with
    | none => exact ⟨k, rfl⟩
    | some names =>
      obtain ⟨k1, h1⟩ := scan_entries_alloc_ok calloc_null hok fs path names [] [] (k + 1) w
      simp only [hok k, Bool.false_eq_true, if_false, h1, Res.bind_ret]
      split
      · exact ⟨k1, rfl⟩
      · exact scan_directories_alloc_ok (scan_recursive fs depth)
          (scan_recursive_alloc calloc_null fs depth) ih _ _ k1 w

/-! ## Claims about fatal exits -/

/-- C17 as stated fails in its second part: with `initialized` false, `monitor_watch` returns
0 at once (same world, no exit), and `monitor_monitor` on such a monitor that has a watched
directory runs to its end and returns 1. -/
theorem C17_uninitialized_monitor_does_not_exit :
    monitor_watch env_ok ex_host 2 0 1 ex_world_uninitialized
      = Res.ret 0 ex_world_uninitialized ∧
    ∃ w1, monitor_monitor env_ok ex_host 2 2 1 ex_world_uninitialized = Res.ret 1 w1 :=
  ⟨rfl, _, rfl⟩

/-- C17 as amended.  (i) Every call of `error` ends the process with status 128: so does a
`wait` without child in `wait_for_job`, a failing `fork` in a pass, a `calloc` that returns
NULL in `file_list_add` (also when called from the scan) and in `scan_recursive`, and
`monitor_watch_add` beyond `DIRS_MAX`, on a missing path and on a path that is no directory.
(ii) Function `monitor_monitor` on a monitor without watched directory (`_d_idx = 0`) ends the
process with status 1, and `monitor_watch` on a monitor with `initialized` false returns 0
without doing anything.  (iii) Function `file_list_state_save` ends the process with status 16
when the state file cannot be opened for writing. -/
theorem C17_exit_codes (env : Env) (host : Host) (fs : FS) (cs : Bool)
    (home absolute path : List Nat) (S : List file_t) (work : Work) (f : file_t)
    (depth cycles cycle : Nat) (poll : Int) (w : World) :
    (∀ str : ErrorMsg, (error str w : Res Int) = Res.exit 128 (w.log (Event.print_error str))) ∧
    (w.children = [] → ∃ w1, wait_for_job env w = Res.exit 128 w1) ∧
    (w.n_jobs ≠ w.mon.parallel_max → env.fork_fails w.forks = true →
      dispatch env work f w
        = Res.exit 128 ({ w with forks := w.forks + 1 }.log (Event.print_error ErrorMsg.fork))) ∧
    (∀ list p st_mtime st_size,
      file_list_add_alloc true list p st_mtime st_size w
        = Res.exit 128 (w.log (Event.print_error ErrorMsg.calloc))) ∧
    (∀ calloc_null k names, fs.readdir path = some names → calloc_null k = true →
      scan_recursive_alloc calloc_null fs (depth + 1) path k w
        = Res.exit 128 (w.log (Event.print_error ErrorMsg.calloc))) ∧
    (∀ calloc_null k d_name names list directories fstat, d_name.head? ≠ some 46 →
      fs.stat (snprintf PATH_MAX (path ++ [SLASH] ++ d_name)) = some fstat →
      fstat.st_mode = Mode.other → calloc_null k = true →
      scan_entries_alloc calloc_null fs path (d_name :: names) list directories k w
        = Res.exit 128 (w.log (Event.print_error ErrorMsg.calloc))) ∧
    (DIRS_MAX ≤ w.mon._d_idx →
      monitor_watch_add cs fs home absolute path w
        = Res.exit 128 (w.log (Event.print_error ErrorMsg.dirs_limit))) ∧
    (w.mon._d_idx < DIRS_MAX → fs.stat path = none →
      monitor_watch_add cs fs home absolute path w
        = Res.exit 128 (w.log (Event.print_error ErrorMsg.no_directory))) ∧
    (w.mon._d_idx < DIRS_MAX → ∀ st, fs.stat path = some st → st.st_mode ≠ Mode.dir →
      monitor_watch_add cs fs home absolute path w
        = Res.exit 128 (w.log (Event.print_error ErrorMsg.not_a_directory))) ∧
    (w.mon._d_idx = 0 → monitor_monitor env host depth cycles poll w = Res.exit 1 w) ∧
    (w.mon.initialized = false → monitor_watch env host depth cycle poll w = Res.ret 0 w) ∧
    file_list_state_save false S w = Res.exit 16 w := by
  refine ⟨fun _ => rfl, ?_, ?_, ?_, ?_, ?_, ?_, ?_, ?_, ?_, ?_, rfl⟩
  · intro h
    exact ⟨_, wait_for_job_of_no_children env w h⟩
  · intro hcap hff
    simp [dispatch, hcap, hff, error, Res.bind]
  · intro list p st_mtime st_size
    simp [file_list_add_alloc, error]
  · intro calloc_null k names hr hnull
    simp [scan_recursive_alloc, hr, hnull, error]
  · intro calloc_null k d_name names list directories fstat hhid hst hmode hnull
    rw [scan_entries_alloc, if_neg hhid]
    simp only [hst, hmode, hnull, file_list_add_alloc, if_true, error, Res.bind_exit]
    rfl
  · intro h
    simp [monitor_watch_add, h, error]
  · intro h hst
    simp [monitor_watch_add, Nat.not_le.mpr h, hst, error]
  · intro h st hs hmode
    simp [monitor_watch_add, Nat.not_le.mpr h, hs, hmode, error]
  · intro h
    simp [monitor_monitor, h]
  · intro h
    simp [monitor_watch, h]

/-- C17 as amended, at a process with no child, where `wait_for_job` exits with status 128,
and at the scan of `/d` (one regular file `x`) in which the second `calloc`, the one of
`file_list_add` for `x`, returns NULL: the scan exits with status 128. -/
theorem C17_exit_codes_witness :
    (∃ w1, wait_for_job env_ok (ex_world 1 false) = Res.exit 128 w1) ∧
    scan_entries_alloc (fun k => decide (k = 1)) ex_fs [47, 100] [[120]] [] [] 1 (ex_world 1 false)
      = Res.exit 128 ((ex_world 1 false).log (Event.print_error ErrorMsg.calloc)) ∧
    scan_recursive_alloc (fun k => decide (k = 1)) ex_fs 2 [47, 100] 0 (ex_world 1 false)
      = Res.exit 128 ((ex_world 1 false).log (Event.print_error ErrorMsg.calloc)) ∧
    scan_recursive_alloc (fun k => decide (k = 0)) ex_fs 2 [47, 100] 0 (ex_world 1 false)
      = Res.exit 128 ((ex_world 1 false).log (Event.print_error ErrorMsg.calloc)) :=
  ⟨(C17_exit_codes env_ok ex_host ex_fs true [47, 104] [47, 100] [47, 100] [] Work.remote_add
      (ex_file 97 1) 2 2 0 1 (ex_world 1 false)).2.1 rfl,
    (C17_exit_codes env_ok ex_host ex_fs true [47, 104] [47, 100] [47, 100] [] Work.remote_add
      (ex_file 97 1) 2 2 0 1 (ex_world 1 false)).2.2.2.2.2.1 (fun k => decide (k = 1)) 1 [120] []
        [] [] { st_mode := Mode.other, st_size := 10, st_mtime := 100 } (by decide) (by decide)
        rfl rfl,
    by decide,
    (C17_exit_codes env_ok ex_host ex_fs true [47, 104] [47, 100] [47, 100] [] Work.remote_add
      (ex_file 97 1) 1 2 0 1 (ex_world 1 false)).2.2.2.2.1 (fun k => decide (k = 0)) 0
        [[46], [46, 46], [120]] (by decide) rfl⟩

/-- C18, at the failing inputs (password `pw`): when `fork` fails in the Added pass the
process exits through `error` with status 128 and the password is still `pw`; when the state
file cannot be opened for writing it exits with status 16 and the password is still `pw`;
only the transfer failure, which goes through `monitor_shutdown`, exits (status 1) with the
password bytes zeroed. -/
theorem C18_password_survives_error_exits :
    (∃ w1, file_lists_compare env_no_fork [] [ex_file 97 1] (ex_world 1 false) = Res.exit 128 w1 ∧
      w1.mon.password = some [112, 119, 0]) ∧
    (∃ w1, _monitor_compare_lists env_ok false (some []) (some [ex_file 97 1]) (ex_world 1 false)
        = Res.exit 16 w1 ∧ w1.mon.password = some [112, 119, 0]) ∧
    (∃ w1, file_lists_compare (env_exit1 0) [] [ex_file 97 1] (ex_world 1 false) = Res.exit 1 w1 ∧
      w1.mon.password = some [0, 0, 0]) :=
  ⟨⟨_, rfl, by decide⟩, ⟨_, rfl, by decide⟩, ⟨_, rfl, by decide⟩⟩

/-! ## Claims about the `changed` field -/

theorem phaseinv_log (k : Int) (w : World) (e : Event) (h : PhaseInv k w)
    (hf : ∀ j wk f, e ≠ Event.fork j wk f) (hr : ∀ j st, e ≠ Event.reap j st) :
    PhaseInv k (w.log e) := by
  cases e with
  | fork j wk f => exact absurd rfl (hf j wk f)
  | reap j st => exact absurd rfl (hr j st)
  | _ => exact h

theorem wait_for_job_children (env : Env) (w : World) (h : w.children ≠ []) :
    ∃ r w1 job, wait_for_job env w = Res.ret r w1 ∧
      w1.trace = Event.reap job (env.status job) :: w.trace ∧
      (∀ a ∈ w.children, a ≠ job → a ∈ w1.children) ∧
      w1.children.length + 1 = w.children.length ∧
      (w1.n_jobs = w.n_jobs ∨ w1.n_jobs = w.n_jobs - 1) := by
  obtain ⟨c, cs, hc⟩ := List.exists_cons_of_ne_nil h
  have hi : env.pick w.waits % (cs.length + 1) < (c :: cs).length := by
    simp only [List.length_cons]; exact Nat.mod_lt _ (Nat.succ_pos _)
  have hjob : (c :: cs).getD (env.pick w.waits % (cs.length + 1)) c
      = (c :: cs)[env.pick w.waits % (cs.length + 1)] := List.getD_eq_getElem _ _ hi
  have hmem : ∀ a ∈ c :: cs, a ≠ (c :: cs).getD (env.pick w.waits % (cs.length + 1)) c →
      a ∈ (c :: cs).eraseIdx (env.pick w.waits % (cs.length + 1)) := by
    intro a ha hne
    rw [List.mem_eraseIdx_iff_getElem?]
    obtain ⟨i, hi2⟩ := List.mem_iff_getElem?.mp ha
    refine ⟨i, ?_, hi2⟩
    intro hik
    subst hik
    rw [hjob] at hne
    rw [List.getElem?_eq_getElem hi] at hi2
    exact hne (Option.some.inj hi2).symm
  have hlen : ((c :: cs).eraseIdx (env.pick w.waits % (cs.length + 1))).length + 1
      = (c :: cs).length := by
    have hi2 := hi
    simp only [List.length_cons] at hi2
    simp only [List.length_eraseIdx, List.length_cons, if_pos hi2]; omega
  cases hs : env.status ((c :: cs).getD (env.pick w.waits % (cs.length + 1)) c) with
  | killed =>
    refine ⟨1,
      { w with waits := w.waits + 1,
               children := (c :: cs).eraseIdx (env.pick w.waits % (cs.length + 1)),
               trace := Event.reap ((c :: cs).getD (env.pick w.waits % (cs.length + 1)) c)
                 (env.status ((c :: cs).getD (env.pick w.waits % (cs.length + 1)) c)) :: w.trace },
      (c :: cs).getD (env.pick w.waits % (cs.length + 1)) c, ?_, rfl, ?_, ?_, Or.inl rfl⟩
    · simp only [wait_for_job, sys_wait, hc, hs]
    · rw [hc]; exact hmem
    · rw [hc]; exact hlen
  | exited code =>
    refine ⟨((code % 256 : Nat) : Int),
      { w with waits := w.waits + 1,
               children := (c :: cs).eraseIdx (env.pick w.waits % (cs.length + 1)),
               trace := Event.reap ((c :: cs).getD (env.pick w.waits % (cs.length + 1)) c)
                 (env.status ((c :: cs).getD (env.pick w.waits % (cs.length + 1)) c)) :: w.trace,
               n_jobs := w.n_jobs - 1 },
      (c :: cs).getD (env.pick w.waits % (cs.length + 1)) c, ?_, rfl, ?_, ?_, Or.inr rfl⟩
    · simp only [wait_for_job, sys_wait, hc, hs]
    · rw [hc]; exact hmem
    · rw [hc]; exact hlen

theorem wait_for_job_phaseinv (env : Env) (k : Int) (w : World) (h : PhaseInv k w) :
    PhaseInv k (wait_for_job env w).world := by
  by_cases hc : w.children = []
  · rw [wait_for_job_of_no_children env w hc]
    exact h
  · obtain ⟨r, w1, job, hw, htr, hmem, hlen, hn⟩ := wait_for_job_children env w hc
    obtain ⟨g1, g2, g3, g4, g5⟩ := h
    rw [hw]
    simp only [Res.world]
    refine ⟨?_, ?_, ?_, ?_, ?_⟩
    · rcases hn with hn | hn <;> omega
    · intro x hx
      rw [htr] at hx
      simp only [live, List.mem_filter, decide_eq_true_eq] at hx
      exact hmem x.1 (g2 x hx.1) hx.2
    · intro x hx
      rw [htr] at hx
      simp only [live, List.mem_filter] at hx
      exact g3 x hx.1
    · rw [htr]; exact g4
    · rw [htr]; exact g5

theorem dispatch_phaseinv (env : Env) (k : Int) (work : Work) (f : file_t) (w : World)
    (h : PhaseInv k w) (hk : f.changed = k) : PhaseInv k (dispatch env work f w).world := by
  unfold dispatch
  have h0 : PhaseInv k
      (if w.n_jobs = w.mon.parallel_max then wait_for_job env w else Res.ret 0 w).world := by
    split
    · exact wait_for_job_phaseinv env k w h
    · exact h
  apply Res.world_bind_of_inv (PhaseInv k) _ _ h0
  intro _ w1 hw
  rw [hw] at h0
  obtain ⟨g1, g2, g3, g4, g5⟩ := h0
  simp only [Res.world] at g1 g2 g3 g4 g5
  split
  · exact ⟨g1, g2, g3, g4, g5⟩
  · refine ⟨?_, ?_, ?_, ?_, ?_⟩
    · simp only [Res.world, List.length_append, List.length_singleton]
      push_cast
      omega
    · intro x hx
      simp only [Res.world, live, List.mem_cons] at hx
      simp only [Res.world, List.mem_append, List.mem_singleton]
      rcases hx with rfl | hx
      · exact Or.inr rfl
      · exact Or.inl (g2 x hx)
    · intro x hx
      simp only [Res.world, live, List.mem_cons] at hx
      rcases hx with rfl | hx
      · exact hk
      · exact g3 x hx
    · intro k' hk'
      simp only [Res.world, forked_kinds, List.mem_cons] at hk'
      rcases hk' with rfl | hk'
      · rw [hk]
      · exact g4 k' hk'
    · simp only [Res.world, sequential]
      exact ⟨g5, fun x hx => (g3 x hx).trans hk.symm, fun k' hk' => hk ▸ g4 k' hk'⟩

theorem wait_for_all_jobs_loop_phaseinv (env : Env) (k : Int) :
    ∀ (fuel : Nat) (w : World), PhaseInv k w →
      PhaseInv k (wait_for_all_jobs_loop env fuel w).world := by
  intro fuel
  induction fuel with
  | zero => intro w h; exact h
  | succ fuel ih =>
    intro w h
    unfold wait_for_all_jobs_loop
    split
    · have hq := wait_for_job_phaseinv env k w h
      split
      · rename_i err w1 heq
        rw [heq] at hq
        split
        · exact hq
        · exact ih w1 hq
      · rename_i c w1 heq; rw [heq] at hq; exact hq
      · rename_i w1 heq; rw [heq] at hq; exact hq
      · rename_i w1 heq; rw [heq] at hq; exact hq
    · exact h

theorem transfer_error_phaseinv (α : Type) (k : Int) (w : World) (h : PhaseInv k w) :
    PhaseInv k (_transfer_error w : Res α).world := by
  unfold _transfer_error monitor_shutdown
  cases w.mon.password <;> exact h

theorem phase_barrier_phaseinv (env : Env) (k : Int) (m total : Int) (w : World)
    (h : PhaseInv k w) : PhaseInv k (phase_barrier env m total w).world := by
  unfold phase_barrier
  split
  · have h0 := wait_for_all_jobs_loop_phaseinv env k (w.children.length + 1) w h
    apply Res.world_bind_of_inv (PhaseInv k) _ _ h0
    intro s w1 hw
    rw [hw] at h0
    split
    · exact transfer_error_phaseinv Int k w1 h0
    · exact h0
  · exact h

/-- When the block after a pass returns, either the pass counted nothing and nothing
happened, or no job is left. -/
theorem phase_barrier_ret_idle (env : Env) (m total : Int) (w : World) (t : Int) (w1 : World)
    (hle : (w.children.length : Int) ≤ w.n_jobs)
    (h : phase_barrier env m total w = Res.ret t w1) :
    (m = 0 ∧ w1 = w) ∨ (w1.n_jobs = 0 ∧ w1.children = []) := by
  unfold phase_barrier at h
  by_cases hm : m = 0
  · simp only [hm, ne_eq, not_true_eq_false, if_false, Res.ret.injEq] at h
    exact Or.inl ⟨hm, h.2.symm⟩
  · rw [if_pos hm, Res.bind_eq_ret] at h
    obtain ⟨s, w2, hw, h⟩ := h
    obtain ⟨_, _, _, h4⟩ :=
      wait_for_all_jobs_loop_spec env (w.children.length + 1) w (Nat.lt_succ_self _) hle
    unfold wait_for_all_jobs at hw
    rw [hw] at h4
    rcases h4 with ⟨hs, hn, hc⟩ | ⟨hs, _⟩
    · subst hs
      simp only [one_ne_zero, if_false, Res.ret.injEq] at h
      rw [← h.2]
      exact Or.inr ⟨hn, hc⟩
    · subst hs
      simp only [if_true] at h
      exact absurd h (transfer_error_not_ret Int w2 t w1)

theorem phaseinv_next (k k' : Int) (w : World) (h : PhaseInv k w) (hc : w.children = [])
    (hk : phase_rank k ≤ phase_rank k') : PhaseInv k' w := by
  obtain ⟨g1, g2, g3, g4, g5⟩ := h
  refine ⟨g1, g2, ?_, fun x hx => le_trans (g4 x hx) hk, g5⟩
  intro x hx
  have := g2 x hx
  rw [hc] at this
  simp at this

theorem phaseinv_of_idle (k : Int) (w : World) (hn : w.n_jobs = 0) (hc : w.children = [])
    (ht : w.trace = []) : PhaseInv k w := by
  refine ⟨?_, ?_, ?_, ?_, ?_⟩
  · rw [hc, hn]; rfl
  · rw [ht]; intro x hx; cases hx
  · rw [ht]; intro x hx; cases hx
  · rw [ht]; intro x hx; cases hx
  · rw [ht]; trivial

/-- A pass that starts with no job running, followed by its barrier: when the barrier
returns, no job is running. -/
theorem pass_then_barrier_idle (env : Env) (k : Int) (w w1 w2 : World) (m total t : Int)
    (hn : w.n_jobs = 0) (hc : w.children = []) (hinv : PhaseInv k w1) (hsame : m = 0 → w1 = w)
    (hb : phase_barrier env m total w1 = Res.ret t w2) : w2.n_jobs = 0 ∧ w2.children = [] := by
  rcases phase_barrier_ret_idle env m total w1 t w2 hinv.1 hb with ⟨hm, hw⟩ | h
  · rw [hw, hsame hm]; exact ⟨hn, hc⟩
  · exact h

/-! ## C19: the phases are sequential -/

/-- C19: In every execution of `file_lists_compare` that starts with no job running
(observed from an empty trace), whatever the limit, the completion statuses, the order in
which `wait` reaps and the failures of `fork`, and however the execution ends: at every
fork, all jobs still running are of the kind of the job forked, and no job of a later phase
has been forked before (the order is Added, Modified, Deleted).  Moreover, when the block
after a pass returns, `n_jobs = 0` and no child is left, after the Added pass, after the
Modified pass and after the Deleted pass. -/
theorem C19_phases_are_sequential (env : Env) (first second : List file_t) (w : World)
    (hn : w.n_jobs = 0) (hc : w.children = []) (ht : w.trace = []) :
    sequential (file_lists_compare env first second w).world.trace ∧
    ∀ a w1 t1 w2, _check_add_files env first second w = Res.ret a w1 →
      phase_barrier env a.1 0 w1 = Res.ret t1 w2 →
      (w2.n_jobs = 0 ∧ w2.children = []) ∧
      ∀ m w3 t2 w4, _check_mod_files env first a.2 w2 = Res.ret m w3 →
        phase_barrier env m.1 t1 w3 = Res.ret t2 w4 →
        (w4.n_jobs = 0 ∧ w4.children = []) ∧
        ∀ d w5 t3 w6, _check_del_files env first m.2 w4 = Res.ret d w5 →
          phase_barrier env d.1 t2 w5 = Res.ret t3 w6 →
          w6.n_jobs = 0 ∧ w6.children = [] := by
  have hlog : ∀ k w e, PhaseInv k w → (∀ j wk f, e ≠ Event.fork j wk f) →
      (∀ j st, e ≠ Event.reap j st) → (∀ c, e ≠ Event.saved c) → PhaseInv k (w.log e) :=
    fun k w e h hf hr _ => phaseinv_log k w e h hf hr
  have hA : PhaseInv MONITOR_ADD (_check_add_files env first second w).world :=
    check_add_files_loop_inv env first (PhaseInv MONITOR_ADD) (hlog MONITOR_ADD)
      (fun w0 f h => dispatch_phaseinv env MONITOR_ADD Work.remote_add (tag MONITOR_ADD f) w0 h rfl)
      second 0 w (phaseinv_of_idle MONITOR_ADD w hn hc ht)
  have hM : ∀ l w0, PhaseInv MONITOR_MOD w0 →
      PhaseInv MONITOR_MOD (_check_mod_files env first l w0).world :=
    fun l w0 h => check_mod_files_loop_inv env first (PhaseInv MONITOR_MOD) (hlog MONITOR_MOD)
      (fun w0 f h => dispatch_phaseinv env MONITOR_MOD Work.remote_add (tag MONITOR_MOD f) w0 h rfl)
      l 0 w0 h
  have hD : ∀ l w0, PhaseInv MONITOR_DEL w0 →
      PhaseInv MONITOR_DEL (_check_del_files env first l w0).world :=
    fun l w0 h => check_del_files_loop_inv env l (PhaseInv MONITOR_DEL) (hlog MONITOR_DEL)
      (fun w0 f h => dispatch_phaseinv env MONITOR_DEL Work.remote_del (tag MONITOR_DEL f) w0 h rfl)
      first 0 w0 h
  have key : ∀ a w1 t1 w2, _check_add_files env first second w = Res.ret a w1 →
      phase_barrier env a.1 0 w1 = Res.ret t1 w2 →
      (w2.n_jobs = 0 ∧ w2.children = [] ∧ PhaseInv MONITOR_MOD w2) ∧
      ∀ m w3 t2 w4, _check_mod_files env first a.2 w2 = Res.ret m w3 →
        phase_barrier env m.1 t1 w3 = Res.ret t2 w4 →
        (w4.n_jobs = 0 ∧ w4.children = [] ∧ PhaseInv MONITOR_DEL w4) ∧
        ∀ d w5 t3 w6, _check_del_files env first m.2 w4 = Res.ret d w5 →
          phase_barrier env d.1 t2 w5 = Res.ret t3 w6 →
          w6.n_jobs = 0 ∧ w6.children = [] := by
    intro a w1 t1 w2 ha hb
    have hA1 : PhaseInv MONITOR_ADD w1 := by rw [ha] at hA; exact hA
    have hB : PhaseInv MONITOR_ADD w2 := by
      have := phase_barrier_phaseinv env MONITOR_ADD a.1 0 w1 hA1
      rw [hb] at this; exact this
    have hi2 : w2.n_jobs = 0 ∧ w2.children = [] :=
      pass_then_barrier_idle env MONITOR_ADD w w1 w2 a.1 0 t1 hn hc hA1
        (check_add_files_loop_ret env first second 0 w a w1 ha).2.1 hb
    have hM2 : PhaseInv MONITOR_MOD w2 :=
      phaseinv_next MONITOR_ADD MONITOR_MOD w2 hB hi2.2 (by decide)
    refine ⟨⟨hi2.1, hi2.2, hM2⟩, ?_⟩
    intro m w3 t2 w4 hm hb2
    have hM3 : PhaseInv MONITOR_MOD w3 := by
      have := hM a.2 w2 hM2
      rw [hm] at this; exact this
    have hB4 : PhaseInv MONITOR_MOD w4 := by
      have := phase_barrier_phaseinv env MONITOR_MOD m.1 t1 w3 hM3
      rw [hb2] at this; exact this
    have hi4 : w4.n_jobs = 0 ∧ w4.children = [] :=
      pass_then_barrier_idle env MONITOR_MOD w2 w3 w4 m.1 t1 t2 hi2.1 hi2.2 hM3
        (check_mod_files_loop_ret env first a.2 0 w2 m w3 hm).2.1 hb2
    have hD4 : PhaseInv MONITOR_DEL w4 :=
      phaseinv_next MONITOR_MOD MONITOR_DEL w4 hB4 hi4.2 (by decide)
    refine ⟨⟨hi4.1, hi4.2, hD4⟩, ?_⟩
    intro d w5 t3 w6 hd hb3
    have hD5 : PhaseInv MONITOR_DEL w5 := by
      have := hD m.2 w4 hD4
      rw [hd] at this; exact this
    exact pass_then_barrier_idle env MONITOR_DEL w4 w5 w6 d.1 t2 t3 hi4.1 hi4.2 hD5
      (check_del_files_loop_ret env m.2 first 0 w4 d w5 hd).2.1 hb3
  refine ⟨?_, ?_⟩
  · unfold file_lists_compare
    apply Res.world_bind_of_inv (fun w0 => sequential w0.trace) _ _ hA.2.2.2.2
    intro a w1 ha
    have hA1 : PhaseInv MONITOR_ADD w1 := by rw [ha] at hA; exact hA
    apply Res.world_bind_of_inv (fun w0 => sequential w0.trace) _ _
      (phase_barrier_phaseinv env MONITOR_ADD a.1 0 w1 hA1).2.2.2.2
    intro t1 w2 hb
    obtain ⟨⟨_, _, hM2⟩, key2⟩ := key a w1 t1 w2 ha hb
    apply Res.world_bind_of_inv (fun w0 => sequential w0.trace) _ _ (hM a.2 w2 hM2).2.2.2.2
    intro m w3 hm
    have hM3 : PhaseInv MONITOR_MOD w3 := by
      have := hM a.2 w2 hM2
      rw [hm] at this; exact this
    apply Res.world_bind_of_inv (fun w0 => sequential w0.trace) _ _
      (phase_barrier_phaseinv env MONITOR_MOD m.1 t1 w3 hM3).2.2.2.2
    intro t2 w4 hb2
    obtain ⟨⟨_, _, hD4⟩, _⟩ := key2 m w3 t2 w4 hm hb2
    apply Res.world_bind_of_inv (fun w0 => sequential w0.trace) _ _ (hD m.2 w4 hD4).2.2.2.2
    intro d w5 hd
    have hD5 : PhaseInv MONITOR_DEL w5 := by
      have := hD m.2 w4 hD4
      rw [hd] at this; exact this
    have hB6 := phase_barrier_phaseinv env MONITOR_DEL d.1 t2 w5 hD5
    apply Res.world_bind_of_inv (fun w0 => sequential w0.trace) _ _ hB6.2.2.2.2
    intro t3 w6 hb3
    rw [hb3] at hB6
    simp only [Res.world]
    split
    · exact hB6.2.2.2.2
    · exact hB6.2.2.2.2
  · intro a w1 t1 w2 ha hb
    obtain ⟨⟨h1, h2, _⟩, key2⟩ := key a w1 t1 w2 ha hb
    refine ⟨⟨h1, h2⟩, ?_⟩
    intro m w3 t2 w4 hm hb2
    obtain ⟨⟨h3, h4, _⟩, key3⟩ := key2 m w3 t2 w4 hm hb2
    exact ⟨⟨h3, h4⟩, key3⟩

/-- C19 at `prev = {a@1, b@1, c@1}`, `now = {a@1, b@2, d@1, e@1}` with limit 2 and every job
exiting with status 0: the run forks two Added jobs (`d`, `e`), then a Modified job (`b`),
then a Deleted job (`c`), and returns; each block after a pass leaves no job running. -/
theorem C19_phases_are_sequential_witness :
    (sequential
        (file_lists_compare env_ok [ex_file 97 1, ex_file 98 1, ex_file 99 1]
          [ex_file 97 1, ex_file 98 2, ex_file 100 1, ex_file 101 1] (ex_world 2 false)).world.trace ∧
      forked_kinds
        (file_lists_compare env_ok [ex_file 97 1, ex_file 98 1, ex_file 99 1]
          [ex_file 97 1, ex_file 98 2, ex_file 100 1, ex_file 101 1] (ex_world 2 false)).world.trace
        = [MONITOR_DEL, MONITOR_MOD, MONITOR_ADD, MONITOR_ADD]) ∧
    ∃ a w1 t1 w2 m w3 t2 w4,
      _check_add_files env_ok [ex_file 97 1, ex_file 98 1, ex_file 99 1]
        [ex_file 97 1, ex_file 98 2, ex_file 100 1, ex_file 101 1] (ex_world 2 false)
        = Res.ret a w1 ∧
      phase_barrier env_ok a.1 0 w1 = Res.ret t1 w2 ∧
      _check_mod_files env_ok [ex_file 97 1, ex_file 98 1, ex_file 99 1] a.2 w2 = Res.ret m w3 ∧
      phase_barrier env_ok m.1 t1 w3 = Res.ret t2 w4 ∧
      (w1.n_jobs = 2 ∧ w1.children = [0, 1]) ∧ (w2.n_jobs = 0 ∧ w2.children = []) ∧
      (w3.n_jobs = 1 ∧ w3.children = [2]) ∧ (w4.n_jobs = 0 ∧ w4.children = []) :=
  ⟨⟨(C19_phases_are_sequential env_ok [ex_file 97 1, ex_file 98 1, ex_file 99 1]
      [ex_file 97 1, ex_file 98 2, ex_file 100 1, ex_file 101 1] (ex_world 2 false) rfl rfl rfl).1,
    by decide⟩,
   _, _, _, _, _, _, _, _, rfl, rfl, rfl, rfl, by decide,
   ((C19_phases_are_sequential env_ok [ex_file 97 1, ex_file 98 1, ex_file 99 1]
      [ex_file 97 1, ex_file 98 2, ex_file 100 1, ex_file 101 1] (ex_world 2 false) rfl rfl rfl).2
        _ _ _ _ rfl rfl).1,
   by decide,
   (((C19_phases_are_sequential env_ok [ex_file 97 1, ex_file 98 1, ex_file 99 1]
      [ex_file 97 1, ex_file 98 2, ex_file 100 1, ex_file 101 1] (ex_world 2 false) rfl rfl rfl).2
        _ _ _ _ rfl rfl).2 _ _ _ _ rfl rfl).1⟩

end Dropsy
